import Mathlib

/-!
# Verification of the facet-json specification against its source

This development shallowly embeds the core of the facet-json crate — the
shape-driven JSON serializer (`src/serialize.rs`) and recursive-descent
deserializer (`src/deserialize.rs`) — and proves or refutes the frozen claims
about them.

Modelling conventions:

* The input buffer is a `List Char` (the source operates on UTF-8 bytes of a
  valid string; we model the decoded characters).
* The tokenizer (`src/tokenizer.rs` is not part of the provided sources; only
  `crate::tokenizer` uses remain) is modelled from the specification, §4.B:
  whitespace skipping, structural punctuation, whole-word literals, the JSON
  number grammar with narrowest-fit integer classification, and string
  unescaping with a copy-on-write borrowed/owned flag.
* The `Partial` value builder of facet-reflect is an external collaborator; we
  model its effect directly: the deserializer is indexed by a `Sh` (shape) and
  constructs a `Val`.  Typed `set` calls check the scalar kind of the current
  shape exactly as `Partial::set` checks the concrete Rust type, and failures
  surface as `reflect` errors.
* Recursive functions take an explicit fuel argument (first argument), so that
  all definitions are structurally recursive and kernel-computable; running
  out of fuel yields the distinguished error `fuelOut`, which never occurs in
  any theorem below (fuel is always taken large enough).
* Error values are modelled by their kind; byte spans and source-text
  attachment (purely diagnostic data) are not modelled, and consequently the
  `Spanned<T>` capture branch of `deserialize_into` is modelled as an
  unsupported-shape error.  No claim concerns spans.
* Custom codec hooks (`serialize_with` / `deserialize_with` / `parse_from_str`),
  flattened fields (which delegate to the external solver subsystem), `Cow`
  targets and slice-pointees are outside the modelled fragment: the modelled
  `Sh` type simply has no shapes carrying them, mirroring the fact that every
  branch of the source that is modelled is modelled on the shapes that can
  reach it here.
-/

namespace FacetJson

/-! ## Tokens and tokenizer errors (modelled from the spec, §4.B)

`TokenErrorKind` follows the four variants visible in `src/deserialize.rs`
(`label()` at lines 283-288): `UnexpectedCharacter`, `UnexpectedEof`,
`InvalidUtf8`, `NumberOutOfRange`. -/

inductive TokenErrorKind where
  | unexpectedCharacter (c : Char)
  | unexpectedEof (ctx : String)
  | invalidUtf8
  | numberOutOfRange (value : String)
deriving DecidableEq, Repr

/-- Lexical tokens.  `str` carries the decoded payload together with the
copy-on-write status of the source: `escaped = false` models `Cow::Borrowed`
(no escape sequence occurred, the payload is a slice of the input) and
`escaped = true` models `Cow::Owned`.  The numeric constructors mirror
`I64`/`U64`/`I128`/`U128`/`F64`; the `f64` payload is kept as an exact
rational (no claim depends on float rounding). -/
inductive Token where
  | lbrace | rbrace | lbracket | rbracket | colon | comma
  | tTrue | tFalse | tNull
  | str (s : String) (escaped : Bool)
  | i64 (n : Int)
  | u64 (n : Nat)
  | i128 (n : Int)
  | u128 (n : Nat)
  | f64 (q : Rat)
  | eof
deriving DecidableEq, Repr

/-- Display rendering of a token, as used by the deserializer's
`format!("\x7b\x7d", token.node)` in error messages.  Modelled from the spec:
the `Display` impl lives in the missing `tokenizer.rs`; each token displays as
its surface syntax. -/
def Token.display : Token → String
  | .lbrace => "\x7b"
  | .rbrace => "\x7d"
  | .lbracket => "["
  | .rbracket => "]"
  | .colon => ":"
  | .comma => ","
  | .tTrue => "true"
  | .tFalse => "false"
  | .tNull => "null"
  | .str s _ => "\"" ++ s ++ "\""
  | .i64 n => toString n
  | .u64 n => toString n
  | .i128 n => toString n
  | .u128 n => toString n
  | .f64 q => toString q
  | .eof => "end of input"

/-- Whitespace accepted between tokens (spec §4.B: SPACE, TAB, LF, CR). -/
def isWs (c : Char) : Bool :=
  c = ' ' || c = '\t' || c = '\n' || c = '\r'

/-- Skip whitespace between tokens. -/
def skipWs : List Char → List Char
  | [] => []
  | c :: cs => if isWs c then skipWs cs else c :: cs

/-- Decimal digit test. -/
def isDigit (c : Char) : Bool := '0' ≤ c && c ≤ '9'

/-- ASCII letter test (used for whole-word literal keywords). -/
def isAlpha (c : Char) : Bool := ('a' ≤ c && c ≤ 'z') || ('A' ≤ c && c ≤ 'Z')

/-- Numeric value of a decimal digit character. -/
def digitVal (c : Char) : Nat := c.toNat - '0'.toNat

/-- Take the longest prefix of decimal digits. -/
def takeDigits : List Char → (List Char × List Char)
  | [] => ([], [])
  | c :: cs =>
    if isDigit c then
      let (ds, rest) := takeDigits cs
      (c :: ds, rest)
    else ([], c :: cs)

/-- Take the longest prefix of ASCII letters (an identifier-like run). -/
def takeAlpha : List Char → (List Char × List Char)
  | [] => ([], [])
  | c :: cs =>
    if isAlpha c then
      let (ds, rest) := takeAlpha cs
      (c :: ds, rest)
    else ([], c :: cs)

/-- Value of a digit run (most significant first). -/
def digitsToNat (ds : List Char) : Nat :=
  ds.foldl (fun acc c => acc * 10 + digitVal c) 0

/-- Hex digit test. -/
def isHexDigit (c : Char) : Bool :=
  isDigit c || ('a' ≤ c && c ≤ 'f') || ('A' ≤ c && c ≤ 'F')

/-- Value of a hex digit. -/
def hexVal (c : Char) : Nat :=
  if isDigit c then c.toNat - '0'.toNat
  else if 'a' ≤ c && c ≤ 'f' then c.toNat - 'a'.toNat + 10
  else c.toNat - 'A'.toNat + 10

/-! Integer width bounds, written with explicit powers of two. -/

/-- `2^63`. -/
def p63 : Nat := 9223372036854775808
/-- `2^64`. -/
def p64 : Nat := 18446744073709551616
/-- `2^127`. -/
def p127 : Nat := 170141183460469231731687303715884105728
/-- `2^128`. -/
def p128 : Nat := 340282366920938463463374607431768211456

/-- Narrowest-fit classification of an integer literal into a numeric token.
Modelled from the spec: §3 "The lexer picks the narrowest representation that
losslessly holds the digits" and §4.B "attempt signed parse first (prefer
`I64` …); if positive and overflows signed, try `U64` …; overflow of all four
yields `NumberOutOfRange`".  So: `i64` if it fits, else `u64` for
non-negative values, else `i128`, else `u128`, else a tokenizer-level
`NumberOutOfRange`. -/
def intFitToken (n : Int) (text : String) : Except TokenErrorKind Token :=
  if -(p63 : Int) ≤ n ∧ n < (p63 : Int) then .ok (.i64 n)
  else if 0 ≤ n ∧ n < (p64 : Int) then .ok (.u64 n.toNat)
  else if -(p127 : Int) ≤ n ∧ n < (p127 : Int) then .ok (.i128 n)
  else if 0 ≤ n ∧ n < (p128 : Int) then .ok (.u128 n.toNat)
  else .error (.numberOutOfRange text)

/-- Sign step of number lexing (spec §4.B: optional minus). -/
def lexNumSign : List Char → (Bool × List Char)
  | '-' :: rest => (true, rest)
  | cs => (false, cs)

/-- Integer-part step of number lexing (spec §4.B: at least one digit; no
leading zero except `0` itself, a leading `0` ends the integer part). -/
def lexIntDigits : List Char → Except TokenErrorKind (List Char × List Char)
  | [] => .error (.unexpectedEof "in number")
  | c :: rest =>
    if !isDigit c then .error (.unexpectedCharacter c)
    else if c = '0' then .ok ([c], rest)
    else .ok (takeDigits (c :: rest))

/-- Fraction step of number lexing (spec §4.B: `.` followed by at least one
digit; no `.` means no fraction). -/
def lexFracPart : List Char → Except TokenErrorKind (Bool × List Char × List Char)
  | '.' :: rest =>
    match takeDigits rest with
    | (ds, r) =>
      if ds = [] then
        .error (.unexpectedCharacter (match r with | c :: _ => c | [] => '.'))
      else .ok (true, ds, r)
  | cs => .ok (false, [], cs)

/-- Exponent-digit step: at least one digit after `e`/`E` and optional sign. -/
def lexExpDigits (neg : Bool) (rest : List Char) :
    Except TokenErrorKind (Bool × Bool × List Char × List Char) :=
  match takeDigits rest with
  | (ds, r) =>
    if ds = [] then
      .error (.unexpectedCharacter (match r with | c :: _ => c | [] => 'e'))
    else .ok (true, neg, ds, r)

/-- Exponent step of number lexing (spec §4.B: `e` or `E`, optional sign,
at least one digit). -/
def lexExpPart : List Char → Except TokenErrorKind (Bool × Bool × List Char × List Char)
  | 'e' :: '+' :: rest => lexExpDigits false rest
  | 'e' :: '-' :: rest => lexExpDigits true rest
  | 'e' :: rest => lexExpDigits false rest
  | 'E' :: '+' :: rest => lexExpDigits false rest
  | 'E' :: '-' :: rest => lexExpDigits true rest
  | 'E' :: rest => lexExpDigits false rest
  | cs => .ok (false, false, [], cs)

/-- Pair a classified token with the rest of the input, or propagate the
classification error. -/
def finishTok : Except TokenErrorKind Token → List Char →
    Except TokenErrorKind (Token × List Char)
  | .ok t, cs4 => .ok (t, cs4)
  | .error e, _ => .error e

/-- Final step of integer-token lexing: classify the digits narrowest-fit. -/
def lexIntFinish (neg : Bool) (intDs cs4 : List Char) :
    Except TokenErrorKind (Token × List Char) :=
  finishTok
    (intFitToken
      (if neg then -((digitsToNat intDs : Nat) : Int) else ((digitsToNat intDs : Nat) : Int))
      (String.mk ((if neg then ['-'] else []) ++ intDs)))
    cs4

/-- Exponent stage and the fraction-or-exponent `F64` decision (spec §4.B). -/
def lexNumberExp (neg : Bool) (intDs : List Char) (fracPresent : Bool)
    (fracDs cs3 : List Char) : Except TokenErrorKind (Token × List Char) :=
  match lexExpPart cs3 with
  | .error e => .error e
  | .ok (expPresent, expNeg, expDs, cs4) =>
    if fracPresent ∨ expPresent then
      -- F64: exact rational value (float rounding is not modelled; no claim
      -- depends on the numeric value of an F64 token).
      let mantissa : Nat := digitsToNat (intDs ++ fracDs)
      let base : Rat := (mantissa : Rat) / ((10 : Rat) ^ fracDs.length)
      let scaled : Rat :=
        if expNeg then base / ((10 : Rat) ^ digitsToNat expDs)
        else base * ((10 : Rat) ^ digitsToNat expDs)
      let q : Rat := if neg then -scaled else scaled
      .ok (.f64 q, cs4)
    else lexIntFinish neg intDs cs4

/-- Fraction stage of number lexing. -/
def lexNumberFrac (neg : Bool) (intDs cs2 : List Char) :
    Except TokenErrorKind (Token × List Char) :=
  match lexFracPart cs2 with
  | .error e => .error e
  | .ok (fracPresent, fracDs, cs3) => lexNumberExp neg intDs fracPresent fracDs cs3

/-- Integer-part stage of number lexing. -/
def lexNumberInt (neg : Bool) (cs1 : List Char) :
    Except TokenErrorKind (Token × List Char) :=
  match lexIntDigits cs1 with
  | .error e => .error e
  | .ok (intDs, cs2) => lexNumberFrac neg intDs cs2

/-- Lex a number starting at the current position (first char is a digit or
`-`).  Modelled from the spec, §4.B, as the composition of the stages above:
optional minus, integer part with no leading zero except `0` itself, optional
fraction, optional exponent; a fraction or exponent forces `F64`, otherwise
the narrowest-fit integer rule applies. -/
def lexNumber (cs : List Char) : Except TokenErrorKind (Token × List Char) :=
  match lexNumSign cs with
  | (neg, cs1) => lexNumberInt neg cs1

/-- Decode four hex digits into a code unit. -/
def hex4 (a b c d : Char) : Nat :=
  ((hexVal a * 16 + hexVal b) * 16 + hexVal c) * 16 + hexVal d

/-- Lex the body of a string (the opening quote has been consumed).  Returns
the decoded payload, whether any escape sequence occurred (`true` models a
`Cow::Owned` payload, `false` a zero-copy borrow), and the rest of the input.
Modelled from the spec, §4.B: escapes `\" \\ \/ \b \f \n \r \t \uXXXX` with
UTF-16 surrogate-pair reassembly; a lone surrogate fails with `InvalidUtf8`; a
control character (below 0x20) inside a string fails with
`UnexpectedCharacter`.  `lexStringBodyGo` is one step: `k` is the continuation
for the remaining body (instantiated with `lexStringBody fuel`). -/
def lexStringBodyGo (k : List Char → Except TokenErrorKind (List Char × Bool × List Char)) :
    List Char → Except TokenErrorKind (List Char × Bool × List Char)
  | [] => .error (.unexpectedEof "in string")
  | c :: rest =>
    if c = '"' then .ok ([], false, rest)
    else if c = '\\' then
      match rest with
      | [] => .error (.unexpectedEof "in string escape")
      | e :: rest2 =>
        let simple : Option Char :=
          if e = '"' then some '"'
          else if e = '\\' then some '\\'
          else if e = '/' then some '/'
          else if e = 'b' then some (Char.ofNat 8)
          else if e = 'f' then some (Char.ofNat 12)
          else if e = 'n' then some '\n'
          else if e = 'r' then some '\r'
          else if e = 't' then some '\t'
          else none
        match simple with
        | some d =>
          (match k rest2 with
           | .error err => .error err
           | .ok (tl, _, rest3) => .ok (d :: tl, true, rest3))
        | none =>
          if e = 'u' then
            match rest2 with
            | h1 :: h2 :: h3 :: h4 :: rest3 =>
              if isHexDigit h1 && isHexDigit h2 && isHexDigit h3 && isHexDigit h4 then
                let n := hex4 h1 h2 h3 h4
                if 0xD800 ≤ n ∧ n < 0xDC00 then
                  -- high surrogate: require a following \uXXXX low surrogate
                  match rest3 with
                  | '\\' :: 'u' :: l1 :: l2 :: l3 :: l4 :: rest4 =>
                    if isHexDigit l1 && isHexDigit l2 && isHexDigit l3 && isHexDigit l4 then
                      let m := hex4 l1 l2 l3 l4
                      if 0xDC00 ≤ m ∧ m < 0xE000 then
                        let scalar := 0x10000 + (n - 0xD800) * 0x400 + (m - 0xDC00)
                        (match k rest4 with
                         | .error err => .error err
                         | .ok (tl, _, rest5) => .ok (Char.ofNat scalar :: tl, true, rest5))
                      else .error .invalidUtf8
                    else .error .invalidUtf8
                  | _ => .error .invalidUtf8
                else if 0xDC00 ≤ n ∧ n < 0xE000 then .error .invalidUtf8
                else
                  (match k rest3 with
                   | .error err => .error err
                   | .ok (tl, _, rest4) => .ok (Char.ofNat n :: tl, true, rest4))
              else .error .invalidUtf8
            | _ => .error (.unexpectedEof "in unicode escape")
          else .error (.unexpectedCharacter e)
    else if c.toNat < 0x20 then .error (.unexpectedCharacter c)
    else
      match k rest with
      | .error err => .error err
      | .ok (tl, esc, rest2) => .ok (c :: tl, esc, rest2)

def lexStringBody : Nat → List Char → Except TokenErrorKind (List Char × Bool × List Char)
  | 0, _ =>
    -- fuel exhaustion; unreachable, `nextToken` supplies fuel beyond the
    -- input length
    .error (.unexpectedEof "in string")
  | fuel+1, cs => lexStringBodyGo (lexStringBody fuel) cs

/-- Produce the next token (and the remaining input).  Modelled from the
spec, §4.B.  `eof` is returned indefinitely once the end of input is
reached. -/
def nextToken (cs : List Char) : Except TokenErrorKind (Token × List Char) :=
  match skipWs cs with
  | [] => .ok (.eof, [])
  | c :: rest =>
    if c = '\x7b' then .ok (.lbrace, rest)
    else if c = '\x7d' then .ok (.rbrace, rest)
    else if c = '[' then .ok (.lbracket, rest)
    else if c = ']' then .ok (.rbracket, rest)
    else if c = ':' then .ok (.colon, rest)
    else if c = ',' then .ok (.comma, rest)
    else if c = '"' then
      match lexStringBody (rest.length + 1) rest with
      | .ok (payload, esc, rest2) => .ok (.str (String.mk payload) esc, rest2)
      | .error e => .error e
    else if isDigit c || c = '-' then lexNumber (c :: rest)
    else if isAlpha c then
      let (run, rest2) := takeAlpha (c :: rest)
      if run = ['t', 'r', 'u', 'e'] then .ok (.tTrue, rest2)
      else if run = ['f', 'a', 'l', 's', 'e'] then .ok (.tFalse, rest2)
      else if run = ['n', 'u', 'l', 'l'] then .ok (.tNull, rest2)
      else .error (.unexpectedCharacter c)
    else .error (.unexpectedCharacter c)

/-! ## Shapes and values

`Sh` models the shape descriptors of facet-core that the engines dispatch on
(`Def` / `Type` in the source).  Each constructor corresponds to one dispatch
class of `deserialize_into` (src/deserialize.rs:572-626) and `serialize_value`
(src/serialize.rs:96-425).  Struct fields and enum-variant fields are
`(name, default-flag, shape)` triples; the default flag models
`FieldFlags::DEFAULT`.  Custom codec hooks, flattened fields, `Cow` targets,
unit-kind and tuple-struct-kind structs, slice pointees and non-`str`
reference pointees have no constructor here: they are outside the modelled
fragment. -/

/-- Struct-level attributes read by `deserialize_struct_simple`
(src/deserialize.rs:1146-1148). -/
structure StructAttrs where
  denyUnknownFields : Bool := false
  hasDefaultAttr : Bool := false
deriving DecidableEq, Repr

/-- Enum tagging attributes.  The serializer reads `untagged`, `tag` and
`content` (src/serialize.rs:317-320); `type_tag` is stored by the shape system
(used by tests) but read by neither engine in the provided sources. -/
structure EnumAttrs where
  untagged : Bool := false
  tag : Option String := none
  content : Option String := none
  typeTag : Option String := none
deriving DecidableEq, Repr

/-- Kind of an enum variant's data (`StructKind` narrowed to the three variant
kinds: `Unit`, `Tuple`/`TupleStruct`, `Struct`). -/
inductive VariantKind where
  | unit | tup | strukt
deriving DecidableEq, Repr

inductive Sh where
  | sbool
  /-- Sized integer scalar: byte size (1, 2, 4, 8 or 16) and signedness,
  exactly the keys used by `set_number_*`. -/
  | sint (size : Nat) (signed : Bool)
  /-- Float scalar: byte size 4 or 8.  Only the non-finite values are
  modelled (see `FloatVal`). -/
  | sfloat (size : Nat)
  /-- Owned string scalar (`String`). -/
  | sstring
  /-- `&str`: a shared-reference pointer whose pointee is `str`. -/
  | strRef
  | soption (inner : Sh)
  /-- Owning smart pointer (`Box`/`Arc`/`Rc`) to a sized pointee.
  `hasBorrow` models whether the pointer vtable exposes `borrow_inner`. -/
  | sptr (hasBorrow : Bool) (inner : Sh)
  /-- Transparent wrapper (shape with `inner` set / `Transparent` attribute). -/
  | stransparent (inner : Sh)
  | slist (elem : Sh)
  | sset (elem : Sh)
  | sarray (elem : Sh) (n : Nat)
  /-- Tuple (struct with `StructKind::Tuple`). -/
  | stuple (elems : List Sh)
  /-- Plain struct (`StructKind::Struct`), fields `(name, defaultFlag, shape)`. -/
  | sstruct (attrs : StructAttrs) (fields : List (String × Bool × Sh))
  /-- Enum: variants `(effective name, kind, fields)`.  The stored name is the
  post-`rename` name, which is what `select_variant_named` matches. -/
  | senum (attrs : EnumAttrs) (variants : List (String × VariantKind × List (String × Bool × Sh)))
  | smap (key : Sh) (value : Sh)

/-- Non-finite floating values.  Finite floats are outside the modelled
fragment (their serialization goes through the external `ryu` crate's
shortest-decimal algorithm); the claims only concern `NaN` and infinities. -/
inductive FloatVal where
  | nan | inf | neginf
deriving DecidableEq, Repr

inductive Val where
  | vbool (b : Bool)
  | vint (n : Int)
  | vfloat (f : FloatVal)
  | vstr (s : String)
  | vnone
  | vsome (v : Val)
  | vptr (v : Val)
  /-- Payload of lists, sets and fixed arrays. -/
  | vlist (vs : List Val)
  | vtuple (vs : List Val)
  /-- Struct payload: field values in declared order. -/
  | vstruct (vs : List Val)
  /-- Enum payload: active variant name and its field values in order. -/
  | venum (name : String) (fields : List Val)
  /-- Map payload: entries in iteration order. -/
  | vmap (entries : List (String × Val))

/-- `type_identifier` of a shape, as used in error messages. -/
def typeIdent : Sh → String
  | .sbool => "bool"
  | .sint 1 true => "i8"
  | .sint 2 true => "i16"
  | .sint 4 true => "i32"
  | .sint 8 true => "i64"
  | .sint 16 true => "i128"
  | .sint 1 false => "u8"
  | .sint 2 false => "u16"
  | .sint 4 false => "u32"
  | .sint 8 false => "u64"
  | .sint 16 false => "u128"
  | .sint _ _ => "int"
  | .sfloat 4 => "f32"
  | .sfloat 8 => "f64"
  | .sfloat _ => "float"
  | .sstring => "String"
  | .strRef => "&str"
  | .soption _ => "Option"
  | .sptr _ _ => "Box"
  | .stransparent _ => "Transparent"
  | .slist _ => "Vec"
  | .sset _ => "HashSet"
  | .sarray _ _ => "Array"
  | .stuple _ => "Tuple"
  | .sstruct _ _ => "Struct"
  | .senum _ _ => "Enum"
  | .smap _ _ => "HashMap"

/-! ## Errors -/

/-- Builder (facet-reflect) errors surfaced as `JsonErrorKind::Reflect`.
Modelled from the external `Partial` contract: selecting an unknown variant,
setting a value whose concrete type does not match the current frame's shape,
and building with an uninitialized field. -/
inductive ReflectErr where
  | noVariantNamed (name : String)
  | wrongShape (context : String)
  | uninitializedField (name : String)
deriving DecidableEq, Repr

/-- `JsonErrorKind` (src/deserialize.rs:139-209), with spans and source-code
attachment omitted.  `fuelOut` is a modelling artifact: the distinguished
result of running out of fuel; no theorem below ever produces it. -/
inductive JsonErrorKind where
  | token (e : TokenErrorKind)
  | tokenWithContext (error : TokenErrorKind) (expectedType : String)
  | unexpectedToken (got : String) (expected : String)
  | unexpectedEof (expected : String)
  | typeMismatch (expected : String) (got : String)
  | unknownField (field : String) (expected : List String) (suggestion : Option String)
  | missingField (field : String)
  | invalidValue (message : String)
  | reflect (e : ReflectErr)
  | numberOutOfRange (value : String) (targetType : String)
  | duplicateKey (key : String)
  | invalidUtf8
  | solver (msg : String)
  | fuelOut
deriving DecidableEq, Repr

/-- Result of a parsing step: value plus remaining input. -/
abbrev PRes (α : Type) := Except JsonErrorKind (α × List Char)

/-! ## Jaro–Winkler similarity and field suggestion

`find_similar_field` (src/deserialize.rs:23-36) uses `strsim::jaro_winkler`.
The similarity is computed here in exact rational arithmetic following the
strsim algorithm: greedy windowed matching, half-transposition count, and the
Winkler common-prefix boost `sim + 0.1 · ℓ · (1 − sim)` without a prefix cap. -/

/-- Find the smallest unused index `j` with `lo ≤ j ≤ hi` and `b[j] = c`;
mark it used.  Helper for the greedy Jaro matching pass. -/
def jaroFindMatch (c : Char) (lo hi : Nat) : List (Char × Bool) → Nat → Option (List (Char × Bool) × Nat)
  | [], _ => none
  | (bc, used) :: rest, j =>
    if lo ≤ j ∧ j ≤ hi ∧ bc = c ∧ !used then
      some ((bc, true) :: rest, j)
    else
      (jaroFindMatch c lo hi rest (j + 1)).map (fun (rest', jf) => ((bc, used) :: rest', jf))

/-- Greedy matching pass: returns the list of matched `b`-indices in `a`
order. -/
def jaroMatches (range : Nat) : List Char → Nat → List (Char × Bool) → List Nat
  | [], _, _ => []
  | c :: as_, i, bflags =>
    let lo := i - range
    let hi := i + range
    match jaroFindMatch c lo hi bflags 0 with
    | some (bflags', j) => j :: jaroMatches range as_ (i + 1) bflags'
    | none => jaroMatches range as_ (i + 1) bflags

/-- Transposition count: each matched `b`-index smaller than its predecessor
counts one transposition (strsim's `if j < b_match_index` bookkeeping). -/
def jaroTranspositions : List Nat → Nat
  | [] => 0
  | [_] => 0
  | a :: b :: rest => (if b < a then 1 else 0) + jaroTranspositions (b :: rest)

/-- Jaro similarity in exact rationals. -/
def jaro (a b : List Char) : Rat :=
  let la := a.length
  let lb := b.length
  if la = 0 ∧ lb = 0 then 1
  else if la = 0 ∨ lb = 0 then 0
  else
    let range := max la lb / 2 - 1
    let ms := jaroMatches range a 0 (b.map (fun c => (c, false)))
    let m := ms.length
    if m = 0 then 0
    else
      let k := jaroTranspositions ms
      Rat.div (Rat.add (Rat.add (mkRat m la) (mkRat m lb)) (mkRat (m - k) m)) (mkRat 3 1)

/-- Length of the common prefix of the two strings. -/
def commonPrefixLen : List Char → List Char → Nat
  | a :: as_, b :: bs => if a = b then 1 + commonPrefixLen as_ bs else 0
  | _, _ => 0

/-- `strsim::jaro_winkler`, in exact rationals. -/
def jaroWinkler (a b : String) : Rat :=
  let j := jaro a.toList b.toList
  let l := commonPrefixLen a.toList b.toList
  min (Rat.add j (Rat.mul (mkRat l 10) (Rat.sub (mkRat 1 1) j))) (mkRat 1 1)

/-- `find_similar_field` (src/deserialize.rs:23-36): best match with
similarity ≥ 0.6, strict improvement required, so the earliest candidate wins
ties. -/
def findSimilarField (unknown : String) (expected : List String) : Option String :=
  let best := expected.foldl
    (fun best candidate =>
      let similarity := jaroWinkler unknown candidate
      if similarity ≥ mkRat 6 10 then
        match best with
        | none => some (candidate, similarity)
        | some (_, bestSim) =>
          if similarity > bestSim then some (candidate, similarity) else best
      else best)
    none
  best.map (fun p => p.1)

/-! ## Default values

Models `Default` for the modelled shapes, as used by `set_default`
(scalar `null`, src/deserialize.rs:674-677) and
`set_nth_field_to_default` (src/deserialize.rs:1251-1256).  Shapes outside
the fragment with a `Default` impl in Rust but none here: finite floats
(see `FloatVal`).  Enums have no derived `Default`. -/
def defaultValue : Nat → Sh → Option Val
  | 0, _ => none
  | fuel+1, sh =>
    match sh with
    | .sbool => some (.vbool false)
    | .sint _ _ => some (.vint 0)
    | .sfloat _ => none
    | .sstring => some (.vstr "")
    | .strRef => some (.vstr "")
    | .soption _ => some .vnone
    | .sptr _ inner => (defaultValue fuel inner).map .vptr
    | .stransparent inner => defaultValue fuel inner
    | .slist _ => some (.vlist [])
    | .sset _ => some (.vlist [])
    | .sarray e n => (defaultValue fuel e).map (fun d => .vlist (List.replicate n d))
    | .stuple es => (es.mapM (defaultValue fuel)).map .vtuple
    | .sstruct _ fields =>
      ((fields.map (fun fld => fld.2.2)).mapM (defaultValue fuel)).map .vstruct
    | .senum _ _ => none
    | .smap _ _ => some (.vmap [])

/-- `is_spanned_shape` (src/deserialize.rs:363-372): a struct with exactly two
fields named `value` and `span`. -/
def isSpannedShape : Sh → Bool
  | .sstruct _ fields =>
    fields.length = 2 && fields.any (fun fld => fld.1 = "value")
      && fields.any (fun fld => fld.1 = "span")
  | _ => false

/-! ## Typed number setters (src/deserialize.rs:742-1086)

The source keys its dispatch on the shape's byte size and signedness; the
`i8`/`i16`/`i32` (and unsigned) arms perform `try_from` range checks, the
native-width arms set directly.  `Partial::set` with a concrete 128-bit type
against a frame of the opposite signedness is a builder type mismatch and
surfaces as a `reflect` error. -/

/-- Rust `u64 as i64` (two's-complement wrap), as performed unconditionally at
src/deserialize.rs:991 despite the adjacent comment "Convert unsigned to
signed if it fits". -/
def u64AsI64 (n : Nat) : Int :=
  if n < p63 then (n : Int) else (n : Int) - (p64 : Int)

/-- Rust `f64 as i64` saturating cast (used at src/deserialize.rs:800), on an
integral value. -/
def satI64 (x : Int) : Int :=
  if x < -(p63 : Int) then -(p63 : Int)
  else if x ≥ (p63 : Int) then (p63 : Int) - 1
  else x

/-- Rust `f64 as u64` saturating cast (src/deserialize.rs:802). -/
def satU64 (x : Int) : Nat :=
  if x < 0 then 0
  else if x ≥ (p64 : Int) then p64 - 1
  else x.toNat

/-- The signed arms of `set_number_i64` (src/deserialize.rs:825-878): sizes
1/2/4 range-check via `try_from`, sizes 8/16 set directly. -/
def setIntSigned (size : Nat) (n : Int) : Except JsonErrorKind Val :=
  match size with
  | 1 => if -128 ≤ n ∧ n ≤ 127 then .ok (.vint n)
         else .error (.numberOutOfRange (toString n) "i8")
  | 2 => if -32768 ≤ n ∧ n ≤ 32767 then .ok (.vint n)
         else .error (.numberOutOfRange (toString n) "i16")
  | 4 => if -2147483648 ≤ n ∧ n ≤ 2147483647 then .ok (.vint n)
         else .error (.numberOutOfRange (toString n) "i32")
  | 8 => .ok (.vint n)
  | 16 => .ok (.vint n)
  | _ => .error (.invalidValue ("unexpected integer size: " ++ toString size))

/-- The unsigned arms of `set_number_u64` (src/deserialize.rs:936-987). -/
def setIntUnsigned (size : Nat) (n : Nat) : Except JsonErrorKind Val :=
  match size with
  | 1 => if n ≤ 255 then .ok (.vint n)
         else .error (.numberOutOfRange (toString n) "u8")
  | 2 => if n ≤ 65535 then .ok (.vint n)
         else .error (.numberOutOfRange (toString n) "u16")
  | 4 => if n ≤ 4294967295 then .ok (.vint n)
         else .error (.numberOutOfRange (toString n) "u32")
  | 8 => .ok (.vint n)
  | 16 => .ok (.vint n)
  | _ => .error (.invalidValue ("unexpected integer size: " ++ toString size))

/-- `set_number_i64` (src/deserialize.rs:809-918).  The unsigned branch
rejects negatives then re-dispatches through `set_number_u64`'s unsigned arms;
the float branch sets the converted float, which is outside the modelled
fragment (finite floats). -/
def setNumberI64 (sh : Sh) (n : Int) : Except JsonErrorKind Val :=
  match sh with
  | .sint size true => setIntSigned size n
  | .sint size false =>
    if n < 0 then .error (.numberOutOfRange (toString n) (typeIdent sh))
    else setIntUnsigned size n.toNat
  | .sfloat size =>
    match size with
    | 4 => .error (.invalidValue "finite float values are outside the modelled fragment")
    | 8 => .error (.invalidValue "finite float values are outside the modelled fragment")
    | _ => .error (.invalidValue ("unexpected float size: " ++ toString size))
  | _ => .error (.typeMismatch (typeIdent sh) "integer")

/-- `set_number_u64` (src/deserialize.rs:920-1020).  The signed branch is the
unchecked `self.set_number_i64(wip, n as i64, span)` of line 991: the value is
wrapped two's-complement style and re-dispatched through the signed arms. -/
def setNumberU64 (sh : Sh) (n : Nat) : Except JsonErrorKind Val :=
  match sh with
  | .sint size false => setIntUnsigned size n
  | .sint size true => setIntSigned size (u64AsI64 n)
  | .sfloat size =>
    match size with
    | 4 => .error (.invalidValue "finite float values are outside the modelled fragment")
    | 8 => .error (.invalidValue "finite float values are outside the modelled fragment")
    | _ => .error (.invalidValue ("unexpected float size: " ++ toString size))
  | _ => .error (.typeMismatch (typeIdent sh) "unsigned integer")

/-- `set_number_i128` (src/deserialize.rs:1022-1053): a 16-byte shape is set
directly with the concrete `i128` (a builder type mismatch if the shape is
`u128`); otherwise the value must fit `i64` and re-dispatches, else
`NumberOutOfRange` with the shape's type identifier. -/
def setNumberI128 (sh : Sh) (n : Int) : Except JsonErrorKind Val :=
  match sh with
  | .sint 16 true => .ok (.vint n)
  | .sint 16 false => .error (.reflect (.wrongShape "set i128"))
  | _ =>
    if -(p63 : Int) ≤ n ∧ n < (p63 : Int) then setNumberI64 sh n
    else .error (.numberOutOfRange (toString n) (typeIdent sh))

/-- `set_number_u128` (src/deserialize.rs:1055-1086), symmetric to
`setNumberI128`. -/
def setNumberU128 (sh : Sh) (n : Nat) : Except JsonErrorKind Val :=
  match sh with
  | .sint 16 false => .ok (.vint n)
  | .sint 16 true => .error (.reflect (.wrongShape "set u128"))
  | _ =>
    if n < p64 then setNumberU64 sh n
    else .error (.numberOutOfRange (toString n) (typeIdent sh))

/-- `set_number_f64` (src/deserialize.rs:743-807): floats outside the
fragment; integer targets require a zero fractional part, then promote via the
(saturating) `as` casts of lines 800/802. -/
def setNumberF64 (sh : Sh) (q : Rat) : Except JsonErrorKind Val :=
  match sh with
  | .sfloat size =>
    match size with
    | 4 => .error (.invalidValue "finite float values are outside the modelled fragment")
    | 8 => .error (.invalidValue "finite float values are outside the modelled fragment")
    | _ => .error (.invalidValue ("unexpected float size: " ++ toString size))
  | .sint _ signed =>
    if q.den ≠ 1 then
      .error (.typeMismatch (typeIdent sh) "float with fractional part")
    else if signed then setNumberI64 sh (satI64 q.num)
    else setNumberU64 sh ((satU64 q.num : Nat) : Nat)
  | _ => .error (.typeMismatch (typeIdent sh) "number")

/-- `deserialize_scalar` (src/deserialize.rs:651-704).  No `parse_from_str`
hooks and no `Cow` targets exist in the modelled fragment, so the string arm
is `wip.set(s.into_owned())`: a builder type mismatch unless the shape is the
owned string. -/
def deserializeScalar (fuel : Nat) (sh : Sh) (cs : List Char) : PRes Val :=
  match nextToken cs with
  | .error e => .error (.tokenWithContext e (typeIdent sh))
  | .ok (t, cs') =>
    match t with
    | .str s _ =>
      match sh with
      | .sstring => .ok (.vstr s, cs')
      | _ => .error (.reflect (.wrongShape "set String"))
    | .tTrue =>
      match sh with
      | .sbool => .ok (.vbool true, cs')
      | _ => .error (.reflect (.wrongShape "set bool"))
    | .tFalse =>
      match sh with
      | .sbool => .ok (.vbool false, cs')
      | _ => .error (.reflect (.wrongShape "set bool"))
    | .tNull =>
      match defaultValue fuel sh with
      | some d => .ok (d, cs')
      | none => .error (.reflect (.wrongShape "set_default"))
    | .f64 q => (setNumberF64 sh q).map (fun v => (v, cs'))
    | .i64 n => (setNumberI64 sh n).map (fun v => (v, cs'))
    | .u64 n => (setNumberU64 sh n).map (fun v => (v, cs'))
    | .i128 n => (setNumberI128 sh n).map (fun v => (v, cs'))
    | .u128 n => (setNumberU128 sh n).map (fun v => (v, cs'))
    | _ => .error (.unexpectedToken t.display "scalar value")

/-- `set_string_value` (src/deserialize.rs:707-740): `&str` requires a
borrowed payload, otherwise fails; the default arm sets the owned string (a
builder type mismatch unless the shape is the owned string). -/
def setStringValue (sh : Sh) (s : String) (escaped : Bool) : Except JsonErrorKind Val :=
  match sh with
  | .strRef =>
    if escaped then
      .error (.invalidValue "cannot borrow &str from JSON string containing escape sequences - use String instead")
    else .ok (.vstr s)
  | .sstring => .ok (.vstr s)
  | _ => .error (.reflect (.wrongShape "set String"))

/-! ## Skipping unknown values (src/deserialize.rs:453-502) -/

/-- The depth-counting loop of `skip_value`: `braces = true` counts only
`\x7b`/`\x7d`, `braces = false` counts only `[`/`]`; every other token is
accepted. -/
def skipBalanced : Nat → Nat → Bool → List Char → PRes Unit
  | 0, _, _, _ => .error .fuelOut
  | fuel+1, depth, braces, cs =>
    match nextToken cs with
    | .error e => .error (.token e)
    | .ok (t, cs') =>
      let depth' :=
        if braces then
          match t with
          | .lbrace => depth + 1
          | .rbrace => depth - 1
          | _ => depth
        else
          match t with
          | .lbracket => depth + 1
          | .rbracket => depth - 1
          | _ => depth
      if depth' = 0 then .ok ((), cs') else skipBalanced fuel depth' braces cs'

/-- `skip_value` (src/deserialize.rs:453-502). -/
def skipValue (fuel : Nat) (cs : List Char) : PRes Unit :=
  match nextToken cs with
  | .error e => .error (.token e)
  | .ok (t, cs') =>
    match t with
    | .lbrace => skipBalanced fuel 1 true cs'
    | .lbracket => skipBalanced fuel 1 false cs'
    | .str _ _ => .ok ((), cs')
    | .f64 _ => .ok ((), cs')
    | .i64 _ => .ok ((), cs')
    | .u64 _ => .ok ((), cs')
    | .u128 _ => .ok ((), cs')
    | .i128 _ => .ok ((), cs')
    | .tTrue => .ok ((), cs')
    | .tFalse => .ok ((), cs')
    | .tNull => .ok ((), cs')
    | _ => .error (.unexpectedToken t.display "value")

/-! ## Deserialization loops

Each loop takes the element parser `pv` (instantiated with
`deserializeInto fuel` by the dispatcher) as an argument and its own fuel for
its iteration count, so that all recursion is structural. -/

/-- The "consume a `,` if present" step appearing after every entry of the
struct/list/set/map/enum-tuple loops (e.g. src/deserialize.rs:1218-1222).
A tokenizer failure propagates, as it does through the source's `peek()?`. -/
def consumeOptionalComma (cs : List Char) : Except JsonErrorKind (List Char) :=
  match nextToken cs with
  | .error e => .error (.token e)
  | .ok (.comma, cs') => .ok cs'
  | .ok _ => .ok cs

/-- The element loop shared by `deserialize_list` (src/deserialize.rs:1881-1896)
and the identically-shaped `deserialize_set` (src/deserialize.rs:2211-2226):
stop on `]`, otherwise parse an element, then an optional comma. -/
def seqElems (pv : Sh → List Char → PRes Val) :
    Nat → Sh → List Val → List Char → PRes (List Val)
  | 0, _, _, _ => .error .fuelOut
  | fuel+1, elem, acc, cs =>
    match nextToken cs with
    | .error e => .error (.token e)
    | .ok (.rbracket, cs') => .ok (acc.reverse, cs')
    | .ok _ =>
      match pv elem cs with
      | .error e => .error e
      | .ok (v, cs1) =>
        match consumeOptionalComma cs1 with
        | .error e => .error e
        | .ok cs2 => seqElems pv fuel elem (v :: acc) cs2

/-- The element loop shared by `deserialize_tuple` (src/deserialize.rs:2257-2274)
and `deserialize_array` (src/deserialize.rs:2149-2166): exactly one element
per shape, a mandatory `,` before every element but the first. -/
def fixedElems (pv : Sh → List Char → PRes Val) :
    Nat → List Sh → Bool → List Val → List Char → PRes (List Val)
  | 0, _, _, _, _ => .error .fuelOut
  | fuel+1, shapes, first, acc, cs =>
    match shapes with
    | [] => .ok (acc.reverse, cs)
    | sh :: rest =>
      if first then
        match pv sh cs with
        | .error e => .error e
        | .ok (v, cs1) => fixedElems pv fuel rest false (v :: acc) cs1
      else
        match nextToken cs with
        | .error e => .error (.token e)
        | .ok (.comma, cs') =>
          match pv sh cs' with
          | .error e => .error e
          | .ok (v, cs1) => fixedElems pv fuel rest false (v :: acc) cs1
        | .ok (t, _) => .error (.unexpectedToken t.display "','")

/-! ## Struct deserialization (src/deserialize.rs:1112-1272) -/

/-- Find a struct field by name together with its index
(src/deserialize.rs:1181-1185). -/
def findFieldIdx (fields : List (String × Bool × Sh)) (key : String) :
    Option (Nat × (String × Bool × Sh)) :=
  match fields with
  | [] => none
  | fld :: rest =>
    if fld.1 = key then some (0, fld)
    else (findFieldIdx rest key).map (fun p => (p.1 + 1, p.2))

/-- Overwrite slot `i` (duplicate keys silently last-win). -/
def setSlot : List (Option Val) → Nat → Val → List (Option Val)
  | [], _, _ => []
  | _ :: rest, 0, v => some v :: rest
  | s :: rest, i+1, v => s :: setSlot rest i v

/-- The field loop of `deserialize_struct_simple`
(src/deserialize.rs:1151-1235): stop on `\x7d`; key string, `:`, then either a
known field (parse into its slot), or — unknown — fail with `UnknownField`
when `deny_unknown_fields` is set and skip the value otherwise; then an
optional comma. -/
def structFieldsLoop (pv : Sh → List Char → PRes Val) :
    Nat → StructAttrs → List (String × Bool × Sh) → List (Option Val) → List Char →
    PRes (List (Option Val))
  | 0, _, _, _, _ => .error .fuelOut
  | fuel+1, attrs, fields, slots, cs =>
    match nextToken cs with
    | .error e => .error (.token e)
    | .ok (.rbrace, cs') => .ok (slots, cs')
    | .ok (.str key _, cs1) =>
      match nextToken cs1 with
      | .error e => .error (.token e)
      | .ok (.colon, cs2) =>
        match findFieldIdx fields key with
        | some (idx, fld) =>
          match pv fld.2.2 cs2 with
          | .error e => .error e
          | .ok (v, cs3) =>
            match consumeOptionalComma cs3 with
            | .error e => .error e
            | .ok cs4 => structFieldsLoop pv fuel attrs fields (setSlot slots idx v) cs4
        | none =>
          if attrs.denyUnknownFields then
            .error (.unknownField key (fields.map (fun fld => fld.1))
              (findSimilarField key (fields.map (fun fld => fld.1))))
          else
            match skipValue fuel cs2 with
            | .error e => .error e
            | .ok (_, cs3) =>
              match consumeOptionalComma cs3 with
              | .error e => .error e
              | .ok cs4 => structFieldsLoop pv fuel attrs fields slots cs4
      | .ok (t, _) => .error (.unexpectedToken t.display "':'")
    | .ok (t, _) => .error (.unexpectedToken t.display "field name or '\x7d'")

/-- Missing-field resolution (src/deserialize.rs:1238-1269): a field default
flag (covering `FieldFlags::DEFAULT`; no `default_fn` hooks exist in the
fragment) applies the type default, else a struct-level `default` attribute
applies it when the field type has one, else `MissingField`. -/
def resolveMissing (fuel : Nat) (hasDefaultAttr : Bool) :
    List (String × Bool × Sh) → List (Option Val) → Except JsonErrorKind (List Val)
  | [], _ => .ok []
  | fld :: rest, slots =>
    match slots.headD none with
    | some v => (resolveMissing fuel hasDefaultAttr rest slots.tail).map (fun vs => v :: vs)
    | none =>
      if fld.2.1 then
        match defaultValue fuel fld.2.2 with
        | some d => (resolveMissing fuel hasDefaultAttr rest slots.tail).map (fun vs => d :: vs)
        | none => .error (.reflect (.wrongShape "set_nth_field_to_default"))
      else if hasDefaultAttr then
        match defaultValue fuel fld.2.2 with
        | some d => (resolveMissing fuel hasDefaultAttr rest slots.tail).map (fun vs => d :: vs)
        | none => .error (.missingField fld.1)
      else .error (.missingField fld.1)

/-- `deserialize_struct_simple` (src/deserialize.rs:1112-1272).  Structs with
flattened fields would take the solver path (src/deserialize.rs:1103); no
field of the modelled fragment carries `flatten`. -/
def deserializeStructD (pv : Sh → List Char → PRes Val) (fuel : Nat)
    (attrs : StructAttrs) (fields : List (String × Bool × Sh)) (cs : List Char) : PRes Val :=
  match nextToken cs with
  | .error e => .error (.token e)
  | .ok (.lbrace, cs') =>
    match structFieldsLoop pv fuel attrs fields
        (List.replicate fields.length none) cs' with
    | .error e => .error e
    | .ok (slots, cs2) =>
      match resolveMissing fuel attrs.hasDefaultAttr fields slots with
      | .error e => .error e
      | .ok vs => .ok (.vstruct vs, cs2)
  | .ok (t, _) => .error (.unexpectedToken t.display "'\x7b'")

/-! ## Map deserialization (src/deserialize.rs:1903-1980) -/

/-- The transparent-key unwrap of `deserialize_map`'s key path
(src/deserialize.rs:1948-1952). -/
def mapKeyShape : Sh → Sh
  | .stransparent inner => inner
  | ksh => ksh

/-- The entry loop of `deserialize_map`: key string (entering a transparent
key wrapper's inner shape first), `:`, value, optional comma. -/
def mapEntries (pv : Sh → List Char → PRes Val) :
    Nat → Sh → Sh → List (String × Val) → List Char → PRes (List (String × Val))
  | 0, _, _, _, _ => .error .fuelOut
  | fuel+1, ksh, vsh, acc, cs =>
    match nextToken cs with
    | .error e => .error (.token e)
    | .ok (.rbrace, cs') => .ok (acc.reverse, cs')
    | .ok (.str key esc, cs1) =>
      match nextToken cs1 with
      | .error e => .error (.token e)
      | .ok (.colon, cs2) =>
        match setStringValue (mapKeyShape ksh) key esc with
        | .error e => .error e
        | .ok _ =>
          match pv vsh cs2 with
          | .error e => .error e
          | .ok (v, cs3) =>
            match consumeOptionalComma cs3 with
            | .error e => .error e
            | .ok cs4 => mapEntries pv fuel ksh vsh ((key, v) :: acc) cs4
      | .ok (t, _) => .error (.unexpectedToken t.display "':'")
    | .ok (t, _) => .error (.unexpectedToken t.display "string key")

/-! ## Enum deserialization (src/deserialize.rs:1527-1862) -/

/-- `select_variant_named`: look a variant up by its (post-rename) name. -/
def findVariant (variants : List (String × VariantKind × List (String × Bool × Sh)))
    (name : String) : Option (String × VariantKind × List (String × Bool × Sh)) :=
  variants.find? (fun v => v.1 == name)

/-- The field loop of a tuple variant inside `deserialize_enum`
(src/deserialize.rs:1645-1663): one element per field, optional comma after
each. -/
def enumTupleFields (pv : Sh → List Char → PRes Val) :
    Nat → List (String × Bool × Sh) → List Val → List Char → PRes (List Val)
  | 0, _, _, _ => .error .fuelOut
  | fuel+1, fields, acc, cs =>
    match fields with
    | [] => .ok (acc.reverse, cs)
    | fld :: rest =>
      match pv fld.2.2 cs with
      | .error e => .error e
      | .ok (v, cs1) =>
        match consumeOptionalComma cs1 with
        | .error e => .error e
        | .ok cs2 => enumTupleFields pv fuel rest (v :: acc) cs2

/-- The key loop of `deserialize_variant_struct_fields`
(src/deserialize.rs:1767-1822): like the struct loop but unknown keys are
always skipped (no `deny_unknown_fields` check). -/
def variantStructFieldsLoop (pv : Sh → List Char → PRes Val) :
    Nat → List (String × Bool × Sh) → List (Option Val) → List Char →
    PRes (List (Option Val))
  | 0, _, _, _ => .error .fuelOut
  | fuel+1, fields, slots, cs =>
    match nextToken cs with
    | .error e => .error (.token e)
    | .ok (.rbrace, cs') => .ok (slots, cs')
    | .ok (.str key _, cs1) =>
      match nextToken cs1 with
      | .error e => .error (.token e)
      | .ok (.colon, cs2) =>
        match findFieldIdx fields key with
        | some (idx, fld) =>
          match pv fld.2.2 cs2 with
          | .error e => .error e
          | .ok (v, cs3) =>
            match consumeOptionalComma cs3 with
            | .error e => .error e
            | .ok cs4 => variantStructFieldsLoop pv fuel fields (setSlot slots idx v) cs4
        | none =>
          match skipValue fuel cs2 with
          | .error e => .error e
          | .ok (_, cs3) =>
            match consumeOptionalComma cs3 with
            | .error e => .error e
            | .ok cs4 => variantStructFieldsLoop pv fuel fields slots cs4
      | .ok (t, _) => .error (.unexpectedToken t.display "field name")
    | .ok (t, _) => .error (.unexpectedToken t.display "field name")
  -- Note: the source's match arm for a non-string key token is the generic
  -- "field name" expectation (src/deserialize.rs:1777-1786).

/-- Check the slots of a variant for unset fields.  The source leaves such
fields unset and the error surfaces later from `wip.build()`
(src/deserialize.rs:2357); the modelled builder surfaces it at the end of the
variant body instead (no claim distinguishes the two positions). -/
def buildVariantFields (fields : List (String × Bool × Sh)) :
    List (Option Val) → Except JsonErrorKind (List Val) :=
  fun slots =>
    match fields, slots with
    | [], _ => .ok []
    | fld :: rest, slots =>
      match slots.headD none with
      | some v => (buildVariantFields rest slots.tail).map (fun vs => v :: vs)
      | none => .error (.reflect (.uninitializedField fld.1))

/-- `deserialize_variant_struct_fields` (src/deserialize.rs:1751-1825), plus
the deferred-build completeness check. -/
def variantStructFieldsD (pv : Sh → List Char → PRes Val) (fuel : Nat)
    (name : String) (fields : List (String × Bool × Sh)) (cs : List Char) : PRes Val :=
  match nextToken cs with
  | .error e => .error (.token e)
  | .ok (.lbrace, cs') =>
    match variantStructFieldsLoop pv fuel fields
        (List.replicate fields.length none) cs' with
    | .error e => .error e
    | .ok (slots, cs2) =>
      match buildVariantFields fields slots with
      | .error e => .error e
      | .ok vs => .ok (.venum name vs, cs2)
  | .ok (t, _) => .error (.unexpectedToken t.display "'\x7b' for struct variant")

/-- The index loop of `deserialize_variant_tuple_fields`
(src/deserialize.rs:1840-1859): elements until `]`, set into fields by index
(`begin_field` on an out-of-range index is a builder error). -/
def variantTupleFieldsLoop (pv : Sh → List Char → PRes Val) :
    Nat → List (String × Bool × Sh) → Nat → List (Option Val) → List Char →
    PRes (List (Option Val))
  | 0, _, _, _, _ => .error .fuelOut
  | fuel+1, fields, idx, slots, cs =>
    match nextToken cs with
    | .error e => .error (.token e)
    | .ok (.rbracket, cs') => .ok (slots, cs')
    | .ok _ =>
      match fields.get? idx with
      | none => .error (.reflect (.wrongShape "begin_field out of range"))
      | some fld =>
        match pv fld.2.2 cs with
        | .error e => .error e
        | .ok (v, cs1) =>
          match consumeOptionalComma cs1 with
          | .error e => .error e
          | .ok cs2 => variantTupleFieldsLoop pv fuel fields (idx + 1) (setSlot slots idx v) cs2

/-- `deserialize_variant_struct_content` (src/deserialize.rs:1712-1748): the
first-field-name digit heuristic picks the struct-field form, the direct
single value, or the bracketed tuple form. -/
def variantStructContentD (pv : Sh → List Char → PRes Val) (fuel : Nat)
    (name : String) (fields : List (String × Bool × Sh)) (cs : List Char) : PRes Val :=
  let isStructVariant :=
    match fields with
    | [] => true
    | fld :: _ =>
      match fld.1.toList with
      | [] => true
      | c :: _ => !(isDigit c)
  if isStructVariant then
    variantStructFieldsD pv fuel name fields cs
  else if fields.length = 1 then
    match fields with
    | fld :: _ =>
      match pv fld.2.2 cs with
      | .error e => .error e
      | .ok (v, cs1) => .ok (.venum name [v], cs1)
    | [] => .error (.invalidValue "unreachable")
  else
    match nextToken cs with
    | .error e => .error (.token e)
    | .ok (.lbracket, cs') =>
      match variantTupleFieldsLoop pv fuel fields 0
          (List.replicate fields.length none) cs' with
      | .error e => .error e
      | .ok (slots, cs2) =>
        match buildVariantFields fields slots with
        | .error e => .error e
        | .ok vs => .ok (.venum name vs, cs2)
    | .ok (t, _) => .error (.unexpectedToken t.display "'[' for tuple variant")

/-- `deserialize_enum` (src/deserialize.rs:1530-1708).  Only the externally
tagged representation is implemented by the source (its own doc comment,
line 1529); the tagging attributes carried by the shape are never read
here. -/
def deserializeEnumD (pv : Sh → List Char → PRes Val) (fuel : Nat)
    (variants : List (String × VariantKind × List (String × Bool × Sh)))
    (cs : List Char) : PRes Val :=
  match nextToken cs with
  | .error e => .error (.token e)
  | .ok (.str s _, cs') =>
    -- string form: select the variant by name; fields are never initialized,
    -- so a data-carrying variant fails at build (surfaced here, see
    -- `buildVariantFields`)
    match findVariant variants s with
    | none => .error (.reflect (.noVariantNamed s))
    | some var =>
      match var.2.2 with
      | [] => .ok (.venum var.1 [], cs')
      | fld :: _ => .error (.reflect (.uninitializedField fld.1))
  | .ok (.lbrace, cs') =>
    match nextToken cs' with
    | .error e => .error (.token e)
    | .ok (.str key _, cs1) =>
      match nextToken cs1 with
      | .error e => .error (.token e)
      | .ok (.colon, cs2) =>
        match findVariant variants key with
        | none => .error (.reflect (.noVariantNamed key))
        | some var =>
          let afterContent : PRes Val :=
            match var.2.1 with
            | .unit =>
              match nextToken cs2 with
              | .error e => .error (.token e)
              | .ok (.tNull, cs3) => .ok (.venum var.1 [], cs3)
              | .ok (t, _) => .error (.unexpectedToken t.display "null for unit variant")
            | .tup =>
              match var.2.2 with
              | [] =>
                -- zero-field tuple variant: an optional `null`
                match nextToken cs2 with
                | .error e => .error (.token e)
                | .ok (.tNull, cs3) => .ok (.venum var.1 [], cs3)
                | .ok _ => .ok (.venum var.1 [], cs2)
              | [fld] =>
                match pv fld.2.2 cs2 with
                | .error e => .error e
                | .ok (v, cs3) => .ok (.venum var.1 [v], cs3)
              | flds =>
                match nextToken cs2 with
                | .error e => .error (.token e)
                | .ok (.lbracket, cs3) =>
                  match enumTupleFields pv fuel flds [] cs3 with
                  | .error e => .error e
                  | .ok (vs, cs4) =>
                    match nextToken cs4 with
                    | .error e => .error (.token e)
                    | .ok (.rbracket, cs5) => .ok (.venum var.1 vs, cs5)
                    | .ok (t, _) => .error (.unexpectedToken t.display "']'")
                | .ok (t, _) => .error (.unexpectedToken t.display "'[' for tuple variant")
            | .strukt => variantStructContentD pv fuel var.1 var.2.2 cs2
          match afterContent with
          | .error e => .error e
          | .ok (v, cs3) =>
            match nextToken cs3 with
            | .error e => .error (.token e)
            | .ok (.rbrace, cs4) => .ok (v, cs4)
            | .ok (t, _) => .error (.unexpectedToken t.display "'\x7d'")
      | .ok (t, _) => .error (.unexpectedToken t.display "':'")
    | .ok (.rbrace, _) =>
      .error (.invalidValue "empty object cannot represent enum variant")
    | .ok (t, _) => .error (.unexpectedToken t.display "variant name")
  | .ok (t, _) => .error (.unexpectedToken t.display "string or object for enum")

/-! ## The dispatcher and the public facade -/

/-- `deserialize_into` (src/deserialize.rs:572-626).  Dispatch order as in the
source: `Spanned<T>` detection, `Option`, pointers, transparent inner, then
structs (tuple kind → tuple) and enums by type, then scalar / list / map /
array / set by def.  The constructors of `Sh` are disjoint, so the match
realizes exactly that order. -/
def deserializeInto : Nat → Sh → List Char → PRes Val
  | 0, _, _ => .error .fuelOut
  | fuel+1, sh, cs =>
    -- `Spanned<T>` capture (src/deserialize.rs:577-579) records byte spans,
    -- which are not modelled; no claim and no shape used below reaches this.
    if isSpannedShape sh then
      .error (.invalidValue "Spanned capture is outside the modelled fragment")
    else
    match sh with
    | .soption inner =>
      -- `deserialize_option` (src/deserialize.rs:1983-1996)
      match nextToken cs with
      | .error e => .error (.token e)
      | .ok (.tNull, cs') => .ok (.vnone, cs')
      | .ok _ =>
        match deserializeInto fuel inner cs with
        | .error e => .error e
        | .ok (v, cs') => .ok (.vsome v, cs')
    | .strRef =>
      -- `deserialize_pointer`, `&str` arm (src/deserialize.rs:2024-2051)
      match nextToken cs with
      | .error e => .error (.token e)
      | .ok (.str s escaped, cs') =>
        if escaped then
          .error (.invalidValue "cannot borrow &str from JSON string containing escape sequences - use String instead")
        else .ok (.vstr s, cs')
      | .ok (t, _) => .error (.unexpectedToken t.display "string")
    | .sptr _ inner =>
      -- `deserialize_pointer`, owning non-slice pointer (src/deserialize.rs:2068,2117-2120);
      -- non-`str` reference pointees and slice pointees are outside the fragment
      match deserializeInto fuel inner cs with
      | .error e => .error e
      | .ok (v, cs') => .ok (.vptr v, cs')
    | .stransparent inner =>
      -- transparent wrapper (src/deserialize.rs:595-600): begin_inner / end
      deserializeInto fuel inner cs
    | .stuple es =>
      -- `deserialize_tuple` (src/deserialize.rs:2233-2288): no
      -- too-many-elements special case, a trailing comma is the generic
      -- unexpected-token error
      match nextToken cs with
      | .error e => .error (.token e)
      | .ok (.lbracket, cs') =>
        match fixedElems (deserializeInto fuel) fuel es true [] cs' with
        | .error e => .error e
        | .ok (vs, cs1) =>
          match nextToken cs1 with
          | .error e => .error (.token e)
          | .ok (.rbracket, cs2) => .ok (.vtuple vs, cs2)
          | .ok (t, _) => .error (.unexpectedToken t.display "']'")
      | .ok (t, _) => .error (.unexpectedToken t.display "'['")
    | .sstruct attrs fields =>
      deserializeStructD (deserializeInto fuel) fuel attrs fields cs
    | .senum _ variants =>
      deserializeEnumD (deserializeInto fuel) fuel variants cs
    | .sbool => deserializeScalar fuel sh cs
    | .sint _ _ => deserializeScalar fuel sh cs
    | .sfloat _ => deserializeScalar fuel sh cs
    | .sstring => deserializeScalar fuel sh cs
    | .slist e =>
      -- `deserialize_list` (src/deserialize.rs:1865-1900)
      match nextToken cs with
      | .error e => .error (.token e)
      | .ok (.lbracket, cs') =>
        match seqElems (deserializeInto fuel) fuel e [] cs' with
        | .error e => .error e
        | .ok (vs, cs1) => .ok (.vlist vs, cs1)
      | .ok (t, _) => .error (.unexpectedToken t.display "'['")
    | .sset e =>
      -- `deserialize_set` (src/deserialize.rs:2195-2230), identical loop
      match nextToken cs with
      | .error e => .error (.token e)
      | .ok (.lbracket, cs') =>
        match seqElems (deserializeInto fuel) fuel e [] cs' with
        | .error e => .error e
        | .ok (vs, cs1) => .ok (.vlist vs, cs1)
      | .ok (t, _) => .error (.unexpectedToken t.display "'['")
    | .smap ksh vsh =>
      -- `deserialize_map` (src/deserialize.rs:1903-1980)
      match nextToken cs with
      | .error e => .error (.token e)
      | .ok (.lbrace, cs') =>
        match mapEntries (deserializeInto fuel) fuel ksh vsh [] cs' with
        | .error e => .error e
        | .ok (entries, cs1) => .ok (.vmap entries, cs1)
      | .ok (t, _) => .error (.unexpectedToken t.display "'\x7b'")
    | .sarray e n =>
      -- `deserialize_array` (src/deserialize.rs:2124-2192): a comma where `]`
      -- is required is the too-many-elements InvalidValue
      match nextToken cs with
      | .error e => .error (.token e)
      | .ok (.lbracket, cs') =>
        match fixedElems (deserializeInto fuel) fuel (List.replicate n e) true [] cs' with
        | .error e => .error e
        | .ok (vs, cs1) =>
          match nextToken cs1 with
          | .error e => .error (.token e)
          | .ok (.rbracket, cs2) => .ok (.vlist vs, cs2)
          | .ok (.comma, _) =>
            .error (.invalidValue
              ("Too many elements in array, maximum " ++ toString n ++ " elements"))
          | .ok (t, _) => .error (.unexpectedToken t.display "']'")
      | .ok (t, _) => .error (.unexpectedToken t.display "'['")

/-- `from_slice_inner` (src/deserialize.rs:2323-2364): parse, then require the
next token to be `EOF`, then build (building is immediate in the model). -/
def fromSliceInner (fuel : Nat) (sh : Sh) (cs : List Char) : Except JsonErrorKind Val :=
  match deserializeInto fuel sh cs with
  | .error e => .error e
  | .ok (v, rest) =>
    match nextToken rest with
    | .error e => .error (.token e)
    | .ok (.eof, _) => .ok v
    | .ok (t, _) => .error (.unexpectedToken t.display "end of input")

/-- `from_str` (src/deserialize.rs:2310-2321): strip a leading BOM and
deserialize; the `fuel` argument is the modelling artifact for the source's
unbounded recursion. -/
def fromStr (fuel : Nat) (sh : Sh) (s : String) : Except JsonErrorKind Val :=
  match s.toList with
  | c :: rest =>
    if c = Char.ofNat 0xFEFF then fromSliceInner fuel sh rest
    else fromSliceInner fuel sh (c :: rest)
  | [] => fromSliceInner fuel sh []

/-! ## Serialization (src/serialize.rs)

The writer (`JsonWrite`, infallible) is modelled by returning the written
characters.  The source's explicit `panic!` calls (no-borrow smart pointer,
unsupported map key/scalar) are modelled by `SerErr.panic`. -/

inductive SerErr where
  | panic (msg : String)
  | fuelOut
deriving DecidableEq, Repr

/-- `itoa`-style decimal rendering of a natural number (auxiliary, fueled by
the number itself). -/
def natDecAux : Nat → Nat → List Char
  | 0, _ => []
  | fuel+1, n =>
    if n < 10 then [Char.ofNat (48 + n)]
    else natDecAux fuel (n / 10) ++ [Char.ofNat (48 + n % 10)]

/-- Decimal rendering of a natural number. -/
def natDec (n : Nat) : List Char := natDecAux (n + 1) n

/-- Decimal rendering of an integer (`itoa`: no leading zeros, no `+`). -/
def intDec (n : Int) : List Char :=
  if n < 0 then '-' :: natDec n.natAbs else natDec n.toNat

/-- Lower-case hex digit. -/
def hexDigitChar (n : Nat) : Char :=
  if n < 10 then Char.ofNat (48 + n) else Char.ofNat (87 + n)

/-- Escape one character of a JSON string.  Modelled from the spec, §4.C
string escape rule (`write_json_string` lives in the crate's `lib.rs`, which
is not among the provided sources): escape `"`, `\`, and anything below 0x20
with the canonical two-character escapes where available and `\u00XX`
otherwise; everything else verbatim. -/
def escapeChar (c : Char) : List Char :=
  if c = '"' then ['\\', '"']
  else if c = '\\' then ['\\', '\\']
  else if c.toNat < 0x20 then
    if c.toNat = 8 then ['\\', 'b']
    else if c.toNat = 12 then ['\\', 'f']
    else if c = '\n' then ['\\', 'n']
    else if c = '\r' then ['\\', 'r']
    else if c = '\t' then ['\\', 't']
    else ['\\', 'u', '0', '0', hexDigitChar (c.toNat / 16), hexDigitChar (c.toNat % 16)]
  else [c]

/-- `write_json_string` (modelled from the spec, §4.C): quoted, escaped. -/
def writeJsonString (s : String) : List Char :=
  '"' :: (s.toList.map escapeChar).flatten ++ ['"']

/-- `ryu::Buffer::format` on the non-finite values (external crate; modelled
from its documented output: `NaN`, `inf`, `-inf`). -/
def ryuFormat : FloatVal → String
  | .nan => "NaN"
  | .inf => "inf"
  | .neginf => "-inf"

/-- `write_indent` (src/serialize.rs:72-78). -/
def writeIndent (indent : Option String) (depth : Nat) : List Char :=
  match indent with
  | some ind => (List.replicate depth ind.toList).flatten
  | none => []

/-- `write_newline` (src/serialize.rs:81-85). -/
def writeNewline (indent : Option String) : List Char :=
  if indent.isSome then ['\n'] else []

/-- `write_colon` (src/serialize.rs:88-94). -/
def writeColon (indent : Option String) : List Char :=
  if indent.isSome then [':', ' '] else [':']

/-- Render a separated sequence of unnamed items (the loop body shared by
`serialize_array`, the tuple case, and the set case): each item is preceded by
`,` (except the first), a newline and one more level of indentation. -/
def serItems (sv : Sh → Val → Nat → Except SerErr (List Char))
    (indent : Option String) (depth : Nat) :
    List (Sh × Val) → Bool → Except SerErr (List Char)
  | [], _ => .ok []
  | (sh, v) :: rest, first =>
    match sv sh v (depth + 1) with
    | .error e => .error e
    | .ok rendered =>
      match serItems sv indent depth rest false with
      | .error e => .error e
      | .ok tl =>
        .ok ((if first then [] else [',']) ++ writeNewline indent
          ++ writeIndent indent (depth + 1) ++ rendered ++ tl)

/-- Render a separated sequence of `"name": value` pairs (the loop body of the
struct case, the struct-variant case and — with pre-rendered keys — the map
case). -/
def serNamedItems (sv : Sh → Val → Nat → Except SerErr (List Char))
    (indent : Option String) (depth : Nat) :
    List (String × Sh × Val) → Bool → Except SerErr (List Char)
  | [], _ => .ok []
  | (name, sh, v) :: rest, first =>
    match sv sh v (depth + 1) with
    | .error e => .error e
    | .ok rendered =>
      match serNamedItems sv indent depth rest false with
      | .error e => .error e
      | .ok tl =>
        .ok ((if first then [] else [',']) ++ writeNewline indent
          ++ writeIndent indent (depth + 1) ++ writeJsonString name
          ++ writeColon indent ++ rendered ++ tl)

/-- Bracketed array rendering (`serialize_array`, src/serialize.rs:624-647):
empty sequences stay `[]`; otherwise the closing newline and closing-level
indentation precede `]`. -/
def serArray (sv : Sh → Val → Nat → Except SerErr (List Char))
    (indent : Option String) (depth : Nat) (items : List (Sh × Val)) :
    Except SerErr (List Char) :=
  match items with
  | [] => .ok ['[', ']']
  | _ =>
    match serItems sv indent depth items true with
    | .error e => .error e
    | .ok body =>
      .ok ('[' :: body ++ writeNewline indent ++ writeIndent indent depth ++ [']'])

/-- Braced object rendering (struct case, src/serialize.rs:283-303). -/
def serObject (sv : Sh → Val → Nat → Except SerErr (List Char))
    (indent : Option String) (depth : Nat) (fields : List (String × Sh × Val)) :
    Except SerErr (List Char) :=
  match fields with
  | [] => .ok ['\x7b', '\x7d']
  | _ =>
    match serNamedItems sv indent depth fields true with
    | .error e => .error e
    | .ok body =>
      .ok ('\x7b' :: body ++ writeNewline indent ++ writeIndent indent depth ++ ['\x7d'])

/-- `serialize_enum_content` (src/serialize.rs:675-731): `null` for a
fieldless variant, the inner value for a newtype-like variant, an array for a
tuple variant, an object for a struct variant. -/
def serEnumContent (sv : Sh → Val → Nat → Except SerErr (List Char))
    (indent : Option String) (depth : Nat) (kind : VariantKind)
    (fields : List (String × Bool × Sh)) (vs : List Val) :
    Except SerErr (List Char) :=
  if vs.isEmpty then .ok ['n', 'u', 'l', 'l']
  else if kind = .tup ∧ fields.length = 1 then
    match fields.zip vs with
    | (fld, v) :: _ => sv fld.2.2 v depth
    | [] => .error (.panic "value does not match shape")
  else if kind = .tup then
    serArray sv indent depth ((fields.zip vs).map (fun p => (p.1.2.2, p.2)))
  else
    serObject sv indent depth ((fields.zip vs).map (fun p => (p.1.1, p.1.2.2, p.2)))

/-- `serialize_value` (src/serialize.rs:96-425).  No `serialize_with` hooks
and no flattened fields exist in the modelled fragment, so the `maybe_field`
parameter of the source is always hook-free and non-flattened and is dropped.
Value constructors that do not match the shape cannot arise from a well-typed
Rust value and are modelled as a panic. -/
def serializeValue : Nat → Sh → Val → Option String → Nat → Except SerErr (List Char)
  | 0, _, _, _, _ => .error .fuelOut
  | fuel+1, sh, v, indent, depth =>
    let sv : Sh → Val → Nat → Except SerErr (List Char) :=
      fun sh' v' d => serializeValue fuel sh' v' indent d
    match sh with
    | .stransparent inner =>
      -- transparent attribute (src/serialize.rs:118-128): inner field
      serializeValue fuel inner v indent depth
    | .sbool =>
      match v with
      | .vbool b => .ok (if b then ['t', 'r', 'u', 'e'] else ['f', 'a', 'l', 's', 'e'])
      | _ => .error (.panic "value does not match shape")
    | .sint _ _ =>
      match v with
      | .vint n => .ok (intDec n)
      | _ => .error (.panic "value does not match shape")
    | .sfloat _ =>
      -- serialize_scalar F32/F64 (src/serialize.rs:553-560): the ryu
      -- rendering is written unconditionally, also for NaN and infinities
      match v with
      | .vfloat f => .ok (ryuFormat f).toList
      | _ => .error (.panic "value does not match shape")
    | .sstring =>
      match v with
      | .vstr s => .ok (writeJsonString s)
      | _ => .error (.panic "value does not match shape")
    | .strRef =>
      match v with
      | .vstr s => .ok (writeJsonString s)
      | _ => .error (.panic "value does not match shape")
    | .soption inner =>
      -- Def::Option (src/serialize.rs:215-222)
      match v with
      | .vnone => .ok ['n', 'u', 'l', 'l']
      | .vsome v' => serializeValue fuel inner v' indent depth
      | _ => .error (.panic "value does not match shape")
    | .sptr hasBorrow inner =>
      -- Def::Pointer (src/serialize.rs:223-232): borrow the inner value and
      -- recurse; a pointer exposing no borrow capability panics
      match v with
      | .vptr v' =>
        if hasBorrow then serializeValue fuel inner v' indent depth
        else .error (.panic "Smart pointer without borrow support or with opaque pointee cannot be serialized")
      | _ => .error (.panic "value does not match shape")
    | .slist e =>
      match v with
      | .vlist vs => serArray sv indent depth (vs.map (fun x => (e, x)))
      | _ => .error (.panic "value does not match shape")
    | .sarray e _ =>
      match v with
      | .vlist vs => serArray sv indent depth (vs.map (fun x => (e, x)))
      | _ => .error (.panic "value does not match shape")
    | .sset e =>
      -- Def::Set (src/serialize.rs:196-214): identical rendering
      match v with
      | .vlist vs => serArray sv indent depth (vs.map (fun x => (e, x)))
      | _ => .error (.panic "value does not match shape")
    | .stuple es =>
      -- StructKind::Tuple (src/serialize.rs:245-263)
      match v with
      | .vtuple vs => serArray sv indent depth (es.zip vs)
      | _ => .error (.panic "value does not match shape")
    | .sstruct _ fields =>
      -- StructKind::Struct (src/serialize.rs:283-303)
      match v with
      | .vstruct vs =>
        serObject sv indent depth
          ((fields.zip vs).map (fun p => (p.1.1, p.1.2.2, p.2)))
      | _ => .error (.panic "value does not match shape")
    | .smap _ vsh =>
      -- Def::Map (src/serialize.rs:175-195); all modelled map values carry
      -- string keys, rendered by `serialize_map_key`'s `as_str` arm
      match v with
      | .vmap entries =>
        serObject sv indent depth (entries.map (fun p => (p.1, vsh, p.2)))
      | _ => .error (.panic "value does not match shape")
    | .senum attrs variants =>
      -- Type::User(Enum) (src/serialize.rs:306-397)
      match v with
      | .venum name vs =>
        match findVariant variants name with
        | none => .error (.panic "Failed to get active variant")
        | some var =>
          if attrs.untagged then
            -- untagged: content only
            serEnumContent sv indent depth var.2.1 var.2.2 vs
          else
            match attrs.tag with
            | some tag =>
              match attrs.content with
              | some content =>
                -- adjacently tagged (src/serialize.rs:327-347); the content
                -- key is omitted for a fieldless variant
                match
                  (if vs.isEmpty then Except.ok ([] : List Char)
                   else
                     match serEnumContent sv indent (depth + 1) var.2.1 var.2.2 vs with
                     | .error e => Except.error e
                     | .ok c =>
                       Except.ok ([','] ++ writeNewline indent ++ writeIndent indent (depth + 1)
                         ++ writeJsonString content ++ writeColon indent ++ c) :
                    Except SerErr (List Char)) with
                | .error e => .error e
                | .ok contentPart =>
                  .ok ('\x7b' :: writeNewline indent ++ writeIndent indent (depth + 1)
                    ++ writeJsonString tag ++ writeColon indent ++ writeJsonString name
                    ++ contentPart
                    ++ writeNewline indent ++ writeIndent indent depth ++ ['\x7d'])
              | none =>
                -- internally tagged (src/serialize.rs:349-369): tag pair,
                -- then the variant's fields at the same level
                match serNamedItems sv indent depth
                    ((var.2.2.zip vs).map (fun p => (p.1.1, p.1.2.2, p.2))) false with
                | .error e => .error e
                | .ok fieldsPart =>
                  .ok ('\x7b' :: writeNewline indent ++ writeIndent indent (depth + 1)
                    ++ writeJsonString tag ++ writeColon indent ++ writeJsonString name
                    ++ fieldsPart
                    ++ writeNewline indent ++ writeIndent indent depth ++ ['\x7d'])
            | none =>
              -- externally tagged (src/serialize.rs:371-397), never flattened
              -- in the modelled fragment
              if vs.isEmpty then .ok (writeJsonString name)
              else
                match serEnumContent sv indent (depth + 1) var.2.1 var.2.2 vs with
                | .error e => .error e
                | .ok c =>
                  .ok ('\x7b' :: writeNewline indent ++ writeIndent indent (depth + 1)
                    ++ writeJsonString name ++ writeColon indent ++ c
                    ++ writeNewline indent ++ writeIndent indent depth ++ ['\x7d'])
      | _ => .error (.panic "value does not match shape")

/-- `peek_to_string` / `to_string` (src/serialize.rs:8-10, 18-22): compact
serialization. -/
def to_string (fuel : Nat) (sh : Sh) (v : Val) : Except SerErr String :=
  (serializeValue fuel sh v none 0).map String.mk

/-- `peek_to_string_pretty` / `to_string_pretty` (src/serialize.rs:13-15,
25-29): two-space indentation. -/
def to_string_pretty (fuel : Nat) (sh : Sh) (v : Val) : Except SerErr String :=
  (serializeValue fuel sh v (some "  ") 0).map String.mk

/-! ## Shapes used by the concrete claims -/

/-- The claims' `(i32, i32)` target. -/
def shPairI32 : Sh := .stuple [.sint 4 true, .sint 4 true]

/-- The `Rule` enum of tests/tagged.rs: `type_tag = "type"`, variants renamed
`REPEAT`, `REPEAT1`, `SYMBOL` (stored names are post-rename). -/
def shRule : Sh :=
  .senum { typeTag := some "type" }
    [("REPEAT", .strukt, [("content", false, .sstring)]),
     ("REPEAT1", .strukt, [("content", false, .sstring)]),
     ("SYMBOL", .strukt, [("name", false, .sstring)])]

/-! ## C2 -/

/-- C2: the claim says `from_str::<i64>` of the decimal rendering of
`i64::MAX + 1` fails with `NumberOutOfRange`.  The code instead parses the
literal as a `U64` token and the signed branch of `set_number_u64`
(src/deserialize.rs:991) converts it with an unchecked `n as i64`, wrapping to
`i64::MIN`: deserialization *succeeds* with the wrong value. -/
theorem c2_i64_max_plus_one_wraps :
    fromStr 100 (.sint 8 true) "9223372036854775808"
      = .ok (.vint (-9223372036854775808)) := by rfl

/-! ## C3 -/

/-- C3: deserializing the type-tagged object of tests/tagged.rs
(`{"type": "SYMBOL", "name": "z"}`) against the `type_tag = "type"` enum.
The claim (and the repository's own test) expects the `SYMBOL` variant to be
selected by the string at the `type` key; `deserialize_enum`
(src/deserialize.rs:1530-1708) implements only the externally tagged form, so
it treats the first key `type` as a variant name and fails. -/
theorem c3_type_tag_not_deserialized :
    fromStr 100 shRule "\x7b\"type\": \"SYMBOL\", \"name\": \"z\"\x7d"
      = .error (.reflect (.noVariantNamed "type")) := by rfl

/-! ## C4 -/

/-- C4 (counterexample): the claim says a smart pointer exposing no borrow
capability serializes to `null` and serialization never panics.  The
`Def::Pointer` arm (src/serialize.rs:223-232) panics instead. -/
theorem c4_no_borrow_pointer_panics :
    to_string 100 (.sptr false .sbool) (.vptr (.vbool true))
      = .error (.panic "Smart pointer without borrow support or with opaque pointee cannot be serialized") := by rfl

/-- C4 (amended): serializing `NaN` and the infinities writes `ryu`'s textual
rendering (`NaN` / `inf` / `-inf`) — not the JSON literal `null` — without
panicking (src/serialize.rs:553-560); serializing a smart pointer that
exposes no borrow capability panics rather than emitting `null`. -/
theorem c4_nonfinite_floats_and_pointers :
    to_string 100 (.sfloat 8) (.vfloat .nan) = .ok "NaN"
    ∧ to_string 100 (.sfloat 8) (.vfloat .inf) = .ok "inf"
    ∧ to_string 100 (.sfloat 8) (.vfloat .neginf) = .ok "-inf"
    ∧ to_string 100 (.sfloat 4) (.vfloat .nan) = .ok "NaN"
    ∧ to_string 100 (.sptr false .sbool) (.vptr (.vbool true))
        = .error (.panic "Smart pointer without borrow support or with opaque pointee cannot be serialized") := by
  refine ⟨rfl, rfl, rfl, rfl, rfl⟩

/-! ## C5 -/

/-- C5 (counterexample): the claim says `from_str::<(i32,i32)>("[1,2,3]")`
fails with the too-many-elements `InvalidValue`.  `deserialize_tuple`
(src/deserialize.rs:2276-2285) has no such special case: the comma after the
second element is the generic unexpected-token failure expecting `']'`. -/
theorem c5_tuple_error_is_unexpected_token :
    fromStr 100 shPairI32 "[1,2,3]" = .error (.unexpectedToken "," "']'") := by rfl

/-- C5 (amended): a fixed **array** of length N does fail with
`InvalidValue("Too many elements in array, maximum N elements")` when a comma
follows the N-th element (src/deserialize.rs:2168-2181); a **tuple** of
length N instead fails with `UnexpectedToken` expecting `']'`
(src/deserialize.rs:2276-2285).  Exactly N elements still parse in both
cases. -/
theorem c5_array_invalid_value_tuple_unexpected_token :
    fromStr 100 (.sarray (.sint 4 true) 2) "[1,2,3]"
      = .error (.invalidValue "Too many elements in array, maximum 2 elements")
    ∧ fromStr 100 shPairI32 "[1,2,3]" = .error (.unexpectedToken "," "']'")
    ∧ fromStr 100 (.sarray (.sint 4 true) 2) "[1,2]" = .ok (.vlist [.vint 1, .vint 2])
    ∧ fromStr 100 shPairI32 "[1,2]" = .ok (.vtuple [.vint 1, .vint 2]) := by
  refine ⟨rfl, rfl, rfl, rfl⟩

/-! ## C6 -/

/-- C6 (counterexample): the claim says an integer-keyed map accepts an object
whose key strings parse as in-range integers; `"1"` is in range for `u32`, yet
deserialization fails: `set_string_value` (src/deserialize.rs:707-740) sets
the key **string** into the integer key frame, a builder type mismatch. -/
theorem c6_int_keyed_map_rejects_in_range_key :
    fromStr 100 (.smap (.sint 4 false) .sbool) "\x7b\"1\":true\x7d"
      = .error (.reflect (.wrongShape "set String")) := by rfl

/-- C6 (amended): deserializing a JSON object with at least one entry into a
map whose key type is an integer type always fails with a reflection error at
the first key — no integer parsing of key strings occurs — whatever the key
string is.  (An empty object still succeeds.) -/
theorem c6_int_keyed_map_always_fails (fuel : Nat) (w : Nat) (sg : Bool) (vsh : Sh)
    (cs0 cs cs1 cs2 : List Char) (key : String) (esc : Bool)
    (h0 : nextToken cs0 = .ok (.lbrace, cs))
    (h1 : nextToken cs = .ok (.str key esc, cs1))
    (h2 : nextToken cs1 = .ok (.colon, cs2)) :
    fromSliceInner (fuel + 2) (.smap (.sint w sg) vsh) cs0
      = .error (.reflect (.wrongShape "set String")) := by
  simp only [fromSliceInner, deserializeInto, isSpannedShape, h0, h1, h2, mapEntries,
    setStringValue]
  rfl

/-- Witness for `c6_int_keyed_map_always_fails` at `{"1":true}` against
`HashMap<u32, bool>`. -/
theorem c6_witness :
    fromSliceInner 100 (.smap (.sint 4 false) .sbool) "\x7b\"1\":true\x7d".toList
      = .error (.reflect (.wrongShape "set String")) :=
  c6_int_keyed_map_always_fails 98 4 false .sbool _ _ _ _ "1" false rfl rfl rfl

/-! ## C10 -/

/-- The unknown-field value of the C10 input, as a standalone document:
`\x7b:,[\x7d` — every token lexes, but no shape accepts it as a value. -/
def junkDoc : List Char := '\x7b' :: ':' :: ',' :: '[' :: '\x7d' :: []

/-- No shape of the modelled universe deserializes `junkDoc`, for any fuel:
the skipped unknown-field value is not a JSON value for any target. -/
theorem junk_not_a_value : ∀ (sh : Sh) (fuel : Nat) (v : Val) (rest : List Char),
    deserializeInto fuel sh junkDoc ≠ .ok (v, rest)
  | sh, 0, v, rest => by
    intro h
    rw [show deserializeInto 0 sh junkDoc = .error .fuelOut from rfl] at h
    exact Except.noConfusion h
  | .sbool, fuel+1, v, rest => by
    intro h
    rw [show deserializeInto (fuel+1) .sbool junkDoc
        = .error (.unexpectedToken "\x7b" "scalar value") from rfl] at h
    exact Except.noConfusion h
  | .sint w sg, fuel+1, v, rest => by
    intro h
    rw [show deserializeInto (fuel+1) (.sint w sg) junkDoc
        = .error (.unexpectedToken "\x7b" "scalar value") from rfl] at h
    exact Except.noConfusion h
  | .sfloat w, fuel+1, v, rest => by
    intro h
    rw [show deserializeInto (fuel+1) (.sfloat w) junkDoc
        = .error (.unexpectedToken "\x7b" "scalar value") from rfl] at h
    exact Except.noConfusion h
  | .sstring, fuel+1, v, rest => by
    intro h
    rw [show deserializeInto (fuel+1) .sstring junkDoc
        = .error (.unexpectedToken "\x7b" "scalar value") from rfl] at h
    exact Except.noConfusion h
  | .strRef, fuel+1, v, rest => by
    intro h
    rw [show deserializeInto (fuel+1) .strRef junkDoc
        = .error (.unexpectedToken "\x7b" "string") from rfl] at h
    exact Except.noConfusion h  | .slist e, fuel+1, v, rest => by
    intro h
    rw [show deserializeInto (fuel+1) (.slist e) junkDoc
        = .error (.unexpectedToken "\x7b" "'['") from rfl] at h
    exact Except.noConfusion h
  | .sset e, fuel+1, v, rest => by
    intro h
    rw [show deserializeInto (fuel+1) (.sset e) junkDoc
        = .error (.unexpectedToken "\x7b" "'['") from rfl] at h
    exact Except.noConfusion h
  | .sarray e n, fuel+1, v, rest => by
    intro h
    rw [show deserializeInto (fuel+1) (.sarray e n) junkDoc
        = .error (.unexpectedToken "\x7b" "'['") from rfl] at h
    exact Except.noConfusion h
  | .stuple es, fuel+1, v, rest => by
    intro h
    rw [show deserializeInto (fuel+1) (.stuple es) junkDoc
        = .error (.unexpectedToken "\x7b" "'['") from rfl] at h
    exact Except.noConfusion h
  | .senum attrs variants, fuel+1, v, rest => by
    intro h
    rw [show deserializeInto (fuel+1) (.senum attrs variants) junkDoc
        = .error (.unexpectedToken ":" "variant name") from rfl] at h
    exact Except.noConfusion h
  | .smap ksh vsh, 1, v, rest => by
    intro h
    rw [show deserializeInto 1 (.smap ksh vsh) junkDoc = .error .fuelOut from rfl] at h
    exact Except.noConfusion h
  | .smap ksh vsh, fuel+2, v, rest => by
    intro h
    rw [show deserializeInto (fuel+2) (.smap ksh vsh) junkDoc
        = .error (.unexpectedToken ":" "string key") from rfl] at h
    exact Except.noConfusion h
  | .sstruct attrs fields, 1, v, rest => by
    intro h
    rw [show deserializeInto 1 (.sstruct attrs fields) junkDoc
        = (if isSpannedShape (.sstruct attrs fields)
           then .error (.invalidValue "Spanned capture is outside the modelled fragment")
           else deserializeStructD (deserializeInto 0) 0 attrs fields junkDoc) from rfl] at h
    by_cases hsp : isSpannedShape (.sstruct attrs fields)
    · rw [if_pos hsp] at h; exact Except.noConfusion h
    · rw [if_neg hsp] at h
      rw [show deserializeStructD (deserializeInto 0) 0 attrs fields junkDoc
          = .error .fuelOut from rfl] at h
      exact Except.noConfusion h
  | .sstruct attrs fields, fuel+2, v, rest => by
    intro h
    rw [show deserializeInto (fuel+2) (.sstruct attrs fields) junkDoc
        = (if isSpannedShape (.sstruct attrs fields)
           then .error (.invalidValue "Spanned capture is outside the modelled fragment")
           else deserializeStructD (deserializeInto (fuel+1)) (fuel+1) attrs fields junkDoc) from rfl] at h
    by_cases hsp : isSpannedShape (.sstruct attrs fields)
    · rw [if_pos hsp] at h; exact Except.noConfusion h
    · rw [if_neg hsp] at h
      rw [show deserializeStructD (deserializeInto (fuel+1)) (fuel+1) attrs fields junkDoc
          = .error (.unexpectedToken ":" "field name or '\x7d'") from rfl] at h
      exact Except.noConfusion h
  | .soption inner, fuel+1, v, rest => by
    intro h
    rw [show deserializeInto (fuel+1) (.soption inner) junkDoc
        = (match deserializeInto fuel inner junkDoc with
           | .error e => .error e
           | .ok (v', cs') => .ok (.vsome v', cs')) from rfl] at h
    cases hin : deserializeInto fuel inner junkDoc with
    | error e => rw [hin] at h; exact Except.noConfusion h
    | ok p => exact junk_not_a_value inner fuel p.1 p.2 hin
  | .sptr hb inner, fuel+1, v, rest => by
    intro h
    rw [show deserializeInto (fuel+1) (.sptr hb inner) junkDoc
        = (match deserializeInto fuel inner junkDoc with
           | .error e => .error e
           | .ok (v', cs') => .ok (.vptr v', cs')) from rfl] at h
    cases hin : deserializeInto fuel inner junkDoc with
    | error e => rw [hin] at h; exact Except.noConfusion h
    | ok p => exact junk_not_a_value inner fuel p.1 p.2 hin
  | .stransparent inner, fuel+1, v, rest => by
    intro h
    rw [show deserializeInto (fuel+1) (.stransparent inner) junkDoc
        = deserializeInto fuel inner junkDoc from rfl] at h
    exact junk_not_a_value inner fuel v rest h

/-- C10: `skip_value` (src/deserialize.rs:453-502) validates nothing inside a
skipped container — after `\x7b` it counts only braces until balance,
accepting every other token in any order — so
`\x7b"known":1,"junk":\x7b:,[\x7d\x7d`, whose `junk` value `\x7b:,[\x7d` is
not a JSON value for any modelled target shape, deserializes successfully
for a struct without `deny_unknown_fields`. -/
theorem c10_skip_value_validates_nothing :
    fromStr 100 (.sstruct {} [("known", false, .sint 1 false)])
        "\x7b\"known\":1,\"junk\":\x7b:,[\x7d\x7d"
      = .ok (.vstruct [.vint 1])
    ∧ ∀ (sh : Sh) (fuel : Nat) (v : Val) (rest : List Char),
        deserializeInto fuel sh junkDoc ≠ .ok (v, rest) :=
  ⟨rfl, junk_not_a_value⟩

/-- Witness for `c10_skip_value_validates_nothing`: the junk value is rejected
at a concrete shape, fuel and output. -/
theorem c10_witness :
    deserializeInto 50 .sbool junkDoc ≠ .ok (.vbool true, []) :=
  c10_skip_value_validates_nothing.2 .sbool 50 (.vbool true) []

/-! ## C8: characterizing the suggestion -/

/-- `find?` only depends on the predicate's values on members. -/
theorem find?_congr_mem {α : Type} (l : List α) (p q : α → Bool)
    (h : ∀ x ∈ l, p x = q x) : l.find? p = l.find? q := by
  induction l with
  | nil => rfl
  | cons a tl ih =>
    simp only [List.find?]
    rw [h a (by simp)]
    cases q a
    · exact ih fun x hx => h x (by simp [hx])
    · rfl

/-- The claim's description of the suggestion, written from the wording of the
spec rather than from the source: among the known field names whose
Jaro–Winkler similarity to the unknown key is at least 0.6, the one of
highest similarity, ties broken in favor of the earliest in scan order;
`none` if no candidate reaches 0.6. -/
def specSuggestion (unknown : String) (expected : List String) : Option String :=
  let ok := expected.filter (fun c => mkRat 6 10 ≤ jaroWinkler unknown c)
  ok.find? (fun c => decide (∀ d ∈ ok, jaroWinkler unknown d ≤ jaroWinkler unknown c))

/-- The loop body of `find_similar_field`, named for the proofs below; it is
definitionally the fold step of `findSimilarField`. -/
def fsfStep (u : String) : Option (String × Rat) → String → Option (String × Rat) :=
  fun best candidate =>
    let similarity := jaroWinkler u candidate
    if similarity ≥ mkRat 6 10 then
      match best with
      | none => some (candidate, similarity)
      | some (_, bestSim) =>
        if similarity > bestSim then some (candidate, similarity) else best
    else best

theorem findSimilarField_eq_foldl (u : String) (l : List String) :
    findSimilarField u l = (l.foldl (fsfStep u) none).map (fun p => p.1) := rfl

theorem fsfStep_none_pass (u c : String) (hth : mkRat 6 10 ≤ jaroWinkler u c) :
    fsfStep u none c = some (c, jaroWinkler u c) := by
  unfold fsfStep
  simp only []
  rw [if_pos (ge_iff_le.mpr hth)]

theorem fsfStep_improve (u b c : String) (s : Rat)
    (hth : mkRat 6 10 ≤ jaroWinkler u c) (hgt : jaroWinkler u c > s) :
    fsfStep u (some (b, s)) c = some (c, jaroWinkler u c) := by
  unfold fsfStep
  simp only []
  rw [if_pos (ge_iff_le.mpr hth), if_pos hgt]

theorem fsfStep_keep (u b c : String) (s : Rat)
    (hth : mkRat 6 10 ≤ jaroWinkler u c) (hng : ¬ jaroWinkler u c > s) :
    fsfStep u (some (b, s)) c = some (b, s) := by
  unfold fsfStep
  simp only []
  rw [if_pos (ge_iff_le.mpr hth), if_neg hng]

theorem fsfStep_below (u c : String) (acc : Option (String × Rat))
    (hth : ¬ mkRat 6 10 ≤ jaroWinkler u c) :
    fsfStep u acc c = acc := by
  unfold fsfStep
  simp only []
  rw [if_neg (fun hc => hth (ge_iff_le.mp hc))]

/-- With a threshold-passing accumulator `b`, the fold of `find_similar_field`
finds the earliest maximal candidate of `b` followed by the threshold-passing
part of the remaining list. -/
theorem foldl_best_spec (u : String) (rest : List String) : ∀ b : String,
    ((rest.foldl (fsfStep u) (some (b, jaroWinkler u b))).map (fun p => p.1))
    = (b :: rest.filter (fun c => mkRat 6 10 ≤ jaroWinkler u c)).find?
        (fun c => decide (∀ d ∈ b :: rest.filter (fun c => mkRat 6 10 ≤ jaroWinkler u c),
          jaroWinkler u d ≤ jaroWinkler u c)) := by
  induction rest with
  | nil =>
    intro b
    simp [List.find?]
  | cons c rest ih =>
    intro b
    by_cases hth : mkRat 6 10 ≤ jaroWinkler u c
    · have hfil : List.filter (fun x => decide (mkRat 6 10 ≤ jaroWinkler u x)) (c :: rest)
          = c :: List.filter (fun x => decide (mkRat 6 10 ≤ jaroWinkler u x)) rest := by
        simp [List.filter_cons, hth]
      by_cases hgt : jaroWinkler u c > jaroWinkler u b
      · -- strict improvement: the accumulator becomes c
        rw [List.foldl_cons, fsfStep_improve u b c _ hth hgt, ih c, hfil,
          List.find?_cons, List.find?_cons]
        have hbfalse : (decide (∀ d ∈ b :: c ::
            List.filter (fun x => decide (mkRat 6 10 ≤ jaroWinkler u x)) rest,
            jaroWinkler u d ≤ jaroWinkler u b)) = false := by
          simp only [decide_eq_false_iff_not]
          intro hall
          exact absurd (hall c (by simp)) (not_le.mpr hgt)
        rw [hbfalse]
        have hpred : ∀ x, (decide (∀ d ∈ c ::
              List.filter (fun y => decide (mkRat 6 10 ≤ jaroWinkler u y)) rest,
              jaroWinkler u d ≤ jaroWinkler u x))
            = (decide (∀ d ∈ b :: c ::
              List.filter (fun y => decide (mkRat 6 10 ≤ jaroWinkler u y)) rest,
              jaroWinkler u d ≤ jaroWinkler u x)) := by
          intro x
          rw [decide_eq_decide]
          constructor
          · intro hall d hd
            rcases List.mem_cons.mp hd with hdb | hdm
            · rw [hdb]
              exact le_trans (le_of_lt hgt) (hall c (by simp))
            · exact hall d hdm
          · intro hall d hd
            exact hall d (List.mem_cons_of_mem _ hd)
        rw [List.find?_cons, ← hpred c]
        cases hc : (decide (∀ d ∈ c ::
            List.filter (fun y => decide (mkRat 6 10 ≤ jaroWinkler u y)) rest,
            jaroWinkler u d ≤ jaroWinkler u c))
        · exact find?_congr_mem _ _ _ (fun x _ => hpred x)
        · rfl
      · -- no strict improvement: the accumulator stays b
        rw [List.foldl_cons, fsfStep_keep u b c _ hth hgt, ih b, hfil]
        have hcb : jaroWinkler u c ≤ jaroWinkler u b := not_lt.mp hgt
        rw [List.find?_cons, List.find?_cons]
        have hbeq : (decide (∀ d ∈ b ::
              List.filter (fun x => decide (mkRat 6 10 ≤ jaroWinkler u x)) rest,
              jaroWinkler u d ≤ jaroWinkler u b))
            = (decide (∀ d ∈ b :: c ::
              List.filter (fun x => decide (mkRat 6 10 ≤ jaroWinkler u x)) rest,
              jaroWinkler u d ≤ jaroWinkler u b)) := by
          rw [decide_eq_decide]
          constructor
          · intro hall d hd
            rcases List.mem_cons.mp hd with hdb | hdm
            · rw [hdb]
            · rcases List.mem_cons.mp hdm with hdc | hdm2
              · rw [hdc]; exact hcb
              · exact hall d (List.mem_cons_of_mem _ hdm2)
          · intro hall d hd
            rcases List.mem_cons.mp hd with hdb | hdm
            · rw [hdb]
            · exact hall d (List.mem_cons_of_mem _ (List.mem_cons_of_mem _ hdm))
        rw [← hbeq]
        cases hb : (decide (∀ d ∈ b ::
            List.filter (fun x => decide (mkRat 6 10 ≤ jaroWinkler u x)) rest,
            jaroWinkler u d ≤ jaroWinkler u b))
        · -- b is not maximal; c cannot be maximal either, and the tails agree
          rw [List.find?_cons]
          have hcfalse : (decide (∀ d ∈ b :: c ::
              List.filter (fun x => decide (mkRat 6 10 ≤ jaroWinkler u x)) rest,
              jaroWinkler u d ≤ jaroWinkler u c)) = false := by
            simp only [decide_eq_false_iff_not]
            intro hall
            have hb2 := decide_eq_false_iff_not.mp hb
            refine hb2 (fun d hd => ?_)
            refine le_trans (hall d ?_) hcb
            rcases List.mem_cons.mp hd with h1 | h2
            · rw [h1]; simp
            · exact List.mem_cons_of_mem _ (List.mem_cons_of_mem _ h2)
          rw [hcfalse]
          refine find?_congr_mem _ _ _ (fun x _ => ?_)
          rw [decide_eq_decide]
          constructor
          · intro hall d hd
            rcases List.mem_cons.mp hd with h1 | h2
            · rw [h1]; exact hall b (by simp)
            · rcases List.mem_cons.mp h2 with h3 | h4
              · rw [h3]; exact le_trans hcb (hall b (by simp))
              · exact hall d (List.mem_cons_of_mem _ h4)
          · intro hall d hd
            rcases List.mem_cons.mp hd with h1 | h2
            · rw [h1]; exact hall b (by simp)
            · exact hall d (List.mem_cons_of_mem _ (List.mem_cons_of_mem _ h2))
        · rfl
    · -- below the threshold: both sides drop c
      rw [List.foldl_cons, fsfStep_below u c _ hth, ih b]
      have hfil : List.filter (fun x => decide (mkRat 6 10 ≤ jaroWinkler u x)) (c :: rest)
          = List.filter (fun x => decide (mkRat 6 10 ≤ jaroWinkler u x)) rest := by
        simp [List.filter_cons, hth]
      rw [hfil]

/-- `find_similar_field` computes exactly the claim's description. -/
theorem findSimilarField_eq_spec (u : String) (l : List String) :
    findSimilarField u l = specSuggestion u l := by
  induction l with
  | nil => rfl
  | cons c rest ih =>
    rw [findSimilarField_eq_foldl, List.foldl_cons]
    by_cases hth : mkRat 6 10 ≤ jaroWinkler u c
    · rw [fsfStep_none_pass u c hth, foldl_best_spec u rest c]
      unfold specSuggestion
      simp only []
      have hfil : List.filter (fun x => decide (mkRat 6 10 ≤ jaroWinkler u x)) (c :: rest)
          = c :: List.filter (fun x => decide (mkRat 6 10 ≤ jaroWinkler u x)) rest := by
        simp [List.filter_cons, hth]
      rw [hfil]
    · rw [fsfStep_below u c _ hth, ← findSimilarField_eq_foldl, ih]
      unfold specSuggestion
      simp only []
      have hfil : List.filter (fun x => decide (mkRat 6 10 ≤ jaroWinkler u x)) (c :: rest)
          = List.filter (fun x => decide (mkRat 6 10 ≤ jaroWinkler u x)) rest := by
        simp [List.filter_cons, hth]
      rw [hfil]

/-- C8: an unknown key under `deny_unknown_fields` fails with `UnknownField`
whose suggestion is the earliest known field name of maximal Jaro–Winkler
similarity among those reaching 0.6 (`findSimilarField_eq_spec` is the general
characterization; `specSuggestion` is written from the claim's wording);
the spec's concrete scenario `emial` → `email` produces exactly that error;
and without `deny_unknown_fields` the unknown key's value is skipped and
parsing continues. -/
theorem c8_unknown_field_suggestion :
    (∀ (u : String) (l : List String), findSimilarField u l = specSuggestion u l)
    ∧ fromStr 100
        (.sstruct { denyUnknownFields := true }
          [("username", false, .sstring), ("email", false, .sstring)])
        "\x7b\"username\":\"alice\",\"emial\":\"a@b\"\x7d"
      = .error (.unknownField "emial" ["username", "email"] (some "email"))
    ∧ fromStr 100
        (.sstruct {} [("username", false, .sstring), ("email", false, .sstring)])
        "\x7b\"username\":\"alice\",\"emial\":\"a@b\",\"email\":\"x\"\x7d"
      = .ok (.vstruct [.vstr "alice", .vstr "x"]) :=
  ⟨findSimilarField_eq_spec, by with_unfolding_all rfl, by with_unfolding_all rfl⟩

/-! ## C7: borrow preservation for string payloads (src/deserialize.rs:2024-2051) -/

/-- A character the string lexer passes through verbatim: not the closing
quote, not a backslash, not a control character. -/
def plainChar (c : Char) : Bool :=
  !(c = '"') && !(c = '\\') && !(c.toNat < 32)

/-- On a body of plain characters the lexer returns exactly that slice of the
input, with the escape flag `false` (modelling `Cow::Borrowed` into the input
buffer). -/
theorem lexStringBody_plain (l : List Char) : ∀ (fuel : Nat) (rest : List Char),
    l.length < fuel → (∀ c ∈ l, plainChar c = true) →
    lexStringBody fuel (l ++ '"' :: rest) = .ok (l, false, rest) := by
  induction l with
  | nil =>
    intro fuel rest hf _
    match fuel, hf with
    | f+1, _ => rfl
  | cons c tl ih =>
    intro fuel rest hc0 hc
    have hcp := hc c (by simp)
    simp only [plainChar, Bool.and_eq_true, Bool.not_eq_true', decide_eq_false_iff_not] at hcp
    obtain ⟨⟨h1, h2⟩, h3⟩ := hcp
    match fuel, hc0 with
    | f+1, hf =>
      show lexStringBodyGo (lexStringBody f) (c :: (tl ++ '"' :: rest)) = _
      show (if c = '"' then Except.ok (([] : List Char), false, tl ++ '"' :: rest) else _) = _
      rw [if_neg h1]
      show (if c = '\\' then _ else _) = _
      rw [if_neg h2]
      show (if c.toNat < 32 then _ else _) = _
      rw [if_neg h3]
      rw [ih f rest (Nat.lt_of_succ_lt_succ hf) (fun d hd => hc d (by simp [hd]))]

/-- `next_token` on a quoted plain string: the payload is the input slice
between the quotes and the escape flag is `false`. -/
theorem nextToken_plain_string (l rest : List Char) (hc : ∀ c ∈ l, plainChar c = true) :
    nextToken ('"' :: (l ++ '"' :: rest)) = .ok (.str (String.mk l) false, rest) := by
  show (match lexStringBody ((l ++ '"' :: rest).length + 1) (l ++ '"' :: rest) with
        | .ok (payload, esc, rest2) => Except.ok (Token.str (String.mk payload) esc, rest2)
        | .error e => Except.error e) = _
  rw [lexStringBody_plain l ((l ++ '"' :: rest).length + 1) rest
    (by simp [List.length_append]; omega) hc]

/-- `deserialize_pointer`, `&str` arm (src/deserialize.rs:2024-2051), as a
function of the next token. -/
theorem deserializeInto_strRef_eq (fuel : Nat) (cs : List Char) :
    deserializeInto (fuel+1) .strRef cs
      = (match nextToken cs with
        | .error e => .error (.token e)
        | .ok (.str s escaped, cs') =>
          if escaped then
            .error (.invalidValue "cannot borrow &str from JSON string containing escape sequences - use String instead")
          else .ok (.vstr s, cs')
        | .ok (t, _) => .error (.unexpectedToken t.display "string")) := rfl

/-- C7: reading a JSON string into a `&str` target: a string with no escape
sequences deserializes to a borrow whose payload is exactly the slice of the
input buffer between the quotes (the `Cow::Borrowed` arm, modelled by the
escape flag `false` and payload `String.mk l` for input `'"' :: l ++ '"' :: rest`);
a string token carrying any escape sequence fails with `InvalidValue`. -/
theorem c7_str_borrow_and_escape :
    (∀ (fuel : Nat) (l rest : List Char), (∀ c ∈ l, plainChar c = true) →
      deserializeInto (fuel+1) .strRef ('"' :: (l ++ '"' :: rest))
        = .ok (.vstr (String.mk l), rest))
    ∧ (∀ (fuel : Nat) (cs rest : List Char) (s : String),
      nextToken cs = .ok (.str s true, rest) →
      deserializeInto (fuel+1) .strRef cs
        = .error (.invalidValue "cannot borrow &str from JSON string containing escape sequences - use String instead")) := by
  constructor
  · intro fuel l rest hc
    rw [deserializeInto_strRef_eq, nextToken_plain_string l rest hc]
    rfl
  · intro fuel cs rest s h
    rw [deserializeInto_strRef_eq, h]
    rfl

/-- Witness for C7 at concrete inputs: `"hi"` into `&str` borrows the slice
`hi`; `"\n"` (an escape) into `&str` fails with the `InvalidValue` message. -/
theorem c7_witness :
    deserializeInto 3 .strRef ('"' :: (['h', 'i'] ++ '"' :: [])) = .ok (.vstr "hi", [])
    ∧ deserializeInto 3 .strRef ['"', '\\', 'n', '"']
        = .error (.invalidValue "cannot borrow &str from JSON string containing escape sequences - use String instead") := by
  constructor
  · exact c7_str_borrow_and_escape.1 2 ['h', 'i'] [] (by decide)
  · exact c7_str_borrow_and_escape.2 2 ['"', '\\', 'n', '"'] [] "\n" (by rfl)

/-! ## C9: the comma as an optional separator -/

/-- Example struct shape: two `i64` fields `a` and `b`, no attributes. -/
def shAB : Sh :=
  .sstruct {} [("a", false, .sint 8 true), ("b", false, .sint 8 true)]

/-- C9: after every entry of the struct/list/set loops the deserializer runs
the same "consume a `,` only if present" step (`consumeOptionalComma`,
src/deserialize.rs:1218-1222 / 1891-1895): a comma token is consumed, any
other next token leaves the input untouched for the closing-delimiter
re-check.  Hence an object with the separator omitted and a list/set with a
trailing comma deserialize successfully to the same value as the well-formed
input. -/
theorem c9_comma_optional :
    (∀ cs : List Char, consumeOptionalComma (',' :: cs) = .ok cs)
    ∧ (∀ (cs r : List Char) (t : Token), nextToken cs = .ok (t, r) → t ≠ .comma →
        consumeOptionalComma cs = .ok cs)
    ∧ fromStr 20 shAB "\x7b\"a\":1 \"b\":2\x7d" = .ok (.vstruct [.vint 1, .vint 2])
    ∧ fromStr 20 shAB "\x7b\"a\":1,\"b\":2\x7d" = .ok (.vstruct [.vint 1, .vint 2])
    ∧ fromStr 20 (.slist (.sint 8 true)) "[1,2,]" = .ok (.vlist [.vint 1, .vint 2])
    ∧ fromStr 20 (.sset (.sint 8 true)) "[1,2,]" = .ok (.vlist [.vint 1, .vint 2])
    ∧ fromStr 20 (.slist (.sint 8 true)) "[1,2]" = .ok (.vlist [.vint 1, .vint 2]) := by
  refine ⟨fun cs => rfl, ?_, by rfl, by rfl, by rfl, by rfl, by rfl⟩
  intro cs r t h ht
  unfold consumeOptionalComma
  rw [h]
  cases t <;> first | rfl | exact absurd rfl ht

/-- Witness for C9's no-comma step at a concrete input: before a `]` no comma
is consumed and the input is left for the delimiter check. -/
theorem c9_witness : consumeOptionalComma [']'] = .ok [']'] :=
  c9_comma_optional.2.1 [']'] [] .rbracket (by rfl) (fun hcon => Token.noConfusion hcon)

/-! ## C1 groundwork: lexing rendered output

The round-trip analysis needs to re-lex what the serializer wrote.  The
lemmas below describe `skipWs`, `takeDigits`, `takeAlpha` and `nextToken` on
inputs of the forms the serializer produces. -/

/-- The characters that can follow a serialized value inside a rendered
document: a separator `,`, a closing `]` or `\x7d`, a pretty-printer newline,
or the end of the input. -/
def sep (rest : List Char) : Prop :=
  rest = [] ∨ ∃ rs, rest = ',' :: rs ∨ rest = ']' :: rs ∨ rest = '\x7d' :: rs ∨ rest = '\n' :: rs

/-- All characters of a prefix are inter-token whitespace. -/
def allWs (ws : List Char) : Prop := ∀ c ∈ ws, isWs c = true

theorem allWs_nil : allWs [] := fun c hc => absurd hc (List.not_mem_nil c)

theorem skipWs_cons_ws (c : Char) (cs : List Char) (h : isWs c = true) :
    skipWs (c :: cs) = skipWs cs := by
  show (if isWs c = true then skipWs cs else c :: cs) = skipWs cs
  exact if_pos h

theorem skipWs_append_ws (ws : List Char) (h : allWs ws) (cs : List Char) :
    skipWs (ws ++ cs) = skipWs cs := by
  induction ws with
  | nil => rfl
  | cons c tl ih =>
    rw [List.cons_append, skipWs_cons_ws c _ (h c (by simp))]
    exact ih (fun d hd => h d (by simp [hd]))

/-- `next_token` ignores a whitespace prefix. -/
theorem nextToken_ws (ws : List Char) (h : allWs ws) (cs : List Char) :
    nextToken (ws ++ cs) = nextToken cs := by
  unfold nextToken
  rw [skipWs_append_ws ws h cs]

theorem takeDigits_cons_digit (c : Char) (cs : List Char) (h : isDigit c = true) :
    takeDigits (c :: cs) = (c :: (takeDigits cs).1, (takeDigits cs).2) := by
  show (if isDigit c = true then
      match takeDigits cs with | (ds, rest) => (c :: ds, rest)
    else ([], c :: cs)) = _
  rw [if_pos h]

theorem takeAlpha_cons_alpha (c : Char) (cs : List Char) (h : isAlpha c = true) :
    takeAlpha (c :: cs) = (c :: (takeAlpha cs).1, (takeAlpha cs).2) := by
  show (if isAlpha c = true then
      match takeAlpha cs with | (ds, rest) => (c :: ds, rest)
    else ([], c :: cs)) = _
  rw [if_pos h]

theorem takeDigits_sep (rest : List Char) (h : sep rest) :
    takeDigits rest = ([], rest) := by
  rcases h with h | ⟨rs, h | h | h | h⟩ <;> rw [h] <;> rfl

theorem takeAlpha_sep (rest : List Char) (h : sep rest) :
    takeAlpha rest = ([], rest) := by
  rcases h with h | ⟨rs, h | h | h | h⟩ <;> rw [h] <;> rfl

theorem takeDigits_append (ds : List Char) (hds : ∀ c ∈ ds, isDigit c = true)
    (rest : List Char) (hrest : sep rest) :
    takeDigits (ds ++ rest) = (ds, rest) := by
  induction ds with
  | nil => simpa using takeDigits_sep rest hrest
  | cons c tl ih =>
    rw [List.cons_append, takeDigits_cons_digit c _ (hds c (by simp)),
      ih (fun d hd => hds d (by simp [hd]))]

/-- `next_token` on the keyword `true` followed by a separator. -/
theorem nextToken_true (rest : List Char) (h : sep rest) :
    nextToken (['t', 'r', 'u', 'e'] ++ rest) = .ok (.tTrue, rest) := by
  show (match takeAlpha (['t', 'r', 'u', 'e'] ++ rest) with
        | (run, rest2) =>
          if run = ['t', 'r', 'u', 'e'] then Except.ok (Token.tTrue, rest2)
          else if run = ['f', 'a', 'l', 's', 'e'] then Except.ok (Token.tFalse, rest2)
          else if run = ['n', 'u', 'l', 'l'] then Except.ok (Token.tNull, rest2)
          else Except.error (TokenErrorKind.unexpectedCharacter 't')) = _
  rw [show (['t', 'r', 'u', 'e'] ++ rest) = 't' :: ('r' :: 'u' :: 'e' :: [] ++ rest) from rfl,
    takeAlpha_cons_alpha 't' _ (by decide), List.cons_append,
    takeAlpha_cons_alpha 'r' _ (by decide), List.cons_append,
    takeAlpha_cons_alpha 'u' _ (by decide), List.cons_append,
    takeAlpha_cons_alpha 'e' _ (by decide), List.nil_append,
    takeAlpha_sep rest h]
  rfl

/-- `next_token` on the keyword `false` followed by a separator. -/
theorem nextToken_false (rest : List Char) (h : sep rest) :
    nextToken (['f', 'a', 'l', 's', 'e'] ++ rest) = .ok (.tFalse, rest) := by
  show (match takeAlpha (['f', 'a', 'l', 's', 'e'] ++ rest) with
        | (run, rest2) =>
          if run = ['t', 'r', 'u', 'e'] then Except.ok (Token.tTrue, rest2)
          else if run = ['f', 'a', 'l', 's', 'e'] then Except.ok (Token.tFalse, rest2)
          else if run = ['n', 'u', 'l', 'l'] then Except.ok (Token.tNull, rest2)
          else Except.error (TokenErrorKind.unexpectedCharacter 'f')) = _
  rw [show (['f', 'a', 'l', 's', 'e'] ++ rest) = 'f' :: ('a' :: 'l' :: 's' :: 'e' :: [] ++ rest) from rfl,
    takeAlpha_cons_alpha 'f' _ (by decide), List.cons_append,
    takeAlpha_cons_alpha 'a' _ (by decide), List.cons_append,
    takeAlpha_cons_alpha 'l' _ (by decide), List.cons_append,
    takeAlpha_cons_alpha 's' _ (by decide), List.cons_append,
    takeAlpha_cons_alpha 'e' _ (by decide), List.nil_append,
    takeAlpha_sep rest h]
  rfl

/-- `next_token` on the keyword `null` followed by a separator. -/
theorem nextToken_null (rest : List Char) (h : sep rest) :
    nextToken (['n', 'u', 'l', 'l'] ++ rest) = .ok (.tNull, rest) := by
  show (match takeAlpha (['n', 'u', 'l', 'l'] ++ rest) with
        | (run, rest2) =>
          if run = ['t', 'r', 'u', 'e'] then Except.ok (Token.tTrue, rest2)
          else if run = ['f', 'a', 'l', 's', 'e'] then Except.ok (Token.tFalse, rest2)
          else if run = ['n', 'u', 'l', 'l'] then Except.ok (Token.tNull, rest2)
          else Except.error (TokenErrorKind.unexpectedCharacter 'n')) = _
  rw [show (['n', 'u', 'l', 'l'] ++ rest) = 'n' :: ('u' :: 'l' :: 'l' :: [] ++ rest) from rfl,
    takeAlpha_cons_alpha 'n' _ (by decide), List.cons_append,
    takeAlpha_cons_alpha 'u' _ (by decide), List.cons_append,
    takeAlpha_cons_alpha 'l' _ (by decide), List.cons_append,
    takeAlpha_cons_alpha 'l' _ (by decide), List.nil_append,
    takeAlpha_sep rest h]
  rfl

/-! ### Decimal renderings re-lex to the same value -/

theorem digitChar_facts (k : Nat) (hk : k < 10) :
    isDigit (Char.ofNat (48 + k)) = true
    ∧ digitVal (Char.ofNat (48 + k)) = k
    ∧ (Char.ofNat (48 + k) = '0' ↔ k = 0) := by
  interval_cases k <;> exact ⟨by decide, by decide, by decide⟩

theorem natDecAux_digits : ∀ (fuel n : Nat), n < fuel →
    ∀ c ∈ natDecAux fuel n, ∃ k, k < 10 ∧ c = Char.ofNat (48 + k) := by
  intro fuel
  induction fuel with
  | zero => intro n hn; omega
  | succ f ih =>
    intro n _ c hc
    by_cases h10 : n < 10
    · rw [show natDecAux (f+1) n = [Char.ofNat (48 + n)] from by
        show (if n < 10 then _ else _) = _; rw [if_pos h10]] at hc
      simp at hc
      exact ⟨n, h10, hc⟩
    · rw [show natDecAux (f+1) n
          = natDecAux f (n / 10) ++ [Char.ofNat (48 + n % 10)] from by
        show (if n < 10 then _ else _) = _; rw [if_neg h10]] at hc
      rcases List.mem_append.mp hc with hc | hc
      · exact ih (n / 10) (by omega) c hc
      · simp at hc
        exact ⟨n % 10, by omega, hc⟩

theorem natDec_digits (m : Nat) : ∀ c ∈ natDec m, ∃ k, k < 10 ∧ c = Char.ofNat (48 + k) :=
  natDecAux_digits (m + 1) m (by omega)

theorem natDec_isDigit (m : Nat) : ∀ c ∈ natDec m, isDigit c = true := by
  intro c hc
  obtain ⟨k, hk, hck⟩ := natDec_digits m c hc
  rw [hck]
  exact (digitChar_facts k hk).1

theorem digitsToNat_append_single (xs : List Char) (d : Char) :
    digitsToNat (xs ++ [d]) = digitsToNat xs * 10 + digitVal d := by
  unfold digitsToNat
  rw [List.foldl_append]
  rfl

theorem digitsToNat_natDecAux : ∀ (fuel n : Nat), n < fuel →
    digitsToNat (natDecAux fuel n) = n := by
  intro fuel
  induction fuel with
  | zero => intro n hn; omega
  | succ f ih =>
    intro n hn
    by_cases h10 : n < 10
    · rw [show natDecAux (f+1) n = [Char.ofNat (48 + n)] from by
        show (if n < 10 then _ else _) = _; rw [if_pos h10]]
      show 0 * 10 + digitVal (Char.ofNat (48 + n)) = n
      rw [(digitChar_facts n h10).2.1]
      omega
    · rw [show natDecAux (f+1) n
          = natDecAux f (n / 10) ++ [Char.ofNat (48 + n % 10)] from by
        show (if n < 10 then _ else _) = _; rw [if_neg h10]]
      rw [digitsToNat_append_single, ih (n / 10) (by omega),
        (digitChar_facts (n % 10) (by omega)).2.1]
      omega

theorem digitsToNat_natDec (m : Nat) : digitsToNat (natDec m) = m :=
  digitsToNat_natDecAux (m + 1) m (by omega)

theorem natDecAux_head_pos : ∀ (fuel n : Nat), n < fuel → n ≠ 0 →
    ∃ k dt, 0 < k ∧ k < 10 ∧ natDecAux fuel n = Char.ofNat (48 + k) :: dt := by
  intro fuel
  induction fuel with
  | zero => intro n hn; omega
  | succ f ih =>
    intro n hn hne
    by_cases h10 : n < 10
    · refine ⟨n, [], by omega, h10, ?_⟩
      show (if n < 10 then _ else _) = _
      rw [if_pos h10]
    · obtain ⟨k, dt, hk0, hk10, hrec⟩ := ih (n / 10) (by omega) (by omega)
      refine ⟨k, dt ++ [Char.ofNat (48 + n % 10)], hk0, hk10, ?_⟩
      rw [show natDecAux (f+1) n
          = natDecAux f (n / 10) ++ [Char.ofNat (48 + n % 10)] from by
        show (if n < 10 then _ else _) = _; rw [if_neg h10]]
      rw [hrec]
      rfl

theorem natDec_head_pos (m : Nat) (hm : m ≠ 0) :
    ∃ k dt, 0 < k ∧ k < 10 ∧ natDec m = Char.ofNat (48 + k) :: dt :=
  natDecAux_head_pos (m + 1) m (by omega) hm

/-- Character-class facts about a digit character, used to re-lex decimal
renderings. -/
theorem digitChar_class (k : Nat) (hk : k < 10) :
    isWs (Char.ofNat (48 + k)) = false
    ∧ ¬(Char.ofNat (48 + k) = Char.ofNat 123)
    ∧ ¬(Char.ofNat (48 + k) = Char.ofNat 125)
    ∧ ¬(Char.ofNat (48 + k) = '[')
    ∧ ¬(Char.ofNat (48 + k) = ']')
    ∧ ¬(Char.ofNat (48 + k) = ':')
    ∧ ¬(Char.ofNat (48 + k) = ',')
    ∧ ¬(Char.ofNat (48 + k) = '"')
    ∧ ¬(Char.ofNat (48 + k) = '-') := by
  interval_cases k <;>
    exact ⟨by decide, by decide, by decide, by decide, by decide, by decide, by decide,
      by decide, by decide⟩

theorem lexNumSign_not_minus (c : Char) (hc : ¬c = '-') (X : List Char) :
    lexNumSign (c :: X) = (false, c :: X) := by
  unfold lexNumSign
  split
  next r heq => exact absurd (List.head_eq_of_cons_eq heq) hc
  next => rfl

theorem lexIntDigits_run (c : Char) (hdig : isDigit c = true) (hc0 : ¬c = '0')
    (dt : List Char) (hdt : ∀ d ∈ dt, isDigit d = true)
    (rest : List Char) (hsep : sep rest) :
    lexIntDigits ((c :: dt) ++ rest) = .ok (c :: dt, rest) := by
  have hall : ∀ d ∈ c :: dt, isDigit d = true := by
    intro d hd
    rcases List.mem_cons.mp hd with h | h
    · rw [h]; exact hdig
    · exact hdt d h
  rw [List.cons_append]
  show (if (!isDigit c) = true then Except.error (TokenErrorKind.unexpectedCharacter c)
      else if c = '0' then Except.ok ([c], dt ++ rest)
      else Except.ok (takeDigits (c :: (dt ++ rest)))) = _
  rw [hdig, if_neg hc0, ← List.cons_append, takeDigits_append _ hall rest hsep]
  rfl

theorem lexFracPart_sep (rest : List Char) (hsep : sep rest) :
    lexFracPart rest = .ok (false, [], rest) := by
  rcases hsep with h | ⟨rs, h | h | h | h⟩ <;> subst h <;> rfl

theorem lexExpPart_sep (rest : List Char) (hsep : sep rest) :
    lexExpPart rest = .ok (false, false, [], rest) := by
  rcases hsep with h | ⟨rs, h | h | h | h⟩ <;> subst h <;> rfl

theorem lexIntFinish_false (intDs cs4 : List Char) (t : Token)
    (ht : intFitToken ((digitsToNat intDs : Nat) : Int) (String.mk intDs) = .ok t) :
    lexIntFinish false intDs cs4 = .ok (t, cs4) := by
  show finishTok
      (intFitToken
        (if (false : Bool) then -((digitsToNat intDs : Nat) : Int)
         else ((digitsToNat intDs : Nat) : Int))
        (String.mk ((if (false : Bool) then ['-'] else []) ++ intDs)))
      cs4 = _
  rw [show (if (false : Bool) then -((digitsToNat intDs : Nat) : Int)
        else ((digitsToNat intDs : Nat) : Int)) = ((digitsToNat intDs : Nat) : Int)
      from if_neg (by decide),
    show (if (false : Bool) then ['-'] else ([] : List Char)) = ([] : List Char)
      from if_neg (by decide),
    List.nil_append, ht]
  rfl

theorem lexIntFinish_true (intDs cs4 : List Char) (t : Token)
    (ht : intFitToken (-((digitsToNat intDs : Nat) : Int)) (String.mk ('-' :: intDs)) = .ok t) :
    lexIntFinish true intDs cs4 = .ok (t, cs4) := by
  show finishTok
      (intFitToken
        (if (true : Bool) then -((digitsToNat intDs : Nat) : Int)
         else ((digitsToNat intDs : Nat) : Int))
        (String.mk ((if (true : Bool) then ['-'] else []) ++ intDs)))
      cs4 = _
  rw [show (if (true : Bool) then -((digitsToNat intDs : Nat) : Int)
        else ((digitsToNat intDs : Nat) : Int)) = -((digitsToNat intDs : Nat) : Int)
      from if_pos (by decide),
    show (if (true : Bool) then ['-'] else ([] : List Char)) = ['-']
      from if_pos (by decide),
    List.singleton_append, ht]
  rfl

theorem lexNumberExp_sep (neg : Bool) (intDs : List Char) (rest : List Char)
    (hsep : sep rest) :
    lexNumberExp neg intDs false [] rest = lexIntFinish neg intDs rest := by
  unfold lexNumberExp
  rw [lexExpPart_sep rest hsep]
  rfl

theorem lexNumberFrac_sep (neg : Bool) (intDs : List Char) (rest : List Char)
    (hsep : sep rest) :
    lexNumberFrac neg intDs rest = lexIntFinish neg intDs rest := by
  unfold lexNumberFrac
  rw [lexFracPart_sep rest hsep]
  exact lexNumberExp_sep neg intDs rest hsep

theorem lexNumberInt_run (neg : Bool) (c : Char) (hdig : isDigit c = true)
    (hc0 : ¬c = '0') (dt : List Char) (hdt : ∀ d ∈ dt, isDigit d = true)
    (rest : List Char) (hsep : sep rest) :
    lexNumberInt neg ((c :: dt) ++ rest) = lexIntFinish neg (c :: dt) rest := by
  unfold lexNumberInt
  rw [lexIntDigits_run c hdig hc0 dt hdt rest hsep]
  exact lexNumberFrac_sep neg (c :: dt) rest hsep

theorem lexNumberInt_zero (neg : Bool) (rest : List Char) (hsep : sep rest) :
    lexNumberInt neg ('0' :: rest) = lexIntFinish neg ['0'] rest := by
  unfold lexNumberInt
  rw [show lexIntDigits ('0' :: rest) = .ok (['0'], rest) from rfl]
  exact lexNumberFrac_sep neg ['0'] rest hsep

/-- `lexNumber` on a nonzero digit run followed by a separator. -/
theorem lexNumber_run (c : Char) (hdig : isDigit c = true) (hcm : ¬c = '-')
    (hc0 : ¬c = '0') (dt : List Char) (hdt : ∀ d ∈ dt, isDigit d = true)
    (rest : List Char) (hsep : sep rest)
    (t : Token) (ht : intFitToken ((digitsToNat (c :: dt) : Nat) : Int)
      (String.mk (c :: dt)) = .ok t) :
    lexNumber ((c :: dt) ++ rest) = .ok (t, rest) := by
  unfold lexNumber
  rw [List.cons_append, lexNumSign_not_minus c hcm]
  show lexNumberInt false (c :: (dt ++ rest)) = _
  rw [← List.cons_append, lexNumberInt_run false c hdig hc0 dt hdt rest hsep,
    lexIntFinish_false _ _ _ ht]

/-- `lexNumber` on a minus sign, a nonzero digit run and a separator. -/
theorem lexNumber_neg_run (c : Char) (hdig : isDigit c = true)
    (hc0 : ¬c = '0') (dt : List Char) (hdt : ∀ d ∈ dt, isDigit d = true)
    (rest : List Char) (hsep : sep rest)
    (t : Token) (ht : intFitToken (-((digitsToNat (c :: dt) : Nat) : Int))
      (String.mk ('-' :: c :: dt)) = .ok t) :
    lexNumber ('-' :: ((c :: dt) ++ rest)) = .ok (t, rest) := by
  unfold lexNumber
  show lexNumberInt true ((c :: dt) ++ rest) = _
  rw [lexNumberInt_run true c hdig hc0 dt hdt rest hsep,
    lexIntFinish_true _ _ _ ht]

/-- `lexNumber` on the single digit `0` followed by a separator. -/
theorem lexNumber_zero (rest : List Char) (hsep : sep rest) :
    lexNumber ('0' :: rest) = .ok (.i64 0, rest) := by
  unfold lexNumber
  show lexNumberInt false ('0' :: rest) = _
  rw [lexNumberInt_zero false rest hsep,
    lexIntFinish_false ['0'] rest (.i64 0) (by with_unfolding_all rfl)]

theorem skipWs_cons_not (c : Char) (cs : List Char) (h : isWs c = false) :
    skipWs (c :: cs) = c :: cs := by
  show (if isWs c = true then skipWs cs else c :: cs) = c :: cs
  rw [h]
  rfl

/-- A non-punctuation, non-quote, non-whitespace digit head dispatches
`next_token` to `lexNumber`. -/
theorem nextToken_to_lexNumber (c : Char) (cs : List Char)
    (hws : isWs c = false)
    (hb1 : ¬c = Char.ofNat 123) (hb2 : ¬c = Char.ofNat 125) (hb3 : ¬c = '[')
    (hb4 : ¬c = ']') (hb5 : ¬c = ':') (hb6 : ¬c = ',') (hb7 : ¬c = '"')
    (hd : isDigit c = true) :
    nextToken (c :: cs) = lexNumber (c :: cs) := by
  conv_lhs => whnf
  rw [skipWs_cons_not _ _ hws]
  show (if c = Char.ofNat 123 then Except.ok (Token.lbrace, cs) else _) = _
  rw [if_neg hb1]
  show (if c = Char.ofNat 125 then Except.ok (Token.rbrace, cs) else _) = _
  rw [if_neg hb2]
  show (if c = '[' then Except.ok (Token.lbracket, cs) else _) = _
  rw [if_neg hb3]
  show (if c = ']' then Except.ok (Token.rbracket, cs) else _) = _
  rw [if_neg hb4]
  show (if c = ':' then Except.ok (Token.colon, cs) else _) = _
  rw [if_neg hb5]
  show (if c = ',' then Except.ok (Token.comma, cs) else _) = _
  rw [if_neg hb6]
  show (if c = '"' then _ else _) = _
  rw [if_neg hb7]
  show (if (isDigit c || decide (c = '-')) = true then lexNumber (c :: cs) else _) = _
  rw [hd]
  rfl

/-- `next_token` on the decimal rendering of a nonzero natural. -/
theorem nextToken_natDec_pos (m : Nat) (hm : m ≠ 0) (rest : List Char) (hsep : sep rest)
    (t : Token) (ht : intFitToken ((m : Nat) : Int) (String.mk (natDec m)) = .ok t) :
    nextToken (natDec m ++ rest) = .ok (t, rest) := by
  obtain ⟨k, dt, hk0, hk10, hhead⟩ := natDec_head_pos m hm
  have hdigs : ∀ c ∈ natDec m, isDigit c = true := natDec_isDigit m
  have hval : digitsToNat (natDec m) = m := digitsToNat_natDec m
  have hdigch : isDigit (Char.ofNat (48 + k)) = true := (digitChar_facts k hk10).1
  have hne0 : ¬(Char.ofNat (48 + k) = '0') := by
    intro hc
    exact absurd ((digitChar_facts k hk10).2.2.mp hc) (by omega)
  obtain ⟨hws, hb1, hb2, hb3, hb4, hb5, hb6, hb7, hbm⟩ := digitChar_class k hk10
  rw [hhead] at hdigs hval ht ⊢
  rw [← hval] at ht
  have hdt : ∀ c ∈ dt, isDigit c = true := fun c hc => hdigs c (by simp [hc])
  rw [List.cons_append, nextToken_to_lexNumber _ _ hws hb1 hb2 hb3 hb4 hb5 hb6 hb7 hdigch,
    ← List.cons_append]
  exact lexNumber_run _ hdigch hbm hne0 dt hdt rest hsep t ht

/-- `next_token` on the decimal rendering of the negation of a nonzero
natural. -/
theorem nextToken_natDec_neg (m : Nat) (hm : m ≠ 0) (rest : List Char) (hsep : sep rest)
    (t : Token) (ht : intFitToken (-((m : Nat) : Int)) (String.mk ('-' :: natDec m)) = .ok t) :
    nextToken (('-' :: natDec m) ++ rest) = .ok (t, rest) := by
  obtain ⟨k, dt, hk0, hk10, hhead⟩ := natDec_head_pos m hm
  have hdigs : ∀ c ∈ natDec m, isDigit c = true := natDec_isDigit m
  have hval : digitsToNat (natDec m) = m := digitsToNat_natDec m
  have hdigch : isDigit (Char.ofNat (48 + k)) = true := (digitChar_facts k hk10).1
  have hne0 : ¬(Char.ofNat (48 + k) = '0') := by
    intro hc
    exact absurd ((digitChar_facts k hk10).2.2.mp hc) (by omega)
  rw [hhead] at hdigs hval ht ⊢
  rw [← hval] at ht
  have hdt : ∀ c ∈ dt, isDigit c = true := fun c hc => hdigs c (by simp [hc])
  rw [List.cons_append, List.cons_append]
  show lexNumber ('-' :: (Char.ofNat (48 + k) :: (dt ++ rest))) = _
  rw [← List.cons_append]
  exact lexNumber_neg_run _ hdigch hne0 dt hdt rest hsep t ht

/-- `next_token` on the decimal rendering of zero. -/
theorem nextToken_natDec_zero (rest : List Char) (hsep : sep rest) :
    nextToken (natDec 0 ++ rest) = .ok (.i64 0, rest) := by
  show lexNumber ('0' :: rest) = _
  exact lexNumber_zero rest hsep

/-! ### Parsing rendered integers back into integer shapes -/

theorem intFitToken_i64 (n : Int) (s : String) (h : -(p63 : Int) ≤ n ∧ n < (p63 : Int)) :
    intFitToken n s = .ok (.i64 n) := by
  unfold intFitToken
  rw [if_pos h]

theorem intFitToken_u64 (n : Int) (s : String)
    (h1 : ¬(-(p63 : Int) ≤ n ∧ n < (p63 : Int))) (h2 : 0 ≤ n ∧ n < (p64 : Int)) :
    intFitToken n s = .ok (.u64 n.toNat) := by
  unfold intFitToken
  rw [if_neg h1, if_pos h2]

theorem intFitToken_i128 (n : Int) (s : String)
    (h1 : ¬(-(p63 : Int) ≤ n ∧ n < (p63 : Int))) (h2 : ¬(0 ≤ n ∧ n < (p64 : Int)))
    (h3 : -(p127 : Int) ≤ n ∧ n < (p127 : Int)) :
    intFitToken n s = .ok (.i128 n) := by
  unfold intFitToken
  rw [if_neg h1, if_neg h2, if_pos h3]

theorem intFitToken_u128 (n : Int) (s : String)
    (h1 : ¬(-(p63 : Int) ≤ n ∧ n < (p63 : Int))) (h2 : ¬(0 ≤ n ∧ n < (p64 : Int)))
    (h3 : ¬(-(p127 : Int) ≤ n ∧ n < (p127 : Int))) (h4 : 0 ≤ n ∧ n < (p128 : Int)) :
    intFitToken n s = .ok (.u128 n.toNat) := by
  unfold intFitToken
  rw [if_neg h1, if_neg h2, if_neg h3, if_pos h4]

theorem deserializeScalar_i64 (f : Nat) (sh : Sh) (cs cs' : List Char) (v : Int)
    (h : nextToken cs = .ok (.i64 v, cs')) :
    deserializeScalar f sh cs = (setNumberI64 sh v).map (fun x => (x, cs')) := by
  unfold deserializeScalar
  rw [h]

theorem deserializeScalar_u64 (f : Nat) (sh : Sh) (cs cs' : List Char) (v : Nat)
    (h : nextToken cs = .ok (.u64 v, cs')) :
    deserializeScalar f sh cs = (setNumberU64 sh v).map (fun x => (x, cs')) := by
  unfold deserializeScalar
  rw [h]

theorem deserializeScalar_i128 (f : Nat) (sh : Sh) (cs cs' : List Char) (v : Int)
    (h : nextToken cs = .ok (.i128 v, cs')) :
    deserializeScalar f sh cs = (setNumberI128 sh v).map (fun x => (x, cs')) := by
  unfold deserializeScalar
  rw [h]

theorem deserializeScalar_u128 (f : Nat) (sh : Sh) (cs cs' : List Char) (v : Nat)
    (h : nextToken cs = .ok (.u128 v, cs')) :
    deserializeScalar f sh cs = (setNumberU128 sh v).map (fun x => (x, cs')) := by
  unfold deserializeScalar
  rw [h]

/-- The canonical values of an integer shape: in range for the width and
signedness, excluding the windows the deserializer corrupts or rejects
(the `u64`-token wrap of C2 for `i128` targets, and the `i128`-token builder
mismatch for `u128` targets). -/
def canonInt (size : Nat) (signed : Bool) (n : Int) : Bool :=
  if signed then
    decide (-(2 ^ (8 * size - 1) : Int) ≤ n) && decide (n < (2 ^ (8 * size - 1) : Int))
      && !(decide (size = 16) && decide ((p63 : Int) ≤ n) && decide (n < (p64 : Int)))
  else
    decide (0 ≤ n) && decide (n < (2 ^ (8 * size) : Int))
      && !(decide (size = 16) && decide ((p64 : Int) ≤ n) && decide (n < (p127 : Int)))

theorem setIntSigned_ok (size : Nat)
    (hsz : size = 1 ∨ size = 2 ∨ size = 4 ∨ size = 8 ∨ size = 16) (n : Int)
    (h : -(2 ^ (8 * size - 1) : Int) ≤ n ∧ n < (2 ^ (8 * size - 1) : Int)) :
    setNumberI64 (.sint size true) n = .ok (.vint n) := by
  rcases hsz with hs | hs | hs | hs | hs <;> subst hs
  · show (if -128 ≤ n ∧ n ≤ 127 then Except.ok (Val.vint n)
      else Except.error (JsonErrorKind.numberOutOfRange (toString n) "i8")) = _
    rw [if_pos (by norm_num at h ⊢; omega)]
  · show (if -32768 ≤ n ∧ n ≤ 32767 then Except.ok (Val.vint n)
      else Except.error (JsonErrorKind.numberOutOfRange (toString n) "i16")) = _
    rw [if_pos (by norm_num at h ⊢; omega)]
  · show (if -2147483648 ≤ n ∧ n ≤ 2147483647 then Except.ok (Val.vint n)
      else Except.error (JsonErrorKind.numberOutOfRange (toString n) "i32")) = _
    rw [if_pos (by norm_num at h ⊢; omega)]
  · rfl
  · rfl

theorem setIntUnsigned_ok (size : Nat)
    (hsz : size = 1 ∨ size = 2 ∨ size = 4 ∨ size = 8 ∨ size = 16) (v : Nat)
    (h : (v : Int) < (2 ^ (8 * size) : Int)) :
    setIntUnsigned size v = .ok (.vint (v : Int)) := by
  rcases hsz with hs | hs | hs | hs | hs <;> subst hs
  · show (if v ≤ 255 then Except.ok (Val.vint (v : Int))
      else Except.error (JsonErrorKind.numberOutOfRange (toString v) "u8")) = _
    rw [if_pos (by norm_num at h ⊢; omega)]
  · show (if v ≤ 65535 then Except.ok (Val.vint (v : Int))
      else Except.error (JsonErrorKind.numberOutOfRange (toString v) "u16")) = _
    rw [if_pos (by norm_num at h ⊢; omega)]
  · show (if v ≤ 4294967295 then Except.ok (Val.vint (v : Int))
      else Except.error (JsonErrorKind.numberOutOfRange (toString v) "u32")) = _
    rw [if_pos (by norm_num at h ⊢; omega)]
  · rfl
  · rfl

theorem setNumberI64_unsigned_ok (size : Nat)
    (hsz : size = 1 ∨ size = 2 ∨ size = 4 ∨ size = 8 ∨ size = 16) (n : Int)
    (hn : 0 ≤ n) (h : n < (2 ^ (8 * size) : Int)) :
    setNumberI64 (.sint size false) n = .ok (.vint n) := by
  show (if n < 0 then
      Except.error (JsonErrorKind.numberOutOfRange (toString n) (typeIdent (.sint size false)))
    else setIntUnsigned size n.toNat) = _
  rw [if_neg (by omega), setIntUnsigned_ok size hsz n.toNat (by omega),
    show ((n.toNat : Nat) : Int) = n from by omega]

theorem canonInt_elim_true (size : Nat) (n : Int) (hc : canonInt size true n = true) :
    -(2 ^ (8 * size - 1) : Int) ≤ n ∧ n < (2 ^ (8 * size - 1) : Int)
      ∧ ¬(size = 16 ∧ (p63 : Int) ≤ n ∧ n < (p64 : Int)) := by
  unfold canonInt at hc
  rw [if_pos rfl] at hc
  simp only [Bool.and_eq_true, decide_eq_true_eq, Bool.not_eq_true',
    Bool.and_eq_false_iff, decide_eq_false_iff_not] at hc
  obtain ⟨⟨h1, h2⟩, h3⟩ := hc
  refine ⟨h1, h2, ?_⟩
  rintro ⟨h16, hlo, hhi⟩
  rcases h3 with h3 | h3
  · rcases h3 with h3 | h3
    · exact h3 h16
    · exact h3 hlo
  · exact h3 hhi

theorem canonInt_elim_false (size : Nat) (n : Int) (hc : canonInt size false n = true) :
    0 ≤ n ∧ n < (2 ^ (8 * size) : Int)
      ∧ ¬(size = 16 ∧ (p64 : Int) ≤ n ∧ n < (p127 : Int)) := by
  unfold canonInt at hc
  rw [if_neg (by simp)] at hc
  simp only [Bool.and_eq_true, decide_eq_true_eq, Bool.not_eq_true',
    Bool.and_eq_false_iff, decide_eq_false_iff_not] at hc
  obtain ⟨⟨h1, h2⟩, h3⟩ := hc
  refine ⟨h1, h2, ?_⟩
  rintro ⟨h16, hlo, hhi⟩
  rcases h3 with h3 | h3
  · rcases h3 with h3 | h3
    · exact h3 h16
    · exact h3 hlo
  · exact h3 hhi

/-- Deserializing the decimal rendering of a canonical integer returns the
integer; the rendering re-lexes as a number token (never `null`). -/
theorem parse_int (size : Nat)
    (hsz : size = 1 ∨ size = 2 ∨ size = 4 ∨ size = 8 ∨ size = 16)
    (signed : Bool) (n : Int) (hc : canonInt size signed n = true)
    (f : Nat) (rest : List Char) (hsep : sep rest) :
    deserializeInto (f+1) (.sint size signed) (intDec n ++ rest) = .ok (.vint n, rest)
    ∧ ∃ tok r, nextToken (intDec n ++ rest) = .ok (tok, r)
      ∧ tok ≠ .tNull ∧ tok ≠ .rbracket := by
  have hp63 : (p63 : Int) = 9223372036854775808 := rfl
  have hp64 : (p64 : Int) = 18446744073709551616 := rfl
  have hp127 : (p127 : Int) = 170141183460469231731687303715884105728 := rfl
  have hp128 : (p128 : Int) = 340282366920938463463374607431768211456 := rfl
  have hdisp : deserializeInto (f+1) (.sint size signed) (intDec n ++ rest)
      = deserializeScalar f (.sint size signed) (intDec n ++ rest) := rfl
  rw [hdisp]
  by_cases hz : n = 0
  · subst hz
    have hnt := nextToken_natDec_zero rest hsep
    rw [show intDec 0 = natDec 0 from rfl]
    refine ⟨?_, .i64 0, rest, hnt, fun hx => Token.noConfusion hx, fun hx => Token.noConfusion hx⟩
    rw [deserializeScalar_i64 f _ _ rest 0 hnt]
    cases signed
    · rw [setNumberI64_unsigned_ok size hsz 0 (by omega)
        (by rcases hsz with h | h | h | h | h <;> subst h <;> norm_num)]
      rfl
    · rw [setIntSigned_ok size hsz 0
        (by rcases hsz with h | h | h | h | h <;> subst h <;> norm_num)]
      rfl
  · cases signed
    · -- unsigned target
      obtain ⟨h1, h2, h3⟩ := canonInt_elim_false size n hc
      have hpow2 : (2 ^ (8 * size) : Int) ≤ (p64 : Int) ∨ size = 16 := by
        rcases hsz with h | h | h | h | h <;> subst h
        · left; norm_num [hp64]
        · left; norm_num [hp64]
        · left; norm_num [hp64]
        · left; norm_num [hp64]
        · right; rfl
      have hm0 : n.toNat ≠ 0 := by omega
      have hcast : ((n.toNat : Nat) : Int) = n := by omega
      have hren : intDec n = natDec n.toNat := by
        unfold intDec
        rw [if_neg (by omega)]
      rw [hren]
      by_cases hA : n < (p63 : Int)
      · have hnt : nextToken (natDec n.toNat ++ rest) = .ok (.i64 n, rest) := by
          refine nextToken_natDec_pos n.toNat hm0 rest hsep _ ?_
          rw [hcast]
          exact intFitToken_i64 n _ ⟨by omega, hA⟩
        refine ⟨?_, .i64 n, rest, hnt, fun hx => Token.noConfusion hx, fun hx => Token.noConfusion hx⟩
        rw [deserializeScalar_i64 f _ _ rest n hnt,
          setNumberI64_unsigned_ok size hsz n (by omega) h2]
        rfl
      · by_cases hB : n < (p64 : Int)
        · have hnt : nextToken (natDec n.toNat ++ rest) = .ok (.u64 n.toNat, rest) := by
            refine nextToken_natDec_pos n.toNat hm0 rest hsep _ ?_
            rw [hcast]
            exact intFitToken_u64 n _ (by omega) ⟨by omega, hB⟩
          refine ⟨?_, .u64 n.toNat, rest, hnt, fun hx => Token.noConfusion hx, fun hx => Token.noConfusion hx⟩
          rw [deserializeScalar_u64 f _ _ rest n.toNat hnt]
          show (setIntUnsigned size n.toNat).map (fun x => (x, rest)) = _
          rw [setIntUnsigned_ok size hsz n.toNat (by rw [hcast]; exact h2), hcast]
          rfl
        · have hge64 : (p64 : Int) ≤ n := by omega
          have hs16 : size = 16 := by
            rcases hpow2 with hb | hb
            · exfalso; omega
            · exact hb
          subst hs16
          have hq2 : (2 ^ (8 * 16) : Int) = (p128 : Int) := by norm_num [hp128]
          have hn127 : (p127 : Int) ≤ n := by
            by_contra hlt
            exact h3 ⟨rfl, hge64, by omega⟩
          have hnt : nextToken (natDec n.toNat ++ rest) = .ok (.u128 n.toNat, rest) := by
            refine nextToken_natDec_pos n.toNat hm0 rest hsep _ ?_
            rw [hcast]
            exact intFitToken_u128 n _ (by omega) (by omega) (by omega)
              ⟨by omega, by omega⟩
          refine ⟨?_, .u128 n.toNat, rest, hnt, fun hx => Token.noConfusion hx, fun hx => Token.noConfusion hx⟩
          rw [deserializeScalar_u128 f _ _ rest n.toNat hnt]
          show (Except.ok (Val.vint ((n.toNat : Nat) : Int))).map
              (fun x => ((x : Val), rest)) = _
          rw [hcast]
          rfl
    · -- signed target
      obtain ⟨h1, h2, h3⟩ := canonInt_elim_true size n hc
      have hpow1 : (2 ^ (8 * size - 1) : Int) ≤ (p63 : Int) ∨ size = 16 := by
        rcases hsz with h | h | h | h | h <;> subst h
        · left; norm_num [hp63]
        · left; norm_num [hp63]
        · left; norm_num [hp63]
        · left; norm_num [hp63]
        · right; rfl
      by_cases hneg : n < 0
      · have hm0 : n.natAbs ≠ 0 := by omega
        have hcast : -((n.natAbs : Nat) : Int) = n := by omega
        have hren : intDec n = '-' :: natDec n.natAbs := by
          unfold intDec
          rw [if_pos hneg]
        rw [hren, show ('-' :: natDec n.natAbs ++ rest) = ('-' :: natDec n.natAbs) ++ rest
          from rfl]
        by_cases hA : -(p63 : Int) ≤ n
        · have hnt : nextToken (('-' :: natDec n.natAbs) ++ rest) = .ok (.i64 n, rest) := by
            refine nextToken_natDec_neg n.natAbs hm0 rest hsep _ ?_
            rw [hcast]
            exact intFitToken_i64 n _ ⟨hA, by omega⟩
          refine ⟨?_, .i64 n, rest, hnt, fun hx => Token.noConfusion hx, fun hx => Token.noConfusion hx⟩
          rw [deserializeScalar_i64 f _ _ rest n hnt,
            setIntSigned_ok size hsz n ⟨h1, h2⟩]
          rfl
        · have hs16 : size = 16 := by
            rcases hpow1 with hb | hb
            · exfalso; omega
            · exact hb
          subst hs16
          have hq1 : (2 ^ (8 * 16 - 1) : Int) = (p127 : Int) := by norm_num [hp127]
          have hnt : nextToken (('-' :: natDec n.natAbs) ++ rest) = .ok (.i128 n, rest) := by
            refine nextToken_natDec_neg n.natAbs hm0 rest hsep _ ?_
            rw [hcast]
            exact intFitToken_i128 n _ (by omega) (by omega) ⟨by omega, by omega⟩
          refine ⟨?_, .i128 n, rest, hnt, fun hx => Token.noConfusion hx, fun hx => Token.noConfusion hx⟩
          rw [deserializeScalar_i128 f _ _ rest n hnt]
          rfl
      · have hm0 : n.toNat ≠ 0 := by omega
        have hcast : ((n.toNat : Nat) : Int) = n := by omega
        have hren : intDec n = natDec n.toNat := by
          unfold intDec
          rw [if_neg (by omega)]
        rw [hren]
        by_cases hA : n < (p63 : Int)
        · have hnt : nextToken (natDec n.toNat ++ rest) = .ok (.i64 n, rest) := by
            refine nextToken_natDec_pos n.toNat hm0 rest hsep _ ?_
            rw [hcast]
            exact intFitToken_i64 n _ ⟨by omega, hA⟩
          refine ⟨?_, .i64 n, rest, hnt, fun hx => Token.noConfusion hx, fun hx => Token.noConfusion hx⟩
          rw [deserializeScalar_i64 f _ _ rest n hnt,
            setIntSigned_ok size hsz n ⟨h1, h2⟩]
          rfl
        · have hs16 : size = 16 := by
            rcases hpow1 with hb | hb
            · exfalso; omega
            · exact hb
          subst hs16
          have hq1 : (2 ^ (8 * 16 - 1) : Int) = (p127 : Int) := by norm_num [hp127]
          have hge64 : (p64 : Int) ≤ n := by
            by_contra hlt
            exact h3 ⟨rfl, by omega, by omega⟩
          have hnt : nextToken (natDec n.toNat ++ rest) = .ok (.i128 n, rest) := by
            refine nextToken_natDec_pos n.toNat hm0 rest hsep _ ?_
            rw [hcast]
            exact intFitToken_i128 n _ (by omega) (by omega) ⟨by omega, by omega⟩
          refine ⟨?_, .i128 n, rest, hnt, fun hx => Token.noConfusion hx, fun hx => Token.noConfusion hx⟩
          rw [deserializeScalar_i128 f _ _ rest n hnt]
          rfl

/-! ### Parsing the other rendered scalars -/

theorem deserializeScalar_true (f : Nat) (cs cs' : List Char)
    (h : nextToken cs = .ok (.tTrue, cs')) :
    deserializeScalar f .sbool cs = .ok (.vbool true, cs') := by
  unfold deserializeScalar
  rw [h]

theorem deserializeScalar_false (f : Nat) (cs cs' : List Char)
    (h : nextToken cs = .ok (.tFalse, cs')) :
    deserializeScalar f .sbool cs = .ok (.vbool false, cs') := by
  unfold deserializeScalar
  rw [h]

theorem deserializeScalar_str (f : Nat) (cs cs' : List Char) (s : String) (esc : Bool)
    (h : nextToken cs = .ok (.str s esc, cs')) :
    deserializeScalar f .sstring cs = .ok (.vstr s, cs') := by
  unfold deserializeScalar
  rw [h]

/-- Parsing the rendering of a boolean. -/
theorem parse_bool (b : Bool) (f : Nat) (rest : List Char) (hsep : sep rest) :
    deserializeInto (f+1) .sbool
      ((if b then ['t', 'r', 'u', 'e'] else ['f', 'a', 'l', 's', 'e']) ++ rest)
      = .ok (.vbool b, rest) := by
  cases b
  · rw [if_neg (by decide),
      show deserializeInto (f+1) .sbool (['f', 'a', 'l', 's', 'e'] ++ rest)
        = deserializeScalar f .sbool (['f', 'a', 'l', 's', 'e'] ++ rest) from rfl,
      deserializeScalar_false f _ rest (nextToken_false rest hsep)]
  · rw [if_pos (by decide),
      show deserializeInto (f+1) .sbool (['t', 'r', 'u', 'e'] ++ rest)
        = deserializeScalar f .sbool (['t', 'r', 'u', 'e'] ++ rest) from rfl,
      deserializeScalar_true f _ rest (nextToken_true rest hsep)]

/-- A plain character is written verbatim by the string escaper. -/
theorem escapeChar_plain (c : Char) (h : plainChar c = true) : escapeChar c = [c] := by
  simp only [plainChar, Bool.and_eq_true, Bool.not_eq_true', decide_eq_false_iff_not] at h
  obtain ⟨⟨h1, h2⟩, h3⟩ := h
  unfold escapeChar
  rw [if_neg h1, if_neg h2, if_neg (by omega)]

/-- Escaping a list of plain characters is the identity. -/
theorem escape_flatten (l : List Char) (h : ∀ c ∈ l, plainChar c = true) :
    (l.map escapeChar).flatten = l := by
  induction l with
  | nil => rfl
  | cons c tl ih =>
    rw [List.map_cons, List.flatten_cons, escapeChar_plain c (h c (by simp)),
      ih (fun d hd => h d (by simp [hd]))]
    rfl

/-- `write_json_string` on a plain string is the quoted verbatim payload. -/
theorem writeJsonString_plain (s : String) (h : ∀ c ∈ s.toList, plainChar c = true) :
    writeJsonString s = '"' :: (s.toList ++ ['"']) := by
  unfold writeJsonString
  rw [escape_flatten s.toList h]
  rfl

/-- Parsing the rendering of a plain string into the owned-string shape. -/
theorem parse_string (s : String) (h : ∀ c ∈ s.toList, plainChar c = true)
    (f : Nat) (rest : List Char) :
    deserializeInto (f+1) .sstring (writeJsonString s ++ rest) = .ok (.vstr s, rest) := by
  rw [writeJsonString_plain s h,
    show ('"' :: (s.toList ++ ['"'])) ++ rest = '"' :: (s.toList ++ '"' :: rest) from by
      simp,
    show deserializeInto (f+1) .sstring ('"' :: (s.toList ++ '"' :: rest))
      = deserializeScalar f .sstring ('"' :: (s.toList ++ '"' :: rest)) from rfl,
    deserializeScalar_str f _ rest (String.mk s.toList) false
      (nextToken_plain_string s.toList rest h)]
  rfl

/-- Parsing the rendering of a plain string into the borrowed `&str` shape. -/
theorem parse_strRef (s : String) (h : ∀ c ∈ s.toList, plainChar c = true)
    (f : Nat) (rest : List Char) :
    deserializeInto (f+1) .strRef (writeJsonString s ++ rest) = .ok (.vstr s, rest) := by
  rw [writeJsonString_plain s h,
    show ('"' :: (s.toList ++ ['"'])) ++ rest = '"' :: (s.toList ++ '"' :: rest) from by
      simp,
    deserializeInto_strRef_eq, nextToken_plain_string s.toList rest h]
  rfl

/-! ### Whitespace, punctuation and loop-step helpers -/

/-- The two indentation modes of the public API: `to_string` (no indent) and
`to_string_pretty` (two spaces). -/
def indentOk (ind : Option String) : Prop := ind = none ∨ ind = some "  "

theorem allWs_append (a b : List Char) (ha : allWs a) (hb : allWs b) : allWs (a ++ b) := by
  intro c hc
  rcases List.mem_append.mp hc with h | h
  · exact ha c h
  · exact hb c h

theorem writeNewline_ws (ind : Option String) (hind : indentOk ind) :
    allWs (writeNewline ind) := by
  rcases hind with h | h <;> subst h <;> intro c hc <;> simp [writeNewline] at hc
  rw [hc]
  rfl

theorem writeIndent_ws (ind : Option String) (hind : indentOk ind) (d : Nat) :
    allWs (writeIndent ind d) := by
  rcases hind with h | h <;> subst h <;> intro c hc
  · simp [writeIndent] at hc
  · simp [writeIndent, List.mem_flatten, List.mem_replicate] at hc
    obtain ⟨l, ⟨_, hl⟩, hcl⟩ := hc
    rw [hl] at hcl
    simp only [List.mem_cons, List.not_mem_nil, or_false] at hcl
    rcases hcl with h2 | h2 <;> rw [h2] <;> rfl

theorem nextToken_lbracket (cs : List Char) : nextToken ('[' :: cs) = .ok (.lbracket, cs) := rfl

theorem nextToken_rbracket (cs : List Char) : nextToken (']' :: cs) = .ok (.rbracket, cs) := rfl

theorem nextToken_lbrace (cs : List Char) :
    nextToken (Char.ofNat 123 :: cs) = .ok (.lbrace, cs) := rfl

theorem nextToken_rbrace (cs : List Char) :
    nextToken (Char.ofNat 125 :: cs) = .ok (.rbrace, cs) := rfl

theorem nextToken_colon (cs : List Char) : nextToken (':' :: cs) = .ok (.colon, cs) := rfl

theorem nextToken_comma (cs : List Char) : nextToken (',' :: cs) = .ok (.comma, cs) := rfl

theorem consumeComma_comma (cs : List Char) :
    consumeOptionalComma (',' :: cs) = .ok cs := rfl

theorem consumeComma_keep (cs r : List Char) (t : Token)
    (h : nextToken cs = .ok (t, r)) (ht : t ≠ .comma) :
    consumeOptionalComma cs = .ok cs := by
  unfold consumeOptionalComma
  rw [h]
  cases t <;> first | rfl | exact absurd rfl ht

/-- A separator-headed rest is not a comma token when headed by `]`, `\x7d`
or nothing: the loops re-check the closing delimiter.  (Only the forms the
serializer emits after the last entry are covered: newline, indentation,
then the closing delimiter.) -/
theorem consumeComma_ws_close (ws : List Char) (hws : allWs ws) (c : Char) (cs : List Char)
    (hc : c = ']' ∨ c = Char.ofNat 125) :
    consumeOptionalComma (ws ++ c :: cs) = .ok (ws ++ c :: cs) := by
  rcases hc with h | h <;> subst h
  · exact consumeComma_keep _ cs .rbracket
      (by rw [nextToken_ws ws hws]; rfl) (fun hx => Token.noConfusion hx)
  · exact consumeComma_keep _ cs .rbrace
      (by rw [nextToken_ws ws hws]; rfl) (fun hx => Token.noConfusion hx)

theorem seqElems_rbracket (pv : Sh → List Char → PRes Val) (lf : Nat) (e : Sh)
    (acc : List Val) (cs r : List Char) (h : nextToken cs = .ok (.rbracket, r)) :
    seqElems pv (lf+1) e acc cs = .ok (acc.reverse, r) := by
  unfold seqElems
  rw [h]

theorem seqElems_step (pv : Sh → List Char → PRes Val) (lf : Nat) (e : Sh)
    (acc : List Val) (cs r cs1 cs2 : List Char) (t : Token) (v : Val)
    (hnt : nextToken cs = .ok (t, r)) (ht : t ≠ .rbracket)
    (hpv : pv e cs = .ok (v, cs1)) (hcc : consumeOptionalComma cs1 = .ok cs2) :
    seqElems pv (lf+1) e acc cs = seqElems pv lf e (v :: acc) cs2 := by
  conv_lhs => unfold seqElems
  rw [hnt]
  cases t <;> first
    | exact absurd rfl ht
    | (show (match pv e cs with
          | Except.error e2 => (Except.error e2 : PRes (List Val))
          | Except.ok (v2, cs3) =>
            match consumeOptionalComma cs3 with
            | Except.error e2 => (Except.error e2 : PRes (List Val))
            | Except.ok cs4 => seqElems pv lf e (v2 :: acc) cs4) = _
       rw [hpv]
       show (match consumeOptionalComma cs1 with
            | Except.error e2 => (Except.error e2 : PRes (List Val))
            | Except.ok cs4 => seqElems pv lf e (v :: acc) cs4) = _
       rw [hcc])

/-! ### Step lemmas for the remaining deserialization loops -/

theorem fixedElems_nil (pv : Sh → List Char → PRes Val) (lf : Nat) (first : Bool)
    (acc : List Val) (cs : List Char) :
    fixedElems pv (lf+1) [] first acc cs = .ok (acc.reverse, cs) := rfl

theorem fixedElems_first (pv : Sh → List Char → PRes Val) (lf : Nat) (sh : Sh)
    (shs : List Sh) (acc : List Val) (cs cs1 : List Char) (v : Val)
    (hpv : pv sh cs = .ok (v, cs1)) :
    fixedElems pv (lf+1) (sh :: shs) true acc cs
      = fixedElems pv lf shs false (v :: acc) cs1 := by
  conv_lhs => unfold fixedElems
  show (if (true : Bool) then
      match pv sh cs with
      | Except.error e => (Except.error e : PRes (List Val))
      | Except.ok (v2, cs2) => fixedElems pv lf shs false (v2 :: acc) cs2
    else _) = _
  rw [if_pos rfl, hpv]

theorem fixedElems_comma (pv : Sh → List Char → PRes Val) (lf : Nat) (sh : Sh)
    (shs : List Sh) (acc : List Val) (cs cs' cs1 : List Char) (v : Val)
    (hnt : nextToken cs = .ok (.comma, cs'))
    (hpv : pv sh cs' = .ok (v, cs1)) :
    fixedElems pv (lf+1) (sh :: shs) false acc cs
      = fixedElems pv lf shs false (v :: acc) cs1 := by
  conv_lhs => unfold fixedElems
  show (if (false : Bool) then _
    else
      match nextToken cs with
      | Except.error e => (Except.error (JsonErrorKind.token e) : PRes (List Val))
      | Except.ok (Token.comma, cs2) =>
        match pv sh cs2 with
        | Except.error e => (Except.error e : PRes (List Val))
        | Except.ok (v2, cs3) => fixedElems pv lf shs false (v2 :: acc) cs3
      | Except.ok (t, _) =>
        Except.error (JsonErrorKind.unexpectedToken t.display "','")) = _
  rw [if_neg (by decide), hnt]
  show (match pv sh cs' with
      | Except.error e => (Except.error e : PRes (List Val))
      | Except.ok (v2, cs3) => fixedElems pv lf shs false (v2 :: acc) cs3) = _
  rw [hpv]

theorem structFieldsLoop_rbrace (pv : Sh → List Char → PRes Val) (lf : Nat)
    (attrs : StructAttrs) (fields : List (String × Bool × Sh))
    (slots : List (Option Val)) (cs r : List Char)
    (h : nextToken cs = .ok (.rbrace, r)) :
    structFieldsLoop pv (lf+1) attrs fields slots cs = .ok (slots, r) := by
  conv_lhs => unfold structFieldsLoop
  rw [h]

theorem structFieldsLoop_step (pv : Sh → List Char → PRes Val) (lf : Nat)
    (attrs : StructAttrs) (fields : List (String × Bool × Sh))
    (slots : List (Option Val)) (cs cs1 cs2 cs3 cs4 : List Char)
    (key : String) (esc : Bool) (idx : Nat) (fld : String × Bool × Sh) (v : Val)
    (hk : nextToken cs = .ok (.str key esc, cs1))
    (hcol : nextToken cs1 = .ok (.colon, cs2))
    (hfind : findFieldIdx fields key = some (idx, fld))
    (hpv : pv fld.2.2 cs2 = .ok (v, cs3))
    (hcc : consumeOptionalComma cs3 = .ok cs4) :
    structFieldsLoop pv (lf+1) attrs fields slots cs
      = structFieldsLoop pv lf attrs fields (setSlot slots idx v) cs4 := by
  conv_lhs => unfold structFieldsLoop
  simp only [hk, hcol, hfind, hpv, hcc]

theorem mapEntries_rbrace (pv : Sh → List Char → PRes Val) (lf : Nat) (ksh vsh : Sh)
    (acc : List (String × Val)) (cs r : List Char)
    (h : nextToken cs = .ok (.rbrace, r)) :
    mapEntries pv (lf+1) ksh vsh acc cs = .ok (acc.reverse, r) := by
  conv_lhs => unfold mapEntries
  rw [h]

theorem mapEntries_step (pv : Sh → List Char → PRes Val) (lf : Nat) (vsh : Sh)
    (acc : List (String × Val)) (cs cs1 cs2 cs3 cs4 : List Char)
    (key : String) (esc : Bool) (v : Val)
    (hk : nextToken cs = .ok (.str key esc, cs1))
    (hcol : nextToken cs1 = .ok (.colon, cs2))
    (hpv : pv vsh cs2 = .ok (v, cs3))
    (hcc : consumeOptionalComma cs3 = .ok cs4) :
    mapEntries pv (lf+1) .sstring vsh acc cs
      = mapEntries pv lf .sstring vsh ((key, v) :: acc) cs4 := by
  conv_lhs => unfold mapEntries
  simp only [hk, hcol, hpv, hcc,
    show setStringValue (mapKeyShape .sstring) key esc = .ok (.vstr key) from rfl]

theorem enumTupleFields_nil (pv : Sh → List Char → PRes Val) (lf : Nat)
    (acc : List Val) (cs : List Char) :
    enumTupleFields pv (lf+1) [] acc cs = .ok (acc.reverse, cs) := rfl

theorem enumTupleFields_step (pv : Sh → List Char → PRes Val) (lf : Nat)
    (fld : String × Bool × Sh) (flds : List (String × Bool × Sh))
    (acc : List Val) (cs cs1 cs2 : List Char) (v : Val)
    (hpv : pv fld.2.2 cs = .ok (v, cs1))
    (hcc : consumeOptionalComma cs1 = .ok cs2) :
    enumTupleFields pv (lf+1) (fld :: flds) acc cs
      = enumTupleFields pv lf flds (v :: acc) cs2 := by
  conv_lhs => unfold enumTupleFields
  show (match pv fld.2.2 cs with
      | Except.error e => (Except.error e : PRes (List Val))
      | Except.ok (v2, cs3) =>
        match consumeOptionalComma cs3 with
        | Except.error e => (Except.error e : PRes (List Val))
        | Except.ok cs4 => enumTupleFields pv lf flds (v2 :: acc) cs4) = _
  rw [hpv]
  show (match consumeOptionalComma cs1 with
      | Except.error e => (Except.error e : PRes (List Val))
      | Except.ok cs4 => enumTupleFields pv lf flds (v :: acc) cs4) = _
  rw [hcc]

theorem variantStructFieldsLoop_rbrace (pv : Sh → List Char → PRes Val) (lf : Nat)
    (fields : List (String × Bool × Sh)) (slots : List (Option Val)) (cs r : List Char)
    (h : nextToken cs = .ok (.rbrace, r)) :
    variantStructFieldsLoop pv (lf+1) fields slots cs = .ok (slots, r) := by
  conv_lhs => unfold variantStructFieldsLoop
  rw [h]

theorem variantStructFieldsLoop_step (pv : Sh → List Char → PRes Val) (lf : Nat)
    (fields : List (String × Bool × Sh)) (slots : List (Option Val))
    (cs cs1 cs2 cs3 cs4 : List Char) (key : String) (esc : Bool)
    (idx : Nat) (fld : String × Bool × Sh) (v : Val)
    (hk : nextToken cs = .ok (.str key esc, cs1))
    (hcol : nextToken cs1 = .ok (.colon, cs2))
    (hfind : findFieldIdx fields key = some (idx, fld))
    (hpv : pv fld.2.2 cs2 = .ok (v, cs3))
    (hcc : consumeOptionalComma cs3 = .ok cs4) :
    variantStructFieldsLoop pv (lf+1) fields slots cs
      = variantStructFieldsLoop pv lf fields (setSlot slots idx v) cs4 := by
  conv_lhs => unfold variantStructFieldsLoop
  simp only [hk, hcol, hfind, hpv, hcc]

theorem variantTupleFieldsLoop_rbracket (pv : Sh → List Char → PRes Val) (lf : Nat)
    (fields : List (String × Bool × Sh)) (idx : Nat) (slots : List (Option Val))
    (cs r : List Char) (h : nextToken cs = .ok (.rbracket, r)) :
    variantTupleFieldsLoop pv (lf+1) fields idx slots cs = .ok (slots, r) := by
  conv_lhs => unfold variantTupleFieldsLoop
  rw [h]

theorem variantTupleFieldsLoop_step (pv : Sh → List Char → PRes Val) (lf : Nat)
    (fields : List (String × Bool × Sh)) (idx : Nat) (slots : List (Option Val))
    (cs r cs1 cs2 : List Char) (t : Token) (fld : String × Bool × Sh) (v : Val)
    (hnt : nextToken cs = .ok (t, r)) (ht : t ≠ .rbracket)
    (hget : fields.get? idx = some fld)
    (hpv : pv fld.2.2 cs = .ok (v, cs1))
    (hcc : consumeOptionalComma cs1 = .ok cs2) :
    variantTupleFieldsLoop pv (lf+1) fields idx slots cs
      = variantTupleFieldsLoop pv lf fields (idx + 1) (setSlot slots idx v) cs2 := by
  conv_lhs => unfold variantTupleFieldsLoop
  rw [hnt]
  cases t <;> first
    | exact absurd rfl ht
    | simp only [hget, hpv, hcc]

/-! ### Destructuring the serializer's loop outputs -/

theorem serItems_cons (sv : Sh → Val → Nat → Except SerErr (List Char))
    (ind : Option String) (dep : Nat) (sh : Sh) (v : Val)
    (rest : List (Sh × Val)) (first : Bool) (body : List Char)
    (h : serItems sv ind dep ((sh, v) :: rest) first = .ok body) :
    ∃ rendered tl, sv sh v (dep + 1) = .ok rendered
      ∧ serItems sv ind dep rest false = .ok tl
      ∧ body = (if first then [] else [',']) ++ writeNewline ind
          ++ writeIndent ind (dep + 1) ++ rendered ++ tl := by
  unfold serItems at h
  split at h
  next => exact Except.noConfusion h
  next rendered heq =>
    split at h
    next => exact Except.noConfusion h
    next tl heq2 =>
      exact ⟨rendered, tl, heq, heq2, (Except.ok.injEq .. |>.mp h).symm⟩

theorem serNamedItems_cons (sv : Sh → Val → Nat → Except SerErr (List Char))
    (ind : Option String) (dep : Nat) (name : String) (sh : Sh) (v : Val)
    (rest : List (String × Sh × Val)) (first : Bool) (body : List Char)
    (h : serNamedItems sv ind dep ((name, sh, v) :: rest) first = .ok body) :
    ∃ rendered tl, sv sh v (dep + 1) = .ok rendered
      ∧ serNamedItems sv ind dep rest false = .ok tl
      ∧ body = (if first then [] else [',']) ++ writeNewline ind
          ++ writeIndent ind (dep + 1) ++ writeJsonString name
          ++ writeColon ind ++ rendered ++ tl := by
  unfold serNamedItems at h
  split at h
  next => exact Except.noConfusion h
  next rendered heq =>
    split at h
    next => exact Except.noConfusion h
    next tl heq2 =>
      exact ⟨rendered, tl, heq, heq2, (Except.ok.injEq .. |>.mp h).symm⟩

theorem serArray_cons (sv : Sh → Val → Nat → Except SerErr (List Char))
    (ind : Option String) (dep : Nat) (it : Sh × Val) (its : List (Sh × Val))
    (out : List Char)
    (h : serArray sv ind dep (it :: its) = .ok out) :
    ∃ body, serItems sv ind dep (it :: its) true = .ok body
      ∧ out = '[' :: (body ++ writeNewline ind ++ writeIndent ind dep ++ [']']) := by
  unfold serArray at h
  split at h
  next _ heq => exact List.noConfusion heq
  next =>
    split at h
    next => exact Except.noConfusion h
    next body heq =>
      refine ⟨body, heq, ?_⟩
      have h2 := (Except.ok.injEq .. |>.mp h).symm
      rw [h2]
      simp

theorem serObject_cons (sv : Sh → Val → Nat → Except SerErr (List Char))
    (ind : Option String) (dep : Nat) (it : String × Sh × Val)
    (its : List (String × Sh × Val)) (out : List Char)
    (h : serObject sv ind dep (it :: its) = .ok out) :
    ∃ body, serNamedItems sv ind dep (it :: its) true = .ok body
      ∧ out = Char.ofNat 123
          :: (body ++ writeNewline ind ++ writeIndent ind dep ++ [Char.ofNat 125]) := by
  unfold serObject at h
  split at h
  next _ heq => exact List.noConfusion heq
  next =>
    split at h
    next => exact Except.noConfusion h
    next body heq =>
      refine ⟨body, heq, ?_⟩
      have h2 := (Except.ok.injEq .. |>.mp h).symm
      rw [h2]
      simp


/-! ## C1: the canonical modelled fragment

`canonShB`/`canonVB` delimit the shapes and values over which the
serialize-then-parse round trip is proved (the "amended" form of the claim):
sized integers without the 128-bit builder-mismatch windows, no floats,
borrowable pointers, externally-tagged enums only, plain (escape-free)
strings and key names, distinct field names, string-keyed maps. -/

/-- Pairwise-distinct strings (field names). -/
def strNodup : List String → Bool
  | [] => true
  | x :: xs => !(xs.contains x) && strNodup xs

/-- A string whose rendering needs no escapes. -/
def plainName (s : String) : Bool := s.toList.all plainChar

/-- Values whose rendering does not begin with the token `null`: everything
except `None` (and pointers to it).  The option parser peeks for `null`
(src/deserialize.rs:1986), so a canonical `Some` payload must not render as
`null`. -/
def notNullLike : Val → Bool
  | .vnone => false
  | .vsome w => notNullLike w
  | .vptr w => notNullLike w
  | _ => true

/-- Canonical shapes (fueled by nesting depth). -/
def canonShB : Nat → Sh → Bool
  | 0, _ => false
  | fuel+1, sh =>
    match sh with
    | .sbool => true
    | .sint size _ => decide (size = 1 ∨ size = 2 ∨ size = 4 ∨ size = 8 ∨ size = 16)
    | .sfloat _ => false
    | .sstring => true
    | .strRef => true
    | .soption inner => canonShB fuel inner
    | .sptr hasBorrow inner => hasBorrow && canonShB fuel inner
    | .stransparent inner => canonShB fuel inner
    | .slist e => canonShB fuel e
    | .sset e => canonShB fuel e
    | .sarray e _ => canonShB fuel e
    | .stuple es => es.all (canonShB fuel)
    | .sstruct attrs fields =>
      !(isSpannedShape (.sstruct attrs fields))
        && strNodup (fields.map (fun fld => fld.1))
        && fields.all (fun fld => plainName fld.1 && canonShB fuel fld.2.2)
    | .senum attrs variants =>
      !attrs.untagged && attrs.tag.isNone && attrs.content.isNone
        && variants.all (fun var =>
            plainName var.1
            && (match var.2.1 with
                | .unit => var.2.2.isEmpty
                | .tup => true
                | .strukt =>
                  (match var.2.2 with
                   | [] => true
                   | fld :: _ =>
                     match fld.1.toList with
                     | [] => true
                     | c :: _ => !(isDigit c))
                    && strNodup (var.2.2.map (fun fld => fld.1)))
            && var.2.2.all (fun fld => plainName fld.1 && canonShB fuel fld.2.2))
    | .smap ksh vsh =>
      (match ksh with | .sstring => true | _ => false) && canonShB fuel vsh

/-- Canonical values conforming to a canonical shape. -/
def canonVB : Nat → Sh → Val → Bool
  | 0, _, _ => false
  | fuel+1, sh, v =>
    match sh, v with
    | .sbool, .vbool _ => true
    | .sint size signed, .vint n => canonInt size signed n
    | .sstring, .vstr s => plainName s
    | .strRef, .vstr s => plainName s
    | .soption _, .vnone => true
    | .soption inner, .vsome w => notNullLike w && canonVB fuel inner w
    | .sptr _ inner, .vptr w => canonVB fuel inner w
    | .stransparent inner, w => canonVB fuel inner w
    | .slist e, .vlist vs => vs.all (canonVB fuel e)
    | .sset e, .vlist vs => vs.all (canonVB fuel e)
    | .sarray e n, .vlist vs => decide (vs.length = n) && vs.all (canonVB fuel e)
    | .stuple es, .vtuple vs =>
      decide (es.length = vs.length) && (es.zip vs).all (fun p => canonVB fuel p.1 p.2)
    | .sstruct _ fields, .vstruct vs =>
      decide (fields.length = vs.length)
        && (fields.zip vs).all (fun p => canonVB fuel p.1.2.2 p.2)
    | .senum _ variants, .venum name vs =>
      (match findVariant variants name with
       | none => false
       | some var =>
         decide (var.2.2.length = vs.length)
           && (var.2.2.zip vs).all (fun p => canonVB fuel p.1.2.2 p.2))
    | .smap _ vsh, .vmap entries =>
      entries.all (fun p => plainName p.1 && canonVB fuel vsh p.2)
    | _, _ => false

/-! ### Small render/lex helpers for the round trip -/

theorem mk_toList (s : String) : String.mk s.toList = s := rfl

theorem plainName_chars (s : String) (h : plainName s = true) :
    ∀ c ∈ s.toList, plainChar c = true := by
  simpa [plainName, List.all_eq_true] using h

/-- `next_token` on a rendered plain string after a whitespace prefix. -/
theorem nextToken_render_string (ws : List Char) (hws : allWs ws) (s : String)
    (hp : plainName s = true) (rest : List Char) :
    nextToken (ws ++ (writeJsonString s ++ rest)) = .ok (.str s false, rest) := by
  rw [nextToken_ws ws hws, writeJsonString_plain s (plainName_chars s hp),
    show ('"' :: (s.toList ++ ['"'])) ++ rest = '"' :: (s.toList ++ '"' :: rest) from by simp,
    nextToken_plain_string s.toList rest (plainName_chars s hp), mk_toList]

/-- The whitespace written after the colon in pretty mode. -/
def colonTail (ind : Option String) : List Char := if ind.isSome then [' '] else []

theorem writeColon_eq (ind : Option String) : writeColon ind = ':' :: colonTail ind := by
  unfold writeColon colonTail
  cases ind <;> rfl

theorem allWs_colonTail (ind : Option String) : allWs (colonTail ind) := by
  unfold colonTail
  cases ind <;> intro c hc <;> simp at hc
  rw [hc]
  rfl

theorem sep_comma (rs : List Char) : sep (',' :: rs) := Or.inr ⟨rs, Or.inl rfl⟩

theorem sep_rbracket (rs : List Char) : sep (']' :: rs) :=
  Or.inr ⟨rs, Or.inr (Or.inl rfl)⟩

theorem sep_rbrace (rs : List Char) : sep (Char.ofNat 125 :: rs) :=
  Or.inr ⟨rs, Or.inr (Or.inr (Or.inl rfl))⟩

theorem sep_nil : sep [] := Or.inl rfl

/-- A pretty-printer line break plus indentation preserves separator-ness of
what follows (in compact mode both are empty). -/
theorem sep_close (ind : Option String) (hind : indentOk ind) (dep : Nat)
    (tail : List Char) (h : sep tail) :
    sep (writeNewline ind ++ (writeIndent ind dep ++ tail)) := by
  rcases hind with h0 | h0 <;> subst h0
  · simpa [writeNewline, writeIndent] using h
  · exact Or.inr ⟨writeIndent (some "  ") dep ++ tail, Or.inr (Or.inr (Or.inr rfl))⟩

/-! ### A leading-whitespace prefix does not change any parse result -/

theorem deserializeScalar_ws (f : Nat) (sh : Sh) (ws cs : List Char) (hws : allWs ws) :
    deserializeScalar f sh (ws ++ cs) = deserializeScalar f sh cs := by
  unfold deserializeScalar
  rw [nextToken_ws ws hws]

theorem deserializeStructD_ws (pv : Sh → List Char → PRes Val) (f : Nat)
    (attrs : StructAttrs) (fields : List (String × Bool × Sh)) (ws cs : List Char)
    (hws : allWs ws) :
    deserializeStructD pv f attrs fields (ws ++ cs) = deserializeStructD pv f attrs fields cs := by
  unfold deserializeStructD
  rw [nextToken_ws ws hws]

theorem deserializeEnumD_ws (pv : Sh → List Char → PRes Val) (f : Nat)
    (variants : List (String × VariantKind × List (String × Bool × Sh))) (ws cs : List Char)
    (hws : allWs ws) :
    deserializeEnumD pv f variants (ws ++ cs) = deserializeEnumD pv f variants cs := by
  unfold deserializeEnumD
  rw [nextToken_ws ws hws]

/-! ### Dispatch equations of `deserialize_into` per shape constructor -/

theorem deserializeInto_soption (f : Nat) (inner : Sh) (cs : List Char) :
    deserializeInto (f+1) (.soption inner) cs
      = (match nextToken cs with
        | .error e => .error (.token e)
        | .ok (.tNull, cs') => .ok (.vnone, cs')
        | .ok _ =>
          match deserializeInto f inner cs with
          | .error e => .error e
          | .ok (v, cs') => .ok (.vsome v, cs')) := rfl

theorem deserializeInto_sptr (f : Nat) (hb : Bool) (inner : Sh) (cs : List Char) :
    deserializeInto (f+1) (.sptr hb inner) cs
      = (match deserializeInto f inner cs with
        | .error e => .error e
        | .ok (v, cs') => .ok (.vptr v, cs')) := rfl

theorem deserializeInto_stransparent (f : Nat) (inner : Sh) (cs : List Char) :
    deserializeInto (f+1) (.stransparent inner) cs = deserializeInto f inner cs := rfl

theorem deserializeInto_stuple (f : Nat) (es : List Sh) (cs : List Char) :
    deserializeInto (f+1) (.stuple es) cs
      = (match nextToken cs with
        | .error e => .error (.token e)
        | .ok (.lbracket, cs') =>
          match fixedElems (deserializeInto f) f es true [] cs' with
          | .error e => .error e
          | .ok (vs, cs1) =>
            match nextToken cs1 with
            | .error e => .error (.token e)
            | .ok (.rbracket, cs2) => .ok (.vtuple vs, cs2)
            | .ok (t, _) => .error (.unexpectedToken t.display "']'")
        | .ok (t, _) => .error (.unexpectedToken t.display "'['")) := rfl

theorem deserializeInto_slist (f : Nat) (e : Sh) (cs : List Char) :
    deserializeInto (f+1) (.slist e) cs
      = (match nextToken cs with
        | .error e2 => .error (.token e2)
        | .ok (.lbracket, cs') =>
          match seqElems (deserializeInto f) f e [] cs' with
          | .error e2 => .error e2
          | .ok (vs, cs1) => .ok (.vlist vs, cs1)
        | .ok (t, _) => .error (.unexpectedToken t.display "'['")) := rfl

theorem deserializeInto_sset (f : Nat) (e : Sh) (cs : List Char) :
    deserializeInto (f+1) (.sset e) cs
      = (match nextToken cs with
        | .error e2 => .error (.token e2)
        | .ok (.lbracket, cs') =>
          match seqElems (deserializeInto f) f e [] cs' with
          | .error e2 => .error e2
          | .ok (vs, cs1) => .ok (.vlist vs, cs1)
        | .ok (t, _) => .error (.unexpectedToken t.display "'['")) := rfl

theorem deserializeInto_smap (f : Nat) (ksh vsh : Sh) (cs : List Char) :
    deserializeInto (f+1) (.smap ksh vsh) cs
      = (match nextToken cs with
        | .error e => .error (.token e)
        | .ok (.lbrace, cs') =>
          match mapEntries (deserializeInto f) f ksh vsh [] cs' with
          | .error e => .error e
          | .ok (entries, cs1) => .ok (.vmap entries, cs1)
        | .ok (t, _) => .error (.unexpectedToken t.display "'\x7b'")) := rfl

theorem deserializeInto_sarray (f : Nat) (e : Sh) (n : Nat) (cs : List Char) :
    deserializeInto (f+1) (.sarray e n) cs
      = (match nextToken cs with
        | .error e2 => .error (.token e2)
        | .ok (.lbracket, cs') =>
          match fixedElems (deserializeInto f) f (List.replicate n e) true [] cs' with
          | .error e2 => .error e2
          | .ok (vs, cs1) =>
            match nextToken cs1 with
            | .error e2 => .error (.token e2)
            | .ok (.rbracket, cs2) => .ok (.vlist vs, cs2)
            | .ok (.comma, _) =>
              .error (.invalidValue
                ("Too many elements in array, maximum " ++ toString n ++ " elements"))
            | .ok (t, _) => .error (.unexpectedToken t.display "']'")
        | .ok (t, _) => .error (.unexpectedToken t.display "'['")) := rfl

theorem deserializeInto_sstruct (f : Nat) (attrs : StructAttrs)
    (fields : List (String × Bool × Sh)) (cs : List Char) :
    deserializeInto (f+1) (.sstruct attrs fields) cs
      = (if isSpannedShape (.sstruct attrs fields) = true then
          .error (.invalidValue "Spanned capture is outside the modelled fragment")
        else deserializeStructD (deserializeInto f) f attrs fields cs) := rfl

theorem deserializeInto_senum (f : Nat) (attrs : EnumAttrs)
    (variants : List (String × VariantKind × List (String × Bool × Sh))) (cs : List Char) :
    deserializeInto (f+1) (.senum attrs variants) cs
      = deserializeEnumD (deserializeInto f) f variants cs := rfl

theorem deserializeInto_sbool (f : Nat) (cs : List Char) :
    deserializeInto (f+1) .sbool cs = deserializeScalar f .sbool cs := rfl

theorem deserializeInto_sstring (f : Nat) (cs : List Char) :
    deserializeInto (f+1) .sstring cs = deserializeScalar f .sstring cs := rfl

theorem deserializeInto_sint (f : Nat) (size : Nat) (signed : Bool) (cs : List Char) :
    deserializeInto (f+1) (.sint size signed) cs
      = deserializeScalar f (.sint size signed) cs := rfl

/-- A whitespace prefix never changes the result of `deserialize_into`: every
dispatch path begins with `next_token` (or recurses into one that does). -/
theorem deserializeInto_ws : ∀ (f : Nat) (sh : Sh) (ws cs : List Char), allWs ws →
    deserializeInto f sh (ws ++ cs) = deserializeInto f sh cs := by
  intro f
  induction f with
  | zero => intro sh ws cs _; rfl
  | succ f ih =>
    intro sh ws cs hws
    cases sh with
    | sbool => rw [deserializeInto_sbool, deserializeInto_sbool, deserializeScalar_ws _ _ _ _ hws]
    | sint size signed =>
      rw [deserializeInto_sint, deserializeInto_sint, deserializeScalar_ws _ _ _ _ hws]
    | sfloat size =>
      show deserializeScalar f _ _ = deserializeScalar f _ _
      rw [deserializeScalar_ws _ _ _ _ hws]
    | sstring =>
      rw [deserializeInto_sstring, deserializeInto_sstring, deserializeScalar_ws _ _ _ _ hws]
    | strRef => rw [deserializeInto_strRef_eq, deserializeInto_strRef_eq, nextToken_ws ws hws]
    | soption inner =>
      rw [deserializeInto_soption, deserializeInto_soption, nextToken_ws ws hws, ih inner ws cs hws]
    | sptr hb inner => rw [deserializeInto_sptr, deserializeInto_sptr, ih inner ws cs hws]
    | stransparent inner =>
      rw [deserializeInto_stransparent, deserializeInto_stransparent]
      exact ih inner ws cs hws
    | slist e => rw [deserializeInto_slist, deserializeInto_slist, nextToken_ws ws hws]
    | sset e => rw [deserializeInto_sset, deserializeInto_sset, nextToken_ws ws hws]
    | sarray e n => rw [deserializeInto_sarray, deserializeInto_sarray, nextToken_ws ws hws]
    | stuple es => rw [deserializeInto_stuple, deserializeInto_stuple, nextToken_ws ws hws]
    | sstruct attrs fields =>
      rw [deserializeInto_sstruct, deserializeInto_sstruct]
      by_cases hsp : isSpannedShape (.sstruct attrs fields) = true
      · rw [if_pos hsp, if_pos hsp]
      · rw [if_neg hsp, if_neg hsp, deserializeStructD_ws _ _ _ _ _ _ hws]
    | senum attrs variants =>
      rw [deserializeInto_senum, deserializeInto_senum, deserializeEnumD_ws _ _ _ _ _ hws]
    | smap ksh vsh => rw [deserializeInto_smap, deserializeInto_smap, nextToken_ws ws hws]

/-! ### Dispatch equations of `serialize_value` per shape constructor -/

theorem serializeValue_sbool (f : Nat) (v : Val) (ind : Option String) (dep : Nat) :
    serializeValue (f+1) .sbool v ind dep
      = (match v with
        | .vbool b => .ok (if b then ['t', 'r', 'u', 'e'] else ['f', 'a', 'l', 's', 'e'])
        | _ => .error (.panic "value does not match shape")) := rfl

theorem serializeValue_sint (f : Nat) (size : Nat) (signed : Bool) (v : Val)
    (ind : Option String) (dep : Nat) :
    serializeValue (f+1) (.sint size signed) v ind dep
      = (match v with
        | .vint n => .ok (intDec n)
        | _ => .error (.panic "value does not match shape")) := rfl

theorem serializeValue_sstring (f : Nat) (v : Val) (ind : Option String) (dep : Nat) :
    serializeValue (f+1) .sstring v ind dep
      = (match v with
        | .vstr s => .ok (writeJsonString s)
        | _ => .error (.panic "value does not match shape")) := rfl

theorem serializeValue_strRef (f : Nat) (v : Val) (ind : Option String) (dep : Nat) :
    serializeValue (f+1) .strRef v ind dep
      = (match v with
        | .vstr s => .ok (writeJsonString s)
        | _ => .error (.panic "value does not match shape")) := rfl

theorem serializeValue_sfloat (f : Nat) (size : Nat) (v : Val) (ind : Option String) (dep : Nat) :
    serializeValue (f+1) (.sfloat size) v ind dep
      = (match v with
        | .vfloat x => .ok (ryuFormat x).toList
        | _ => .error (.panic "value does not match shape")) := rfl

theorem serializeValue_soption (f : Nat) (inner : Sh) (v : Val) (ind : Option String) (dep : Nat) :
    serializeValue (f+1) (.soption inner) v ind dep
      = (match v with
        | .vnone => .ok ['n', 'u', 'l', 'l']
        | .vsome w => serializeValue f inner w ind dep
        | _ => .error (.panic "value does not match shape")) := rfl

theorem serializeValue_sptr (f : Nat) (hb : Bool) (inner : Sh) (v : Val)
    (ind : Option String) (dep : Nat) :
    serializeValue (f+1) (.sptr hb inner) v ind dep
      = (match v with
        | .vptr w =>
          if hb then serializeValue f inner w ind dep
          else .error (.panic "Smart pointer without borrow support or with opaque pointee cannot be serialized")
        | _ => .error (.panic "value does not match shape")) := rfl

theorem serializeValue_stransparent (f : Nat) (inner : Sh) (v : Val)
    (ind : Option String) (dep : Nat) :
    serializeValue (f+1) (.stransparent inner) v ind dep
      = serializeValue f inner v ind dep := rfl

theorem serializeValue_slist (f : Nat) (e : Sh) (v : Val) (ind : Option String) (dep : Nat) :
    serializeValue (f+1) (.slist e) v ind dep
      = (match v with
        | .vlist vs =>
          serArray (fun sh' v' d => serializeValue f sh' v' ind d) ind dep
            (vs.map (fun x => (e, x)))
        | _ => .error (.panic "value does not match shape")) := rfl

theorem serializeValue_sset (f : Nat) (e : Sh) (v : Val) (ind : Option String) (dep : Nat) :
    serializeValue (f+1) (.sset e) v ind dep
      = (match v with
        | .vlist vs =>
          serArray (fun sh' v' d => serializeValue f sh' v' ind d) ind dep
            (vs.map (fun x => (e, x)))
        | _ => .error (.panic "value does not match shape")) := rfl

theorem serializeValue_sarray (f : Nat) (e : Sh) (n : Nat) (v : Val)
    (ind : Option String) (dep : Nat) :
    serializeValue (f+1) (.sarray e n) v ind dep
      = (match v with
        | .vlist vs =>
          serArray (fun sh' v' d => serializeValue f sh' v' ind d) ind dep
            (vs.map (fun x => (e, x)))
        | _ => .error (.panic "value does not match shape")) := rfl

theorem serializeValue_stuple (f : Nat) (es : List Sh) (v : Val)
    (ind : Option String) (dep : Nat) :
    serializeValue (f+1) (.stuple es) v ind dep
      = (match v with
        | .vtuple vs =>
          serArray (fun sh' v' d => serializeValue f sh' v' ind d) ind dep (es.zip vs)
        | _ => .error (.panic "value does not match shape")) := rfl

theorem serializeValue_sstruct (f : Nat) (attrs : StructAttrs)
    (fields : List (String × Bool × Sh)) (v : Val) (ind : Option String) (dep : Nat) :
    serializeValue (f+1) (.sstruct attrs fields) v ind dep
      = (match v with
        | .vstruct vs =>
          serObject (fun sh' v' d => serializeValue f sh' v' ind d) ind dep
            ((fields.zip vs).map (fun p => (p.1.1, p.1.2.2, p.2)))
        | _ => .error (.panic "value does not match shape")) := rfl

theorem serializeValue_smap (f : Nat) (ksh vsh : Sh) (v : Val)
    (ind : Option String) (dep : Nat) :
    serializeValue (f+1) (.smap ksh vsh) v ind dep
      = (match v with
        | .vmap entries =>
          serObject (fun sh' v' d => serializeValue f sh' v' ind d) ind dep
            (entries.map (fun p => (p.1, vsh, p.2)))
        | _ => .error (.panic "value does not match shape")) := rfl

theorem serializeValue_senum (f : Nat) (attrs : EnumAttrs)
    (variants : List (String × VariantKind × List (String × Bool × Sh))) (v : Val)
    (ind : Option String) (dep : Nat) :
    serializeValue (f+1) (.senum attrs variants) v ind dep
      = (match v with
        | .venum name vs =>
          match findVariant variants name with
          | none => .error (.panic "Failed to get active variant")
          | some var =>
            if attrs.untagged then
              serEnumContent (fun sh' v' d => serializeValue f sh' v' ind d) ind dep
                var.2.1 var.2.2 vs
            else
              match attrs.tag with
              | some tag =>
                match attrs.content with
                | some content =>
                  match
                    (if vs.isEmpty then Except.ok ([] : List Char)
                     else
                       match serEnumContent (fun sh' v' d => serializeValue f sh' v' ind d)
                           ind (dep + 1) var.2.1 var.2.2 vs with
                       | .error e => Except.error e
                       | .ok c =>
                         Except.ok ([','] ++ writeNewline ind ++ writeIndent ind (dep + 1)
                           ++ writeJsonString content ++ writeColon ind ++ c) :
                      Except SerErr (List Char)) with
                  | .error e => .error e
                  | .ok contentPart =>
                    .ok ('\x7b' :: writeNewline ind ++ writeIndent ind (dep + 1)
                      ++ writeJsonString tag ++ writeColon ind ++ writeJsonString name
                      ++ contentPart
                      ++ writeNewline ind ++ writeIndent ind dep ++ ['\x7d'])
                | none =>
                  match serNamedItems (fun sh' v' d => serializeValue f sh' v' ind d) ind dep
                      ((var.2.2.zip vs).map (fun p => (p.1.1, p.1.2.2, p.2))) false with
                  | .error e => .error e
                  | .ok fieldsPart =>
                    .ok ('\x7b' :: writeNewline ind ++ writeIndent ind (dep + 1)
                      ++ writeJsonString tag ++ writeColon ind ++ writeJsonString name
                      ++ fieldsPart
                      ++ writeNewline ind ++ writeIndent ind dep ++ ['\x7d'])
              | none =>
                if vs.isEmpty then .ok (writeJsonString name)
                else
                  match serEnumContent (fun sh' v' d => serializeValue f sh' v' ind d)
                      ind (dep + 1) var.2.1 var.2.2 vs with
                  | .error e => .error e
                  | .ok c =>
                    .ok ('\x7b' :: writeNewline ind ++ writeIndent ind (dep + 1)
                      ++ writeJsonString name ++ writeColon ind ++ c
                      ++ writeNewline ind ++ writeIndent ind dep ++ ['\x7d'])
        | _ => .error (.panic "value does not match shape")) := rfl

/-! ### Slot, field-lookup and list bookkeeping helpers -/

theorem setSlot_prefix (v : Val) :
    ∀ (xs : List (Option Val)) (y : Option Val) (ys : List (Option Val)),
    setSlot (xs ++ y :: ys) xs.length v = xs ++ some v :: ys := by
  intro xs
  induction xs with
  | nil => intro y ys; rfl
  | cons x xs ih =>
    intro y ys
    show x :: setSlot (xs ++ y :: ys) xs.length v = _
    rw [ih y ys]
    rfl

theorem resolveMissing_allSome (fuel : Nat) (b : Bool) :
    ∀ (fields : List (String × Bool × Sh)) (vs : List Val),
    fields.length = vs.length →
    resolveMissing fuel b fields (vs.map some) = .ok vs := by
  intro fields
  induction fields with
  | nil =>
    intro vs hlen
    rw [show vs = [] from List.length_eq_zero.mp hlen.symm]
    rfl
  | cons fld flds ih =>
    intro vs hlen
    match vs, hlen with
    | v :: vs', hlen =>
      rw [show resolveMissing fuel b (fld :: flds) ((v :: vs').map some)
          = (resolveMissing fuel b flds (vs'.map some)).map (fun ws => v :: ws) from rfl,
        ih vs' (by simpa using hlen)]
      rfl

theorem buildVariantFields_allSome :
    ∀ (fields : List (String × Bool × Sh)) (vs : List Val),
    fields.length = vs.length →
    buildVariantFields fields (vs.map some) = .ok vs := by
  intro fields
  induction fields with
  | nil =>
    intro vs hlen
    rw [show vs = [] from List.length_eq_zero.mp hlen.symm]
    rfl
  | cons fld flds ih =>
    intro vs hlen
    match vs, hlen with
    | v :: vs', hlen =>
      rw [show buildVariantFields (fld :: flds) ((v :: vs').map some)
          = (buildVariantFields flds (vs'.map some)).map (fun ws => v :: ws) from rfl,
        ih vs' (by simpa using hlen)]
      rfl

theorem findFieldIdx_prefix (fld : String × Bool × Sh) :
    ∀ (pre : List (String × Bool × Sh)) (post : List (String × Bool × Sh)),
    (∀ q ∈ pre, q.1 ≠ fld.1) →
    findFieldIdx (pre ++ fld :: post) fld.1 = some (pre.length, fld) := by
  intro pre
  induction pre with
  | nil =>
    intro post _
    show (if fld.1 = fld.1 then some (0, fld) else _) = _
    rw [if_pos rfl]
    rfl
  | cons q qs ih =>
    intro post hne
    show (if q.1 = fld.1 then some (0, q)
      else (findFieldIdx (qs ++ fld :: post) fld.1).map (fun p => (p.1 + 1, p.2))) = _
    rw [if_neg (hne q (by simp)), ih post (fun r hr => hne r (by simp [hr]))]
    rfl

theorem strNodup_head_notMem (x : String) (xs : List String)
    (h : strNodup (x :: xs) = true) : ∀ y ∈ xs, x ≠ y := by
  intro y hy hxy
  have h1 : (!(xs.contains x) && strNodup xs) = true := h
  simp only [Bool.and_eq_true, Bool.not_eq_true'] at h1
  subst hxy
  have hc : xs.contains x = true := by
    show xs.elem x = true
    exact List.elem_iff.mpr hy
  rw [h1.1] at hc
  exact Bool.noConfusion hc

theorem strNodup_tail (x : String) (xs : List String)
    (h : strNodup (x :: xs) = true) : strNodup xs = true := by
  have h1 : (!(xs.contains x) && strNodup xs) = true := h
  simp only [Bool.and_eq_true] at h1
  exact h1.2

/-- Inside a duplicate-free name list, every prefix avoids the next name. -/
theorem strNodup_mid : ∀ (pre : List String) (x : String) (post : List String),
    strNodup (pre ++ x :: post) = true → ∀ y ∈ pre, y ≠ x := by
  intro pre
  induction pre with
  | nil => intro x post _ y hy; exact absurd hy (List.not_mem_nil y)
  | cons p ps ih =>
    intro x post h y hy
    rcases List.mem_cons.mp hy with hy | hy
    · subst hy
      exact strNodup_head_notMem y (ps ++ x :: post) h x (by simp)
    · exact ih x post (strNodup_tail _ _ h) y hy

theorem findVariant_eq_name
    (variants : List (String × VariantKind × List (String × Bool × Sh)))
    (name : String) (var : String × VariantKind × List (String × Bool × Sh))
    (h : findVariant variants name = some var) : var.1 = name := by
  have := List.find?_some h
  exact eq_of_beq this

theorem findVariant_mem
    (variants : List (String × VariantKind × List (String × Bool × Sh)))
    (name : String) (var : String × VariantKind × List (String × Bool × Sh))
    (h : findVariant variants name = some var) : var ∈ variants :=
  List.mem_of_find?_eq_some h

/-- Extract a single fuel bound valid for every member of a list from
member-wise existentials, given monotonicity in the bound. -/
theorem exists_uniform_bound {α : Type} (Q : Nat → α → Prop)
    (mono : ∀ F F' p, F ≤ F' → Q F p → Q F' p) :
    ∀ l : List α, (∀ p ∈ l, ∃ F, Q F p) → ∃ F, ∀ p ∈ l, Q F p := by
  intro l
  induction l with
  | nil => intro _; exact ⟨0, fun p hp => absurd hp (List.not_mem_nil p)⟩
  | cons x xs ih =>
    intro h
    obtain ⟨Fx, hx⟩ := h x (by simp)
    obtain ⟨Fs, hs⟩ := ih (fun p hp => h p (by simp [hp]))
    refine ⟨max Fx Fs, fun p hp => ?_⟩
    rcases List.mem_cons.mp hp with hp | hp
    · subst hp; exact mono Fx _ p (Nat.le_max_left _ _) hx
    · exact mono Fs _ p (Nat.le_max_right _ _) (hs p hp)

/-! ### Building serializer loop outputs from their parts -/

theorem serItems_build (sv : Sh → Val → Nat → Except SerErr (List Char))
    (ind : Option String) (dep : Nat) (sh : Sh) (v : Val)
    (rest : List (Sh × Val)) (first : Bool) (rendered tl : List Char)
    (h1 : sv sh v (dep + 1) = .ok rendered)
    (h2 : serItems sv ind dep rest false = .ok tl) :
    serItems sv ind dep ((sh, v) :: rest) first
      = .ok ((if first then [] else [',']) ++ writeNewline ind
          ++ writeIndent ind (dep + 1) ++ rendered ++ tl) := by
  conv_lhs => unfold serItems
  rw [h1, h2]

theorem serNamedItems_build (sv : Sh → Val → Nat → Except SerErr (List Char))
    (ind : Option String) (dep : Nat) (name : String) (sh : Sh) (v : Val)
    (rest : List (String × Sh × Val)) (first : Bool) (rendered tl : List Char)
    (h1 : sv sh v (dep + 1) = .ok rendered)
    (h2 : serNamedItems sv ind dep rest false = .ok tl) :
    serNamedItems sv ind dep ((name, sh, v) :: rest) first
      = .ok ((if first then [] else [',']) ++ writeNewline ind
          ++ writeIndent ind (dep + 1) ++ writeJsonString name
          ++ writeColon ind ++ rendered ++ tl) := by
  conv_lhs => unfold serNamedItems
  rw [h1, h2]

/-- A non-first rendering is a comma followed by the first-position
rendering of the same items. -/
theorem serItems_false_true (sv : Sh → Val → Nat → Except SerErr (List Char))
    (ind : Option String) (dep : Nat) (it : Sh × Val) (its : List (Sh × Val))
    (body : List Char)
    (h : serItems sv ind dep (it :: its) false = .ok body) :
    ∃ bt, body = ',' :: bt ∧ serItems sv ind dep (it :: its) true = .ok bt := by
  obtain ⟨sh, v⟩ := it
  obtain ⟨rendered, tl, h1, h2, h3⟩ := serItems_cons sv ind dep sh v its false body h
  refine ⟨writeNewline ind ++ writeIndent ind (dep + 1) ++ rendered ++ tl, ?_, ?_⟩
  · rw [h3]; simp
  · rw [serItems_build sv ind dep sh v its true rendered tl h1 h2]
    simp

theorem serNamedItems_false_true (sv : Sh → Val → Nat → Except SerErr (List Char))
    (ind : Option String) (dep : Nat) (it : String × Sh × Val)
    (its : List (String × Sh × Val)) (body : List Char)
    (h : serNamedItems sv ind dep (it :: its) false = .ok body) :
    ∃ bt, body = ',' :: bt ∧ serNamedItems sv ind dep (it :: its) true = .ok bt := by
  obtain ⟨name, sh, v⟩ := it
  obtain ⟨rendered, tl, h1, h2, h3⟩ := serNamedItems_cons sv ind dep name sh v its false body h
  refine ⟨writeNewline ind ++ writeIndent ind (dep + 1) ++ writeJsonString name
    ++ writeColon ind ++ rendered ++ tl, ?_, ?_⟩
  · rw [h3]; simp
  · rw [serNamedItems_build sv ind dep name sh v its true rendered tl h1 h2]
    simp


/-! ### Round-trip parse properties -/

/-- The parse half of the round trip for one rendered value: with enough fuel,
the parser consumes exactly the rendered output and returns the value. -/
def PG (F : Nat) (sh : Sh) (v : Val) (out : List Char) : Prop :=
  ∀ pf rest, F ≤ pf → sep rest → deserializeInto pf sh (out ++ rest) = Except.ok (v, rest)

/-- The first token of a rendered value: never the sequence-closing `]`, and
never `null` unless the value is null-like. -/
def FT (v : Val) (out : List Char) : Prop :=
  ∀ rest, sep rest → ∃ tok r, nextToken (out ++ rest) = Except.ok (tok, r)
    ∧ tok ≠ Token.rbracket ∧ (notNullLike v = true → tok ≠ Token.tNull)

theorem PG_mono (F F' : Nat) (sh : Sh) (v : Val) (out : List Char)
    (h : F ≤ F') (hpg : PG F sh v out) : PG F' sh v out :=
  fun pf rest hF hsep => hpg pf rest (Nat.le_trans h hF) hsep

/-- The sequence-element loop (`deserialize_list`/`deserialize_set`) parses
the serializer's rendering of the items and stops at the closing bracket. -/
theorem seqElems_ser_parse (sf : Nat) (ind : Option String) (hind : indentOk ind)
    (F : Nat) (e : Sh) (dep : Nat) :
    ∀ (items : List (Sh × Val)) (body : List Char),
    (∀ p ∈ items, p.1 = e) →
    serItems (fun sh' v' d => serializeValue sf sh' v' ind d) ind dep items true
      = .ok body →
    (∀ p ∈ items, ∀ o, serializeValue sf p.1 p.2 ind (dep + 1) = .ok o →
        PG F p.1 p.2 o ∧ FT p.2 o) →
    ∀ (G pf : Nat) (acc : List Val) (ws rest : List Char),
      items.length + 1 ≤ G → F ≤ pf → allWs ws → sep rest →
      seqElems (deserializeInto pf) G e acc
          (ws ++ (body ++ (writeNewline ind ++ (writeIndent ind dep ++ (']' :: rest)))))
        = .ok (acc.reverse ++ items.map (fun p => p.2), rest) := by
  intro items
  induction items with
  | nil =>
    intro body _ hser _ G pf acc ws rest hG hF hws hsep
    have hbody : body = ([] : List Char) := (Except.ok.injEq .. |>.mp hser.symm)
    subst hbody
    match G, hG with
    | G+1, _ =>
      simp only [List.map_nil, List.append_nil]
      refine seqElems_rbracket (deserializeInto pf) G e acc _ rest ?_
      rw [show ws ++ ([] ++ (writeNewline ind ++ (writeIndent ind dep ++ (']' :: rest))))
          = (ws ++ (writeNewline ind ++ writeIndent ind dep)) ++ (']' :: rest) from by simp,
        nextToken_ws _ (allWs_append _ _ hws (allWs_append _ _ (writeNewline_ws ind hind)
          (writeIndent_ws ind hind dep))), nextToken_rbracket]
  | cons p tl ih =>
    intro body hall hser hel G pf acc ws rest hG hF hws hsep
    obtain ⟨sh, v⟩ := p
    obtain ⟨rendered, tlBody, h1, h2, h3⟩ := serItems_cons _ ind dep sh v tl true body hser
    have he : sh = e := hall (sh, v) (by simp)
    subst he
    obtain ⟨hPG, hFT⟩ := hel (sh, v) (by simp) rendered h1
    have hWs : allWs (ws ++ (writeNewline ind ++ writeIndent ind (dep + 1))) :=
      allWs_append _ _ hws (allWs_append _ _ (writeNewline_ws ind hind)
        (writeIndent_ws ind hind (dep + 1)))
    match G, hG with
    | G+1, hG =>
      cases tl with
      | nil =>
        have htl : tlBody = ([] : List Char) := (Except.ok.injEq .. |>.mp h2.symm)
        subst htl
        have hsep1 : sep ((writeNewline ind ++ writeIndent ind dep) ++ (']' :: rest)) := by
          simpa [List.append_assoc] using sep_close ind hind dep _ (sep_rbracket rest)
        obtain ⟨tok, r, hnt, htok, _⟩ := hFT _ hsep1
        have hin : ws ++ (body ++ (writeNewline ind ++ (writeIndent ind dep ++ (']' :: rest))))
            = (ws ++ (writeNewline ind ++ writeIndent ind (dep + 1)))
              ++ (rendered ++ ((writeNewline ind ++ writeIndent ind dep) ++ (']' :: rest))) := by
          rw [h3]; simp
        rw [hin,
          seqElems_step (deserializeInto pf) G sh acc _ r _ _ tok v
            (by rw [nextToken_ws _ hWs]; exact hnt) htok
            (by rw [deserializeInto_ws pf sh _ _ hWs]; exact hPG pf _ hF hsep1)
            (consumeComma_ws_close _ (allWs_append _ _ (writeNewline_ws ind hind)
              (writeIndent_ws ind hind dep)) ']' rest (Or.inl rfl))]
        match G, hG with
        | G2+1, _ =>
          rw [seqElems_rbracket (deserializeInto pf) G2 sh (v :: acc) _ rest
            (by rw [nextToken_ws _ (allWs_append _ _ (writeNewline_ws ind hind)
              (writeIndent_ws ind hind dep))]; exact nextToken_rbracket rest)]
          simp
      | cons q qs =>
        obtain ⟨bt, hbt, h2t⟩ := serItems_false_true _ ind dep q qs tlBody h2
        have hsep1 : sep (',' :: (bt ++ (writeNewline ind ++ (writeIndent ind dep
            ++ (']' :: rest))))) := sep_comma _
        obtain ⟨tok, r, hnt, htok, _⟩ := hFT _ hsep1
        have hin : ws ++ (body ++ (writeNewline ind ++ (writeIndent ind dep ++ (']' :: rest))))
            = (ws ++ (writeNewline ind ++ writeIndent ind (dep + 1)))
              ++ (rendered ++ (',' :: (bt ++ (writeNewline ind ++ (writeIndent ind dep
                ++ (']' :: rest)))))) := by
          rw [h3, hbt]; simp
        rw [hin,
          seqElems_step (deserializeInto pf) G sh acc _ r _ _ tok v
            (by rw [nextToken_ws _ hWs]; exact hnt) htok
            (by rw [deserializeInto_ws pf sh _ _ hWs]; exact hPG pf _ hF hsep1)
            (consumeComma_comma _)]
        have ihr := ih bt (fun p hp => hall p (by simp [hp])) h2t
          (fun p hp => hel p (by simp [hp])) G pf (v :: acc) [] rest
          (by simpa using Nat.le_of_succ_le_succ hG) hF allWs_nil hsep
        simp only [List.nil_append] at ihr
        rw [ihr]
        simp

/-- The fixed-element loop (`deserialize_tuple`/`deserialize_array`) parses
the serializer's rendering of the items, consuming the mandatory commas. -/
theorem fixedElems_ser_parse (sf : Nat) (ind : Option String) (hind : indentOk ind)
    (F : Nat) (dep : Nat) :
    ∀ (its : List (Sh × Val)) (it : Sh × Val) (first : Bool) (body : List Char),
    serItems (fun sh' v' d => serializeValue sf sh' v' ind d) ind dep (it :: its) first
      = .ok body →
    (∀ p ∈ it :: its, ∀ o, serializeValue sf p.1 p.2 ind (dep + 1) = .ok o →
        PG F p.1 p.2 o) →
    ∀ (G pf : Nat) (acc : List Val) (ws rem : List Char),
      its.length + 2 ≤ G → F ≤ pf → allWs ws → sep rem →
      fixedElems (deserializeInto pf) G ((it :: its).map (fun p => p.1)) first acc
          (ws ++ (body ++ rem))
        = .ok (acc.reverse ++ (it :: its).map (fun p => p.2), rem) := by
  intro its
  induction its with
  | nil =>
    intro it first body hser hel G pf acc ws rem hG hF hws hrem
    obtain ⟨sh, v⟩ := it
    obtain ⟨rendered, tlBody, h1, h2, h3⟩ := serItems_cons _ ind dep sh v [] first body hser
    have htl : tlBody = ([] : List Char) := (Except.ok.injEq .. |>.mp h2.symm)
    subst htl
    have hPG := hel (sh, v) (by simp) rendered h1
    have hWs1 : allWs (ws ++ (writeNewline ind ++ writeIndent ind (dep + 1))) :=
      allWs_append _ _ hws (allWs_append _ _ (writeNewline_ws ind hind)
        (writeIndent_ws ind hind (dep + 1)))
    have hWs2 : allWs (writeNewline ind ++ writeIndent ind (dep + 1)) :=
      allWs_append _ _ (writeNewline_ws ind hind) (writeIndent_ws ind hind (dep + 1))
    match G, hG with
    | G+2, _ =>
      simp only [List.map_cons, List.map_nil]
      cases first
      · have hin : ws ++ (body ++ rem)
            = ws ++ (',' :: ((writeNewline ind ++ writeIndent ind (dep + 1))
              ++ (rendered ++ rem))) := by
          rw [h3]; simp
        rw [hin,
          fixedElems_comma (deserializeInto pf) (G+1) sh [] acc _ _ _ v
            (by rw [nextToken_ws ws hws]; exact nextToken_comma _)
            (by rw [deserializeInto_ws pf sh _ _ hWs2]; exact hPG pf rem hF hrem),
          fixedElems_nil]
        simp
      · have hin : ws ++ (body ++ rem)
            = (ws ++ (writeNewline ind ++ writeIndent ind (dep + 1))) ++ (rendered ++ rem) := by
          rw [h3]; simp
        rw [hin,
          fixedElems_first (deserializeInto pf) (G+1) sh [] acc _ _ v
            (by rw [deserializeInto_ws pf sh _ _ hWs1]; exact hPG pf rem hF hrem),
          fixedElems_nil]
        simp
  | cons q qs ih =>
    intro it first body hser hel G pf acc ws rem hG hF hws hrem
    obtain ⟨sh, v⟩ := it
    obtain ⟨rendered, tlBody, h1, h2, h3⟩ := serItems_cons _ ind dep sh v (q :: qs) first body hser
    obtain ⟨bt, hbt, _⟩ := serItems_false_true _ ind dep q qs tlBody h2
    have hPG := hel (sh, v) (by simp) rendered h1
    have hWs1 : allWs (ws ++ (writeNewline ind ++ writeIndent ind (dep + 1))) :=
      allWs_append _ _ hws (allWs_append _ _ (writeNewline_ws ind hind)
        (writeIndent_ws ind hind (dep + 1)))
    have hWs2 : allWs (writeNewline ind ++ writeIndent ind (dep + 1)) :=
      allWs_append _ _ (writeNewline_ws ind hind) (writeIndent_ws ind hind (dep + 1))
    have hsep1 : sep (tlBody ++ rem) := by
      rw [hbt]; exact sep_comma _
    have ihr := ih q false tlBody h2 (fun p hp => hel p (by simp [hp])) (G - 1) pf
      (v :: acc) [] rem (by simp only [List.length_cons] at hG ⊢; omega) hF allWs_nil hrem
    simp only [List.nil_append] at ihr
    match G, hG with
    | G+2, _ =>
      simp only [List.map_cons]
      cases first
      · have hin : ws ++ (body ++ rem)
            = ws ++ (',' :: ((writeNewline ind ++ writeIndent ind (dep + 1))
              ++ (rendered ++ (tlBody ++ rem)))) := by
          rw [h3]; simp
        rw [hin,
          fixedElems_comma (deserializeInto pf) (G+1) sh _ acc _ _ _ v
            (by rw [nextToken_ws ws hws]; exact nextToken_comma _)
            (by rw [deserializeInto_ws pf sh _ _ hWs2]; exact hPG pf _ hF hsep1)]
        have hG1 : G + 2 - 1 = G + 1 := by omega
        rw [hG1] at ihr
        simp only [List.map_cons] at ihr
        rw [ihr]
        simp
      · have hin : ws ++ (body ++ rem)
            = (ws ++ (writeNewline ind ++ writeIndent ind (dep + 1)))
              ++ (rendered ++ (tlBody ++ rem)) := by
          rw [h3]; simp
        rw [hin,
          fixedElems_first (deserializeInto pf) (G+1) sh _ acc _ _ v
            (by rw [deserializeInto_ws pf sh _ _ hWs1]; exact hPG pf _ hF hsep1)]
        have hG1 : G + 2 - 1 = G + 1 := by omega
        rw [hG1] at ihr
        simp only [List.map_cons] at ihr
        rw [ihr]
        simp

/-- The enum tuple-variant field loop parses the serializer's rendered
elements (optional commas) and leaves the closing bracket unread. -/
theorem enumTupleFields_ser_parse (sf : Nat) (ind : Option String) (hind : indentOk ind)
    (F : Nat) (dep : Nat) :
    ∀ (Ls : List ((String × Bool × Sh) × Val)) (L0 : (String × Bool × Sh) × Val)
      (body : List Char),
    serItems (fun sh' v' d => serializeValue sf sh' v' ind d) ind dep
        ((L0 :: Ls).map (fun p => (p.1.2.2, p.2))) true = .ok body →
    (∀ p ∈ L0 :: Ls, ∀ o, serializeValue sf p.1.2.2 p.2 ind (dep + 1) = .ok o →
        PG F p.1.2.2 p.2 o) →
    ∀ (G pf : Nat) (acc : List Val) (ws rest : List Char),
      Ls.length + 2 ≤ G → F ≤ pf → allWs ws →
      enumTupleFields (deserializeInto pf) G ((L0 :: Ls).map (fun p => p.1)) acc
          (ws ++ (body ++ (writeNewline ind ++ (writeIndent ind dep ++ (']' :: rest)))))
        = .ok (acc.reverse ++ (L0 :: Ls).map (fun p => p.2),
            writeNewline ind ++ (writeIndent ind dep ++ (']' :: rest))) := by
  intro Ls
  induction Ls with
  | nil =>
    intro L0 body hser hel G pf acc ws rest hG hF hws
    simp only [List.map_cons, List.map_nil] at hser ⊢
    obtain ⟨rendered, tlBody, h1, h2, h3⟩ :=
      serItems_cons _ ind dep L0.1.2.2 L0.2 [] true body hser
    have htl : tlBody = ([] : List Char) := (Except.ok.injEq .. |>.mp h2.symm)
    subst htl
    have hPG := hel L0 (by simp) rendered h1
    have hWs1 : allWs (ws ++ (writeNewline ind ++ writeIndent ind (dep + 1))) :=
      allWs_append _ _ hws (allWs_append _ _ (writeNewline_ws ind hind)
        (writeIndent_ws ind hind (dep + 1)))
    have hsep1 : sep (writeNewline ind ++ (writeIndent ind dep ++ (']' :: rest))) :=
      sep_close ind hind dep _ (sep_rbracket rest)
    match G, hG with
    | G+2, _ =>
      have hin : ws ++ (body ++ (writeNewline ind ++ (writeIndent ind dep ++ (']' :: rest))))
          = (ws ++ (writeNewline ind ++ writeIndent ind (dep + 1)))
            ++ (rendered ++ (writeNewline ind ++ (writeIndent ind dep ++ (']' :: rest)))) := by
        rw [h3]; simp
      rw [hin,
        enumTupleFields_step (deserializeInto pf) (G+1) L0.1 [] acc _ _ _ L0.2
          (by rw [deserializeInto_ws pf _ _ _ hWs1]; exact hPG pf _ hF hsep1)
          (by rw [show writeNewline ind ++ (writeIndent ind dep ++ (']' :: rest))
              = (writeNewline ind ++ writeIndent ind dep) ++ (']' :: rest) from by simp]
              exact consumeComma_ws_close _ (allWs_append _ _ (writeNewline_ws ind hind)
                (writeIndent_ws ind hind dep)) ']' rest (Or.inl rfl)),
        enumTupleFields_nil]
      simp
  | cons q qs ih =>
    intro L0 body hser hel G pf acc ws rest hG hF hws
    simp only [List.map_cons] at hser ⊢
    obtain ⟨rendered, tlBody, h1, h2, h3⟩ :=
      serItems_cons _ ind dep L0.1.2.2 L0.2 _ true body hser
    obtain ⟨bt, hbt, h2t⟩ := serItems_false_true _ ind dep _ _ tlBody h2
    have hPG := hel L0 (by simp) rendered h1
    have hWs1 : allWs (ws ++ (writeNewline ind ++ writeIndent ind (dep + 1))) :=
      allWs_append _ _ hws (allWs_append _ _ (writeNewline_ws ind hind)
        (writeIndent_ws ind hind (dep + 1)))
    have hsep1 : sep (tlBody ++ (writeNewline ind ++ (writeIndent ind dep ++ (']' :: rest)))) := by
      rw [hbt]; exact sep_comma _
    match G, hG with
    | G+2, hG2 =>
      have hin : ws ++ (body ++ (writeNewline ind ++ (writeIndent ind dep ++ (']' :: rest))))
          = (ws ++ (writeNewline ind ++ writeIndent ind (dep + 1)))
            ++ (rendered ++ (tlBody ++ (writeNewline ind
              ++ (writeIndent ind dep ++ (']' :: rest))))) := by
        rw [h3]; simp
      have hcc : consumeOptionalComma
          (tlBody ++ (writeNewline ind ++ (writeIndent ind dep ++ (']' :: rest))))
          = .ok (bt ++ (writeNewline ind ++ (writeIndent ind dep ++ (']' :: rest)))) := by
        rw [hbt]
        exact consumeComma_comma _
      have ihr := ih q bt (by simpa only [List.map_cons] using h2t)
        (fun p hp => hel p (by simp [hp])) (G+1) pf (L0.2 :: acc) [] rest
        (by simp only [List.length_cons] at hG2 ⊢; omega) hF allWs_nil
      simp only [List.nil_append, List.map_cons] at ihr
      rw [hin,
        enumTupleFields_step (deserializeInto pf) (G+1) L0.1 _ acc _ _ _ L0.2
          (by rw [deserializeInto_ws pf _ _ _ hWs1]; exact hPG pf _ hF hsep1) hcc,
        ihr]
      simp

/-- The struct-field loop parses the serializer's rendering of the remaining
fields in declared order, filling the slots left to right, and consumes the
closing brace. -/
theorem structFieldsLoop_ser_parse (sf : Nat) (ind : Option String) (hind : indentOk ind)
    (F : Nat) (attrs : StructAttrs) (dep : Nat) :
    ∀ (todo done : List ((String × Bool × Sh) × Val)) (body : List Char),
    strNodup ((done ++ todo).map (fun p => p.1.1)) = true →
    serNamedItems (fun sh' v' d => serializeValue sf sh' v' ind d) ind dep
        (todo.map (fun p => (p.1.1, p.1.2.2, p.2))) true = .ok body →
    (∀ p ∈ todo, ∀ o, serializeValue sf p.1.2.2 p.2 ind (dep + 1) = .ok o →
        PG F p.1.2.2 p.2 o) →
    (∀ p ∈ todo, plainName p.1.1 = true) →
    ∀ (G pf : Nat) (ws rest : List Char), todo.length + 1 ≤ G → F ≤ pf → allWs ws →
      structFieldsLoop (deserializeInto pf) G attrs ((done ++ todo).map (fun p => p.1))
          (done.map (fun p => some p.2) ++ List.replicate todo.length none)
          (ws ++ (body ++ (writeNewline ind ++ (writeIndent ind dep
            ++ (Char.ofNat 125 :: rest)))))
        = .ok ((done ++ todo).map (fun p => some p.2), rest) := by
  intro todo
  induction todo with
  | nil =>
    intro done body _ hser _ _ G pf ws rest hG hF hws
    have hbody : body = ([] : List Char) := (Except.ok.injEq .. |>.mp hser.symm)
    subst hbody
    match G, hG with
    | G+1, _ =>
      rw [show ws ++ ([] ++ (writeNewline ind ++ (writeIndent ind dep
            ++ (Char.ofNat 125 :: rest))))
          = (ws ++ (writeNewline ind ++ writeIndent ind dep)) ++ (Char.ofNat 125 :: rest)
          from by simp,
        structFieldsLoop_rbrace (deserializeInto pf) G attrs _ _ _ rest
          (by rw [nextToken_ws _ (allWs_append _ _ hws (allWs_append _ _
              (writeNewline_ws ind hind) (writeIndent_ws ind hind dep)))]
              exact nextToken_rbrace rest)]
      simp
  | cons p todos ih =>
    intro done body hnd hser hel hpl G pf ws rest hG hF hws
    obtain ⟨fld, v⟩ := p
    simp only [List.map_cons] at hser
    obtain ⟨rendered, tlBody, h1, h2, h3⟩ :=
      serNamedItems_cons _ ind dep fld.1 fld.2.2 v _ true body hser
    have hPG := hel (fld, v) (by simp) rendered h1
    have hWs1 : allWs (ws ++ (writeNewline ind ++ writeIndent ind (dep + 1))) :=
      allWs_append _ _ hws (allWs_append _ _ (writeNewline_ws ind hind)
        (writeIndent_ws ind hind (dep + 1)))
    obtain ⟨bt, hsep1, hcc, h2t⟩ :
        ∃ bt, sep (tlBody ++ (writeNewline ind ++ (writeIndent ind dep
            ++ (Char.ofNat 125 :: rest))))
          ∧ consumeOptionalComma (tlBody ++ (writeNewline ind ++ (writeIndent ind dep
              ++ (Char.ofNat 125 :: rest))))
            = .ok (bt ++ (writeNewline ind ++ (writeIndent ind dep
              ++ (Char.ofNat 125 :: rest))))
          ∧ serNamedItems (fun sh' v' d => serializeValue sf sh' v' ind d) ind dep
              (todos.map (fun p => (p.1.1, p.1.2.2, p.2))) true = .ok bt := by
      cases todos with
      | nil =>
        have htl : tlBody = ([] : List Char) := (Except.ok.injEq .. |>.mp h2.symm)
        refine ⟨[], ?_, ?_, rfl⟩
        · rw [htl]
          simpa using sep_close ind hind dep _ (sep_rbrace rest)
        · rw [htl]
          simp only [List.nil_append]
          rw [show writeNewline ind ++ (writeIndent ind dep ++ (Char.ofNat 125 :: rest))
              = (writeNewline ind ++ writeIndent ind dep) ++ (Char.ofNat 125 :: rest)
              from by simp]
          exact consumeComma_ws_close _ (allWs_append _ _ (writeNewline_ws ind hind)
            (writeIndent_ws ind hind dep)) (Char.ofNat 125) rest (Or.inr rfl)
      | cons q qs =>
        simp only [List.map_cons] at h2
        obtain ⟨bt, hbt, h2t⟩ := serNamedItems_false_true _ ind dep _ _ tlBody h2
        refine ⟨bt, ?_, ?_, by simpa only [List.map_cons] using h2t⟩
        · rw [hbt]
          exact sep_comma _
        · rw [hbt]
          simp only [List.cons_append]
          exact consumeComma_comma _
    have hin : ws ++ (body ++ (writeNewline ind ++ (writeIndent ind dep
          ++ (Char.ofNat 125 :: rest))))
        = (ws ++ (writeNewline ind ++ writeIndent ind (dep + 1)))
          ++ (writeJsonString fld.1 ++ (':' :: (colonTail ind ++ (rendered
            ++ (tlBody ++ (writeNewline ind ++ (writeIndent ind dep
              ++ (Char.ofNat 125 :: rest)))))))) := by
      rw [h3, writeColon_eq]; simp
    have hnames : (done ++ (fld, v) :: todos).map (fun p => p.1.1)
        = done.map (fun p => p.1.1) ++ fld.1 :: todos.map (fun p => p.1.1) := by simp
    have hne : ∀ q ∈ done.map (fun p => p.1), q.1 ≠ fld.1 := by
      intro q hq
      obtain ⟨pp, hpp, hqe⟩ := List.mem_map.mp hq
      have hx := strNodup_mid (done.map (fun p => p.1.1)) fld.1
        (todos.map (fun p => p.1.1)) (by rw [← hnames]; exact hnd) pp.1.1
        (List.mem_map.mpr ⟨pp, hpp, rfl⟩)
      rw [← hqe]
      exact hx
    have hfind : findFieldIdx ((done ++ (fld, v) :: todos).map (fun p => p.1)) fld.1
        = some (done.length, fld) := by
      rw [show (done ++ (fld, v) :: todos).map (fun p => p.1)
          = done.map (fun p => p.1) ++ fld :: todos.map (fun p => p.1) from by simp,
        findFieldIdx_prefix fld (done.map (fun p => p.1)) (todos.map (fun p => p.1)) hne]
      simp
    have hset : setSlot (done.map (fun p => some p.2)
          ++ (none :: List.replicate todos.length none)) done.length v
        = done.map (fun p => some p.2) ++ (some v :: List.replicate todos.length none) := by
      have hx := setSlot_prefix v (done.map (fun p => some p.2)) none
        (List.replicate todos.length none)
      simpa using hx
    have hpv : deserializeInto pf fld.2.2 (colonTail ind ++ (rendered
          ++ (tlBody ++ (writeNewline ind ++ (writeIndent ind dep
            ++ (Char.ofNat 125 :: rest))))))
        = .ok (v, tlBody ++ (writeNewline ind ++ (writeIndent ind dep
            ++ (Char.ofNat 125 :: rest)))) := by
      rw [deserializeInto_ws pf _ _ _ (allWs_colonTail ind)]
      exact hPG pf _ hF hsep1
    match G, hG with
    | G+1, hG2 =>
      have ihr := ih (done ++ [(fld, v)]) bt
        (by rw [show (done ++ [(fld, v)]) ++ todos = done ++ (fld, v) :: todos from by simp]
            exact hnd)
        h2t (fun p hp => hel p (by simp [hp])) (fun p hp => hpl p (by simp [hp]))
        G pf [] rest (by simp only [List.length_cons] at hG2 ⊢; omega) hF allWs_nil
      simp only [List.nil_append, List.map_append, List.map_cons, List.map_nil,
        List.append_assoc, List.cons_append] at ihr
      rw [show done.map (fun p => some p.2) ++ List.replicate ((fld, v) :: todos).length none
          = done.map (fun p => some p.2) ++ (none :: List.replicate todos.length none)
          from by simp [List.replicate_succ],
        hin,
        structFieldsLoop_step (deserializeInto pf) G attrs _ _ _ _ _ _ _ fld.1 false
          done.length fld v
          (nextToken_render_string _ hWs1 fld.1 (hpl (fld, v) (by simp)) _)
          (nextToken_colon _) hfind hpv hcc,
        hset]
      simp only [List.map_append, List.map_cons] at ihr ⊢
      rw [ihr]

/-- The variant-struct field loop parses the rendered fields like the struct
loop (unknown keys never arise from the serializer's output). -/
theorem variantStructFieldsLoop_ser_parse (sf : Nat) (ind : Option String)
    (hind : indentOk ind) (F : Nat) (dep : Nat) :
    ∀ (todo done : List ((String × Bool × Sh) × Val)) (body : List Char),
    strNodup ((done ++ todo).map (fun p => p.1.1)) = true →
    serNamedItems (fun sh' v' d => serializeValue sf sh' v' ind d) ind dep
        (todo.map (fun p => (p.1.1, p.1.2.2, p.2))) true = .ok body →
    (∀ p ∈ todo, ∀ o, serializeValue sf p.1.2.2 p.2 ind (dep + 1) = .ok o →
        PG F p.1.2.2 p.2 o) →
    (∀ p ∈ todo, plainName p.1.1 = true) →
    ∀ (G pf : Nat) (ws rest : List Char), todo.length + 1 ≤ G → F ≤ pf → allWs ws →
      variantStructFieldsLoop (deserializeInto pf) G ((done ++ todo).map (fun p => p.1))
          (done.map (fun p => some p.2) ++ List.replicate todo.length none)
          (ws ++ (body ++ (writeNewline ind ++ (writeIndent ind dep
            ++ (Char.ofNat 125 :: rest)))))
        = .ok ((done ++ todo).map (fun p => some p.2), rest) := by
  intro todo
  induction todo with
  | nil =>
    intro done body _ hser _ _ G pf ws rest hG hF hws
    have hbody : body = ([] : List Char) := (Except.ok.injEq .. |>.mp hser.symm)
    subst hbody
    match G, hG with
    | G+1, _ =>
      rw [show ws ++ ([] ++ (writeNewline ind ++ (writeIndent ind dep
            ++ (Char.ofNat 125 :: rest))))
          = (ws ++ (writeNewline ind ++ writeIndent ind dep)) ++ (Char.ofNat 125 :: rest)
          from by simp,
        variantStructFieldsLoop_rbrace (deserializeInto pf) G _ _ _ rest
          (by rw [nextToken_ws _ (allWs_append _ _ hws (allWs_append _ _
              (writeNewline_ws ind hind) (writeIndent_ws ind hind dep)))]
              exact nextToken_rbrace rest)]
      simp
  | cons p todos ih =>
    intro done body hnd hser hel hpl G pf ws rest hG hF hws
    obtain ⟨fld, v⟩ := p
    simp only [List.map_cons] at hser
    obtain ⟨rendered, tlBody, h1, h2, h3⟩ :=
      serNamedItems_cons _ ind dep fld.1 fld.2.2 v _ true body hser
    have hPG := hel (fld, v) (by simp) rendered h1
    have hWs1 : allWs (ws ++ (writeNewline ind ++ writeIndent ind (dep + 1))) :=
      allWs_append _ _ hws (allWs_append _ _ (writeNewline_ws ind hind)
        (writeIndent_ws ind hind (dep + 1)))
    obtain ⟨bt, hsep1, hcc, h2t⟩ :
        ∃ bt, sep (tlBody ++ (writeNewline ind ++ (writeIndent ind dep
            ++ (Char.ofNat 125 :: rest))))
          ∧ consumeOptionalComma (tlBody ++ (writeNewline ind ++ (writeIndent ind dep
              ++ (Char.ofNat 125 :: rest))))
            = .ok (bt ++ (writeNewline ind ++ (writeIndent ind dep
              ++ (Char.ofNat 125 :: rest))))
          ∧ serNamedItems (fun sh' v' d => serializeValue sf sh' v' ind d) ind dep
              (todos.map (fun p => (p.1.1, p.1.2.2, p.2))) true = .ok bt := by
      cases todos with
      | nil =>
        have htl : tlBody = ([] : List Char) := (Except.ok.injEq .. |>.mp h2.symm)
        refine ⟨[], ?_, ?_, rfl⟩
        · rw [htl]
          simpa using sep_close ind hind dep _ (sep_rbrace rest)
        · rw [htl]
          simp only [List.nil_append]
          rw [show writeNewline ind ++ (writeIndent ind dep ++ (Char.ofNat 125 :: rest))
              = (writeNewline ind ++ writeIndent ind dep) ++ (Char.ofNat 125 :: rest)
              from by simp]
          exact consumeComma_ws_close _ (allWs_append _ _ (writeNewline_ws ind hind)
            (writeIndent_ws ind hind dep)) (Char.ofNat 125) rest (Or.inr rfl)
      | cons q qs =>
        simp only [List.map_cons] at h2
        obtain ⟨bt, hbt, h2t⟩ := serNamedItems_false_true _ ind dep _ _ tlBody h2
        refine ⟨bt, ?_, ?_, by simpa only [List.map_cons] using h2t⟩
        · rw [hbt]
          exact sep_comma _
        · rw [hbt]
          simp only [List.cons_append]
          exact consumeComma_comma _
    have hin : ws ++ (body ++ (writeNewline ind ++ (writeIndent ind dep
          ++ (Char.ofNat 125 :: rest))))
        = (ws ++ (writeNewline ind ++ writeIndent ind (dep + 1)))
          ++ (writeJsonString fld.1 ++ (':' :: (colonTail ind ++ (rendered
            ++ (tlBody ++ (writeNewline ind ++ (writeIndent ind dep
              ++ (Char.ofNat 125 :: rest)))))))) := by
      rw [h3, writeColon_eq]; simp
    have hnames : (done ++ (fld, v) :: todos).map (fun p => p.1.1)
        = done.map (fun p => p.1.1) ++ fld.1 :: todos.map (fun p => p.1.1) := by simp
    have hne : ∀ q ∈ done.map (fun p => p.1), q.1 ≠ fld.1 := by
      intro q hq
      obtain ⟨pp, hpp, hqe⟩ := List.mem_map.mp hq
      have hx := strNodup_mid (done.map (fun p => p.1.1)) fld.1
        (todos.map (fun p => p.1.1)) (by rw [← hnames]; exact hnd) pp.1.1
        (List.mem_map.mpr ⟨pp, hpp, rfl⟩)
      rw [← hqe]
      exact hx
    have hfind : findFieldIdx ((done ++ (fld, v) :: todos).map (fun p => p.1)) fld.1
        = some (done.length, fld) := by
      rw [show (done ++ (fld, v) :: todos).map (fun p => p.1)
          = done.map (fun p => p.1) ++ fld :: todos.map (fun p => p.1) from by simp,
        findFieldIdx_prefix fld (done.map (fun p => p.1)) (todos.map (fun p => p.1)) hne]
      simp
    have hset : setSlot (done.map (fun p => some p.2)
          ++ (none :: List.replicate todos.length none)) done.length v
        = done.map (fun p => some p.2) ++ (some v :: List.replicate todos.length none) := by
      have hx := setSlot_prefix v (done.map (fun p => some p.2)) none
        (List.replicate todos.length none)
      simpa using hx
    have hpv : deserializeInto pf fld.2.2 (colonTail ind ++ (rendered
          ++ (tlBody ++ (writeNewline ind ++ (writeIndent ind dep
            ++ (Char.ofNat 125 :: rest))))))
        = .ok (v, tlBody ++ (writeNewline ind ++ (writeIndent ind dep
            ++ (Char.ofNat 125 :: rest)))) := by
      rw [deserializeInto_ws pf _ _ _ (allWs_colonTail ind)]
      exact hPG pf _ hF hsep1
    match G, hG with
    | G+1, hG2 =>
      have ihr := ih (done ++ [(fld, v)]) bt
        (by rw [show (done ++ [(fld, v)]) ++ todos = done ++ (fld, v) :: todos from by simp]
            exact hnd)
        h2t (fun p hp => hel p (by simp [hp])) (fun p hp => hpl p (by simp [hp]))
        G pf [] rest (by simp only [List.length_cons] at hG2 ⊢; omega) hF allWs_nil
      simp only [List.nil_append, List.map_append, List.map_cons, List.map_nil,
        List.append_assoc, List.cons_append] at ihr
      rw [show done.map (fun p => some p.2) ++ List.replicate ((fld, v) :: todos).length none
          = done.map (fun p => some p.2) ++ (none :: List.replicate todos.length none)
          from by simp [List.replicate_succ],
        hin,
        variantStructFieldsLoop_step (deserializeInto pf) G _ _ _ _ _ _ _ fld.1 false
          done.length fld v
          (nextToken_render_string _ hWs1 fld.1 (hpl (fld, v) (by simp)) _)
          (nextToken_colon _) hfind hpv hcc,
        hset]
      simp only [List.map_append, List.map_cons] at ihr ⊢
      rw [ihr]

/-- The map-entry loop parses the serializer's rendering of the entries,
re-validating each string key against the string key shape. -/
theorem mapEntries_ser_parse (sf : Nat) (ind : Option String) (hind : indentOk ind)
    (F : Nat) (vsh : Sh) (dep : Nat) :
    ∀ (todo : List (String × Val)) (body : List Char),
    serNamedItems (fun sh' v' d => serializeValue sf sh' v' ind d) ind dep
        (todo.map (fun p => (p.1, vsh, p.2))) true = .ok body →
    (∀ p ∈ todo, ∀ o, serializeValue sf vsh p.2 ind (dep + 1) = .ok o →
        PG F vsh p.2 o) →
    (∀ p ∈ todo, plainName p.1 = true) →
    ∀ (G pf : Nat) (acc : List (String × Val)) (ws rest : List Char),
      todo.length + 1 ≤ G → F ≤ pf → allWs ws →
      mapEntries (deserializeInto pf) G .sstring vsh acc
          (ws ++ (body ++ (writeNewline ind ++ (writeIndent ind dep
            ++ (Char.ofNat 125 :: rest)))))
        = .ok (acc.reverse ++ todo, rest) := by
  intro todo
  induction todo with
  | nil =>
    intro body hser _ _ G pf acc ws rest hG hF hws
    have hbody : body = ([] : List Char) := (Except.ok.injEq .. |>.mp hser.symm)
    subst hbody
    match G, hG with
    | G+1, _ =>
      rw [show ws ++ ([] ++ (writeNewline ind ++ (writeIndent ind dep
            ++ (Char.ofNat 125 :: rest))))
          = (ws ++ (writeNewline ind ++ writeIndent ind dep)) ++ (Char.ofNat 125 :: rest)
          from by simp,
        mapEntries_rbrace (deserializeInto pf) G _ _ _ _ rest
          (by rw [nextToken_ws _ (allWs_append _ _ hws (allWs_append _ _
              (writeNewline_ws ind hind) (writeIndent_ws ind hind dep)))]
              exact nextToken_rbrace rest)]
      simp
  | cons p todos ih =>
    intro body hser hel hpl G pf acc ws rest hG hF hws
    obtain ⟨key, v⟩ := p
    simp only [List.map_cons] at hser
    obtain ⟨rendered, tlBody, h1, h2, h3⟩ :=
      serNamedItems_cons _ ind dep key vsh v _ true body hser
    have hPG := hel (key, v) (by simp) rendered h1
    have hWs1 : allWs (ws ++ (writeNewline ind ++ writeIndent ind (dep + 1))) :=
      allWs_append _ _ hws (allWs_append _ _ (writeNewline_ws ind hind)
        (writeIndent_ws ind hind (dep + 1)))
    obtain ⟨bt, hsep1, hcc, h2t⟩ :
        ∃ bt, sep (tlBody ++ (writeNewline ind ++ (writeIndent ind dep
            ++ (Char.ofNat 125 :: rest))))
          ∧ consumeOptionalComma (tlBody ++ (writeNewline ind ++ (writeIndent ind dep
              ++ (Char.ofNat 125 :: rest))))
            = .ok (bt ++ (writeNewline ind ++ (writeIndent ind dep
              ++ (Char.ofNat 125 :: rest))))
          ∧ serNamedItems (fun sh' v' d => serializeValue sf sh' v' ind d) ind dep
              (todos.map (fun p => (p.1, vsh, p.2))) true = .ok bt := by
      cases todos with
      | nil =>
        have htl : tlBody = ([] : List Char) := (Except.ok.injEq .. |>.mp h2.symm)
        refine ⟨[], ?_, ?_, rfl⟩
        · rw [htl]
          simpa using sep_close ind hind dep _ (sep_rbrace rest)
        · rw [htl]
          simp only [List.nil_append]
          rw [show writeNewline ind ++ (writeIndent ind dep ++ (Char.ofNat 125 :: rest))
              = (writeNewline ind ++ writeIndent ind dep) ++ (Char.ofNat 125 :: rest)
              from by simp]
          exact consumeComma_ws_close _ (allWs_append _ _ (writeNewline_ws ind hind)
            (writeIndent_ws ind hind dep)) (Char.ofNat 125) rest (Or.inr rfl)
      | cons q qs =>
        simp only [List.map_cons] at h2
        obtain ⟨bt, hbt, h2t⟩ := serNamedItems_false_true _ ind dep _ _ tlBody h2
        refine ⟨bt, ?_, ?_, by simpa only [List.map_cons] using h2t⟩
        · rw [hbt]
          exact sep_comma _
        · rw [hbt]
          simp only [List.cons_append]
          exact consumeComma_comma _
    have hin : ws ++ (body ++ (writeNewline ind ++ (writeIndent ind dep
          ++ (Char.ofNat 125 :: rest))))
        = (ws ++ (writeNewline ind ++ writeIndent ind (dep + 1)))
          ++ (writeJsonString key ++ (':' :: (colonTail ind ++ (rendered
            ++ (tlBody ++ (writeNewline ind ++ (writeIndent ind dep
              ++ (Char.ofNat 125 :: rest)))))))) := by
      rw [h3, writeColon_eq]; simp
    have hpv : deserializeInto pf vsh (colonTail ind ++ (rendered
          ++ (tlBody ++ (writeNewline ind ++ (writeIndent ind dep
            ++ (Char.ofNat 125 :: rest))))))
        = .ok (v, tlBody ++ (writeNewline ind ++ (writeIndent ind dep
            ++ (Char.ofNat 125 :: rest)))) := by
      rw [deserializeInto_ws pf _ _ _ (allWs_colonTail ind)]
      exact hPG pf _ hF hsep1
    match G, hG with
    | G+1, hG2 =>
      have ihr := ih bt h2t (fun p hp => hel p (by simp [hp]))
        (fun p hp => hpl p (by simp [hp])) G pf ((key, v) :: acc) [] rest
        (by simp only [List.length_cons] at hG2 ⊢; omega) hF allWs_nil
      simp only [List.nil_append] at ihr
      rw [hin,
        mapEntries_step (deserializeInto pf) G vsh acc _ _ _ _ _ key false v
          (nextToken_render_string _ hWs1 key (hpl (key, v) (by simp)) _)
          (nextToken_colon _) hpv hcc,
        ihr]
      simp


/-! ### The round-trip induction, case by case -/

/-- Parse-back goal for one rendered value. -/
def PGFT (sh : Sh) (v : Val) (out : List Char) : Prop :=
  (∃ F, PG F sh v out) ∧ FT v out

/-- Induction hypothesis of the round-trip proof: every canonical value
serialized at the smaller fuel parses back. -/
def IHP (sf : Nat) (ind : Option String) : Prop :=
  ∀ sh v dep out cf, serializeValue sf sh v ind dep = Except.ok out →
    canonShB cf sh = true → canonVB cf sh v = true → PGFT sh v out

/-- Uniform per-item parse bound for a rendered item list, out of the
induction hypothesis. -/
theorem items_bound (sf : Nat) (ind : Option String) (hih : IHP sf ind)
    (cf : Nat) (dep : Nat) (items : List (Sh × Val))
    (hc : ∀ p ∈ items, canonShB cf p.1 = true ∧ canonVB cf p.1 p.2 = true) :
    ∃ F, ∀ p ∈ items, ∀ o, serializeValue sf p.1 p.2 ind (dep + 1) = Except.ok o →
      PG F p.1 p.2 o ∧ FT p.2 o := by
  refine exists_uniform_bound
    (fun F p => ∀ o, serializeValue sf p.1 p.2 ind (dep + 1) = Except.ok o →
      PG F p.1 p.2 o ∧ FT p.2 o) ?_ items ?_
  · intro F F' p hFF hq o ho
    exact ⟨PG_mono F F' _ _ _ hFF (hq o ho).1, (hq o ho).2⟩
  intro p hp
  cases hser : serializeValue sf p.1 p.2 ind (dep + 1) with
  | error e => exact ⟨0, fun o ho => absurd (ho ▸ hser) (fun hx => Except.noConfusion hx)⟩
  | ok o0 =>
    obtain ⟨⟨Fp, hPGp⟩, hFTp⟩ :=
      hih p.1 p.2 (dep + 1) o0 cf hser (hc p hp).1 (hc p hp).2
    refine ⟨Fp, fun o ho => ?_⟩
    have : o0 = o := Except.ok.inj (hser.symm.trans ho)
    subst this
    exact ⟨hPGp, hFTp⟩

/-- Booleans round-trip. -/
theorem rt_sbool (sf : Nat) (ind : Option String) (b : Bool) (dep : Nat) (out : List Char)
    (h : serializeValue (sf+1) .sbool (.vbool b) ind dep = .ok out) :
    PGFT .sbool (.vbool b) out := by
  rw [serializeValue_sbool] at h
  have hout : (if b then ['t', 'r', 'u', 'e'] else ['f', 'a', 'l', 's', 'e']) = out :=
    Except.ok.inj h
  constructor
  · refine ⟨1, fun pf rest hpf hsep => ?_⟩
    match pf, hpf with
    | pf+1, _ =>
      rw [← hout]
      exact parse_bool b pf rest hsep
  · intro rest hsep
    cases b
    · exact ⟨.tFalse, rest, by rw [← hout]; exact nextToken_false rest hsep,
        fun hx => Token.noConfusion hx, fun _ hx => Token.noConfusion hx⟩
    · exact ⟨.tTrue, rest, by rw [← hout]; exact nextToken_true rest hsep,
        fun hx => Token.noConfusion hx, fun _ hx => Token.noConfusion hx⟩

/-- Canonical integers round-trip. -/
theorem rt_sint (sf : Nat) (ind : Option String) (size : Nat) (signed : Bool) (n : Int)
    (dep : Nat) (out : List Char) (cf : Nat)
    (h : serializeValue (sf+1) (.sint size signed) (.vint n) ind dep = .ok out)
    (hsh : canonShB (cf+1) (.sint size signed) = true)
    (hv : canonVB (cf+1) (.sint size signed) (.vint n) = true) :
    PGFT (.sint size signed) (.vint n) out := by
  rw [serializeValue_sint] at h
  have hout : intDec n = out := Except.ok.inj h
  have hsz : size = 1 ∨ size = 2 ∨ size = 4 ∨ size = 8 ∨ size = 16 := by
    have : decide (size = 1 ∨ size = 2 ∨ size = 4 ∨ size = 8 ∨ size = 16) = true := hsh
    exact of_decide_eq_true this
  have hc : canonInt size signed n = true := hv
  constructor
  · refine ⟨1, fun pf rest hpf hsep => ?_⟩
    match pf, hpf with
    | pf+1, _ =>
      rw [← hout]
      exact (parse_int size hsz signed n hc pf rest hsep).1
  · intro rest hsep
    obtain ⟨_, ⟨tok, r, hnt, hnl, hrb⟩⟩ := parse_int size hsz signed n hc 0 rest hsep
    exact ⟨tok, r, by rw [← hout]; exact hnt, hrb, fun _ => hnl⟩

/-- Plain strings round-trip into the owned-string shape. -/
theorem rt_sstring (sf : Nat) (ind : Option String) (s : String)
    (dep : Nat) (out : List Char) (cf : Nat)
    (h : serializeValue (sf+1) .sstring (.vstr s) ind dep = .ok out)
    (hv : canonVB (cf+1) .sstring (.vstr s) = true) :
    PGFT .sstring (.vstr s) out := by
  rw [serializeValue_sstring] at h
  have hout : writeJsonString s = out := Except.ok.inj h
  have hp : plainName s = true := hv
  constructor
  · refine ⟨1, fun pf rest hpf hsep => ?_⟩
    match pf, hpf with
    | pf+1, _ =>
      rw [← hout]
      exact parse_string s (plainName_chars s hp) pf rest
  · intro rest hsep
    refine ⟨.str s false, rest, ?_, fun hx => Token.noConfusion hx,
      fun _ hx => Token.noConfusion hx⟩
    rw [← hout]
    have := nextToken_render_string [] allWs_nil s hp rest
    simpa using this

/-- Plain strings round-trip into the borrowed `&str` shape. -/
theorem rt_strRef (sf : Nat) (ind : Option String) (s : String)
    (dep : Nat) (out : List Char) (cf : Nat)
    (h : serializeValue (sf+1) .strRef (.vstr s) ind dep = .ok out)
    (hv : canonVB (cf+1) .strRef (.vstr s) = true) :
    PGFT .strRef (.vstr s) out := by
  rw [serializeValue_strRef] at h
  have hout : writeJsonString s = out := Except.ok.inj h
  have hp : plainName s = true := hv
  constructor
  · refine ⟨1, fun pf rest hpf hsep => ?_⟩
    match pf, hpf with
    | pf+1, _ =>
      rw [← hout]
      exact parse_strRef s (plainName_chars s hp) pf rest
  · intro rest hsep
    refine ⟨.str s false, rest, ?_, fun hx => Token.noConfusion hx,
      fun _ hx => Token.noConfusion hx⟩
    rw [← hout]
    have := nextToken_render_string [] allWs_nil s hp rest
    simpa using this

/-- `None` round-trips through the `null` literal. -/
theorem rt_vnone (sf : Nat) (ind : Option String) (inner : Sh) (dep : Nat) (out : List Char)
    (h : serializeValue (sf+1) (.soption inner) .vnone ind dep = .ok out) :
    PGFT (.soption inner) .vnone out := by
  rw [serializeValue_soption] at h
  have hout : (['n', 'u', 'l', 'l'] : List Char) = out := Except.ok.inj h
  constructor
  · refine ⟨1, fun pf rest hpf hsep => ?_⟩
    match pf, hpf with
    | pf+1, _ =>
      rw [← hout, deserializeInto_soption, nextToken_null rest hsep]
  · intro rest hsep
    refine ⟨.tNull, rest, by rw [← hout]; exact nextToken_null rest hsep,
      fun hx => Token.noConfusion hx, fun hx => ?_⟩
    exact absurd hx (by rw [show notNullLike .vnone = false from rfl]; exact Bool.noConfusion)

/-- `Some` round-trips by delegating to the (non-null-rendering) payload. -/
theorem rt_vsome (sf : Nat) (ind : Option String) (hih : IHP sf ind) (inner : Sh) (w : Val)
    (dep : Nat) (out : List Char) (cf : Nat)
    (h : serializeValue (sf+1) (.soption inner) (.vsome w) ind dep = .ok out)
    (hsh : canonShB (cf+1) (.soption inner) = true)
    (hv : canonVB (cf+1) (.soption inner) (.vsome w) = true) :
    PGFT (.soption inner) (.vsome w) out := by
  rw [serializeValue_soption] at h
  have hv2 : (notNullLike w && canonVB cf inner w) = true := hv
  simp only [Bool.and_eq_true] at hv2
  obtain ⟨⟨F, hPGi⟩, hFTi⟩ := hih inner w dep out cf h hsh hv2.2
  constructor
  · refine ⟨F+1, fun pf rest hpf hsep => ?_⟩
    match pf, hpf with
    | pf+1, hpf =>
      obtain ⟨tok, r, hnt, _, hnl⟩ := hFTi rest hsep
      rw [deserializeInto_soption, hnt]
      have htok : tok ≠ Token.tNull := hnl hv2.1
      have hinner : deserializeInto pf inner (out ++ rest) = .ok (w, rest) :=
        hPGi pf rest (Nat.le_of_succ_le_succ hpf) hsep
      cases tok <;> first
        | exact absurd rfl htok
        | rw [hinner]
  · intro rest hsep
    obtain ⟨tok, r, hnt, hrb, hnl⟩ := hFTi rest hsep
    exact ⟨tok, r, hnt, hrb, fun hnn => hnl (by
      rw [show notNullLike (.vsome w) = notNullLike w from rfl] at hnn
      exact hnn)⟩

/-- Pointers with borrow support round-trip transparently. -/
theorem rt_sptr (sf : Nat) (ind : Option String) (hih : IHP sf ind) (inner : Sh) (w : Val)
    (dep : Nat) (out : List Char) (cf : Nat)
    (h : serializeValue (sf+1) (.sptr true inner) (.vptr w) ind dep = .ok out)
    (hsh : canonShB (cf+1) (.sptr true inner) = true)
    (hv : canonVB (cf+1) (.sptr true inner) (.vptr w) = true) :
    PGFT (.sptr true inner) (.vptr w) out := by
  have h2 : serializeValue sf inner w ind dep = .ok out := h
  have hsh2 : canonShB cf inner = true := by
    have : (true && canonShB cf inner) = true := hsh
    simpa using this
  obtain ⟨⟨F, hPGi⟩, hFTi⟩ := hih inner w dep out cf h2 hsh2 hv
  constructor
  · refine ⟨F+1, fun pf rest hpf hsep => ?_⟩
    match pf, hpf with
    | pf+1, hpf =>
      rw [deserializeInto_sptr, hPGi pf rest (Nat.le_of_succ_le_succ hpf) hsep]
  · intro rest hsep
    obtain ⟨tok, r, hnt, hrb, hnl⟩ := hFTi rest hsep
    exact ⟨tok, r, hnt, hrb, fun hnn => hnl (by
      rw [show notNullLike (.vptr w) = notNullLike w from rfl] at hnn
      exact hnn)⟩

/-- Transparent wrappers round-trip transparently. -/
theorem rt_stransparent (sf : Nat) (ind : Option String) (hih : IHP sf ind) (inner : Sh)
    (v : Val) (dep : Nat) (out : List Char) (cf : Nat)
    (h : serializeValue (sf+1) (.stransparent inner) v ind dep = .ok out)
    (hsh : canonShB (cf+1) (.stransparent inner) = true)
    (hv : canonVB (cf+1) (.stransparent inner) v = true) :
    PGFT (.stransparent inner) v out := by
  rw [serializeValue_stransparent] at h
  have hsh2 : canonShB cf inner = true := hsh
  have hv2 : canonVB cf inner v = true := hv
  obtain ⟨⟨F, hPGi⟩, hFTi⟩ := hih inner v dep out cf h hsh2 hv2
  refine ⟨⟨F+1, fun pf rest hpf hsep => ?_⟩, hFTi⟩
  match pf, hpf with
  | pf+1, hpf =>
    rw [deserializeInto_stransparent]
    exact hPGi pf rest (Nat.le_of_succ_le_succ hpf) hsep

/-! ### Composition lemmas: assembling dispatcher results from step results -/

theorem deserializeInto_slist_steps (f : Nat) (e : Sh) (cs cs1 : List Char)
    (vs : List Val) (rest : List Char)
    (h1 : nextToken cs = .ok (.lbracket, cs1))
    (h2 : seqElems (deserializeInto f) f e [] cs1 = .ok (vs, rest)) :
    deserializeInto (f+1) (.slist e) cs = .ok (.vlist vs, rest) := by
  rw [deserializeInto_slist, h1]
  show (match seqElems (deserializeInto f) f e [] cs1 with
    | Except.error e2 => (Except.error e2 : PRes Val)
    | Except.ok (vs2, cs2) => Except.ok (Val.vlist vs2, cs2)) = _
  rw [h2]

theorem deserializeInto_sset_steps (f : Nat) (e : Sh) (cs cs1 : List Char)
    (vs : List Val) (rest : List Char)
    (h1 : nextToken cs = .ok (.lbracket, cs1))
    (h2 : seqElems (deserializeInto f) f e [] cs1 = .ok (vs, rest)) :
    deserializeInto (f+1) (.sset e) cs = .ok (.vlist vs, rest) := by
  rw [deserializeInto_sset, h1]
  show (match seqElems (deserializeInto f) f e [] cs1 with
    | Except.error e2 => (Except.error e2 : PRes Val)
    | Except.ok (vs2, cs2) => Except.ok (Val.vlist vs2, cs2)) = _
  rw [h2]

theorem deserializeInto_stuple_steps (f : Nat) (es : List Sh) (cs cs1 cs2 : List Char)
    (vs : List Val) (rest : List Char)
    (h1 : nextToken cs = .ok (.lbracket, cs1))
    (h2 : fixedElems (deserializeInto f) f es true [] cs1 = .ok (vs, cs2))
    (h3 : nextToken cs2 = .ok (.rbracket, rest)) :
    deserializeInto (f+1) (.stuple es) cs = .ok (.vtuple vs, rest) := by
  rw [deserializeInto_stuple, h1]
  show (match fixedElems (deserializeInto f) f es true [] cs1 with
    | Except.error e2 => (Except.error e2 : PRes Val)
    | Except.ok (vs2, cs3) =>
      match nextToken cs3 with
      | Except.error e2 => (Except.error (JsonErrorKind.token e2) : PRes Val)
      | Except.ok (Token.rbracket, cs4) => Except.ok (Val.vtuple vs2, cs4)
      | Except.ok (t, _) =>
        Except.error (JsonErrorKind.unexpectedToken t.display "']'")) = _
  rw [h2]
  show (match nextToken cs2 with
    | Except.error e2 => (Except.error (JsonErrorKind.token e2) : PRes Val)
    | Except.ok (Token.rbracket, cs4) => Except.ok (Val.vtuple vs, cs4)
    | Except.ok (t, _) =>
      Except.error (JsonErrorKind.unexpectedToken t.display "']'")) = _
  rw [h3]

theorem deserializeInto_sarray_steps (f : Nat) (e : Sh) (n : Nat) (cs cs1 cs2 : List Char)
    (vs : List Val) (rest : List Char)
    (h1 : nextToken cs = .ok (.lbracket, cs1))
    (h2 : fixedElems (deserializeInto f) f (List.replicate n e) true [] cs1 = .ok (vs, cs2))
    (h3 : nextToken cs2 = .ok (.rbracket, rest)) :
    deserializeInto (f+1) (.sarray e n) cs = .ok (.vlist vs, rest) := by
  rw [deserializeInto_sarray, h1]
  show (match fixedElems (deserializeInto f) f (List.replicate n e) true [] cs1 with
    | Except.error e2 => (Except.error e2 : PRes Val)
    | Except.ok (vs2, cs3) =>
      match nextToken cs3 with
      | Except.error e2 => (Except.error (JsonErrorKind.token e2) : PRes Val)
      | Except.ok (Token.rbracket, cs4) => Except.ok (Val.vlist vs2, cs4)
      | Except.ok (Token.comma, _) =>
        Except.error (JsonErrorKind.invalidValue
          ("Too many elements in array, maximum " ++ toString n ++ " elements"))
      | Except.ok (t, _) =>
        Except.error (JsonErrorKind.unexpectedToken t.display "']'")) = _
  rw [h2]
  show (match nextToken cs2 with
    | Except.error e2 => (Except.error (JsonErrorKind.token e2) : PRes Val)
    | Except.ok (Token.rbracket, cs4) => Except.ok (Val.vlist vs, cs4)
    | Except.ok (Token.comma, _) =>
      Except.error (JsonErrorKind.invalidValue
        ("Too many elements in array, maximum " ++ toString n ++ " elements"))
    | Except.ok (t, _) =>
      Except.error (JsonErrorKind.unexpectedToken t.display "']'")) = _
  rw [h3]

theorem deserializeInto_smap_steps (f : Nat) (ksh vsh : Sh) (cs cs1 : List Char)
    (entries : List (String × Val)) (rest : List Char)
    (h1 : nextToken cs = .ok (.lbrace, cs1))
    (h2 : mapEntries (deserializeInto f) f ksh vsh [] cs1 = .ok (entries, rest)) :
    deserializeInto (f+1) (.smap ksh vsh) cs = .ok (.vmap entries, rest) := by
  rw [deserializeInto_smap, h1]
  show (match mapEntries (deserializeInto f) f ksh vsh [] cs1 with
    | Except.error e2 => (Except.error e2 : PRes Val)
    | Except.ok (es2, cs2) => Except.ok (Val.vmap es2, cs2)) = _
  rw [h2]

theorem deserializeInto_sstruct_steps (f : Nat) (attrs : StructAttrs)
    (fields : List (String × Bool × Sh)) (cs cs1 cs2 : List Char)
    (slots : List (Option Val)) (vs : List Val)
    (hsp : isSpannedShape (.sstruct attrs fields) = false)
    (h1 : nextToken cs = .ok (.lbrace, cs1))
    (h2 : structFieldsLoop (deserializeInto f) f attrs fields
        (List.replicate fields.length none) cs1 = .ok (slots, cs2))
    (h3 : resolveMissing f attrs.hasDefaultAttr fields slots = .ok vs) :
    deserializeInto (f+1) (.sstruct attrs fields) cs = .ok (.vstruct vs, cs2) := by
  rw [deserializeInto_sstruct, if_neg (by rw [hsp]; exact Bool.noConfusion)]
  unfold deserializeStructD
  rw [h1]
  show (match structFieldsLoop (deserializeInto f) f attrs fields
      (List.replicate fields.length none) cs1 with
    | Except.error e2 => (Except.error e2 : PRes Val)
    | Except.ok (slots2, cs3) =>
      match resolveMissing f attrs.hasDefaultAttr fields slots2 with
      | Except.error e2 => (Except.error e2 : PRes Val)
      | Except.ok vs2 => Except.ok (Val.vstruct vs2, cs3)) = _
  rw [h2]
  show (match resolveMissing f attrs.hasDefaultAttr fields slots with
    | Except.error e2 => (Except.error e2 : PRes Val)
    | Except.ok vs2 => Except.ok (Val.vstruct vs2, cs2)) = _
  rw [h3]

theorem deserializeEnumD_string_steps (pv : Sh → List Char → PRes Val) (f : Nat)
    (variants : List (String × VariantKind × List (String × Bool × Sh)))
    (cs cs1 : List Char) (s : String) (esc : Bool)
    (var : String × VariantKind × List (String × Bool × Sh))
    (h1 : nextToken cs = .ok (.str s esc, cs1))
    (h2 : findVariant variants s = some var)
    (h3 : var.2.2 = []) :
    deserializeEnumD pv f variants cs = .ok (.venum var.1 [], cs1) := by
  unfold deserializeEnumD
  rw [h1]
  show (match findVariant variants s with
    | none => (Except.error (JsonErrorKind.reflect (ReflectErr.noVariantNamed s)) : PRes Val)
    | some var2 =>
      match var2.2.2 with
      | [] => Except.ok (Val.venum var2.1 [], cs1)
      | fld :: _ =>
        Except.error (JsonErrorKind.reflect (ReflectErr.uninitializedField fld.1))) = _
  rw [h2]
  show (match var.2.2 with
    | [] => (Except.ok (Val.venum var.1 [], cs1) : PRes Val)
    | fld :: _ =>
      Except.error (JsonErrorKind.reflect (ReflectErr.uninitializedField fld.1))) = _
  rw [h3]

/-- The variant-content parse of `deserialize_enum`'s object form, as the
inline `after_content` expression with the colon tail `cs3` plugged in. -/
def afterContentExpr (pv : Sh → List Char → PRes Val) (f : Nat)
    (var : String × VariantKind × List (String × Bool × Sh)) (cs3 : List Char) : PRes Val :=
  match var.2.1 with
  | .unit =>
    match nextToken cs3 with
    | .error e => .error (.token e)
    | .ok (.tNull, cs4) => .ok (.venum var.1 [], cs4)
    | .ok (t, _) => .error (.unexpectedToken t.display "null for unit variant")
  | .tup =>
    match var.2.2 with
    | [] =>
      match nextToken cs3 with
      | .error e => .error (.token e)
      | .ok (.tNull, cs4) => .ok (.venum var.1 [], cs4)
      | .ok _ => .ok (.venum var.1 [], cs3)
    | [fld] =>
      match pv fld.2.2 cs3 with
      | .error e => .error e
      | .ok (v, cs4) => .ok (.venum var.1 [v], cs4)
    | flds =>
      match nextToken cs3 with
      | .error e => .error (.token e)
      | .ok (.lbracket, cs4) =>
        match enumTupleFields pv f flds [] cs4 with
        | .error e => .error e
        | .ok (vs, cs5) =>
          match nextToken cs5 with
          | .error e => .error (.token e)
          | .ok (.rbracket, cs6) => .ok (.venum var.1 vs, cs6)
          | .ok (t, _) => .error (.unexpectedToken t.display "']'")
      | .ok (t, _) => .error (.unexpectedToken t.display "'[' for tuple variant")
  | .strukt => variantStructContentD pv f var.1 var.2.2 cs3

/-- The object-form body of `deserialize_enum` after the opening brace. -/
def enumObjBody (pv : Sh → List Char → PRes Val) (f : Nat)
    (variants : List (String × VariantKind × List (String × Bool × Sh)))
    (cs1 : List Char) : PRes Val :=
  match nextToken cs1 with
  | .error e => .error (.token e)
  | .ok (.str key _, cs2) =>
    match nextToken cs2 with
    | .error e => .error (.token e)
    | .ok (.colon, cs3) =>
      match findVariant variants key with
      | none => .error (.reflect (.noVariantNamed key))
      | some var =>
        match afterContentExpr pv f var cs3 with
        | .error e => .error e
        | .ok (v, cs4) =>
          match nextToken cs4 with
          | .error e => .error (.token e)
          | .ok (.rbrace, cs5) => .ok (v, cs5)
          | .ok (t, _) => .error (.unexpectedToken t.display "'\x7d'")
    | .ok (t, _) => .error (.unexpectedToken t.display "':'")
  | .ok (.rbrace, _) => .error (.invalidValue "empty object cannot represent enum variant")
  | .ok (t, _) => .error (.unexpectedToken t.display "variant name")

theorem deserializeEnumD_obj_steps (pv : Sh → List Char → PRes Val) (f : Nat)
    (variants : List (String × VariantKind × List (String × Bool × Sh)))
    (cs cs1 cs2 cs3 cs4 cs5 : List Char) (key : String) (esc : Bool)
    (var : String × VariantKind × List (String × Bool × Sh)) (v : Val)
    (h1 : nextToken cs = .ok (.lbrace, cs1))
    (h2 : nextToken cs1 = .ok (.str key esc, cs2))
    (h3 : nextToken cs2 = .ok (.colon, cs3))
    (h4 : findVariant variants key = some var)
    (h5 : afterContentExpr pv f var cs3 = .ok (v, cs4))
    (h6 : nextToken cs4 = .ok (.rbrace, cs5)) :
    deserializeEnumD pv f variants cs = .ok (v, cs5) := by
  unfold deserializeEnumD
  rw [h1]
  show enumObjBody pv f variants cs1 = _
  unfold enumObjBody
  rw [h2]
  show (match nextToken cs2 with
    | Except.error e => (Except.error (JsonErrorKind.token e) : PRes Val)
    | Except.ok (Token.colon, cs6) =>
      match findVariant variants key with
      | none => Except.error (JsonErrorKind.reflect (ReflectErr.noVariantNamed key))
      | some var2 =>
        match afterContentExpr pv f var2 cs6 with
        | Except.error e => Except.error e
        | Except.ok (v2, cs7) =>
          match nextToken cs7 with
          | Except.error e => Except.error (JsonErrorKind.token e)
          | Except.ok (Token.rbrace, cs8) => Except.ok (v2, cs8)
          | Except.ok (t, _) => Except.error (JsonErrorKind.unexpectedToken t.display "'\x7d'")
    | Except.ok (t, _) => Except.error (JsonErrorKind.unexpectedToken t.display "':'")) = _
  rw [h3]
  show (match findVariant variants key with
    | none => (Except.error (JsonErrorKind.reflect (ReflectErr.noVariantNamed key)) : PRes Val)
    | some var2 =>
      match afterContentExpr pv f var2 cs3 with
      | Except.error e => Except.error e
      | Except.ok (v2, cs7) =>
        match nextToken cs7 with
        | Except.error e => Except.error (JsonErrorKind.token e)
        | Except.ok (Token.rbrace, cs8) => Except.ok (v2, cs8)
        | Except.ok (t, _) => Except.error (JsonErrorKind.unexpectedToken t.display "'\x7d'")) = _
  rw [h4]
  show (match afterContentExpr pv f var cs3 with
    | Except.error e => (Except.error e : PRes Val)
    | Except.ok (v2, cs7) =>
      match nextToken cs7 with
      | Except.error e => Except.error (JsonErrorKind.token e)
      | Except.ok (Token.rbrace, cs8) => Except.ok (v2, cs8)
      | Except.ok (t, _) => Except.error (JsonErrorKind.unexpectedToken t.display "'\x7d'")) = _
  rw [h5]
  show (match nextToken cs4 with
    | Except.error e => (Except.error (JsonErrorKind.token e) : PRes Val)
    | Except.ok (Token.rbrace, cs8) => Except.ok (v, cs8)
    | Except.ok (t, _) => Except.error (JsonErrorKind.unexpectedToken t.display "'\x7d'")) = _
  rw [h6]

theorem afterContentExpr_tup_single (pv : Sh → List Char → PRes Val) (f : Nat)
    (var : String × VariantKind × List (String × Bool × Sh)) (cs3 cs4 : List Char)
    (fld : String × Bool × Sh) (w : Val)
    (hkind : var.2.1 = .tup) (hflds : var.2.2 = [fld])
    (hpv : pv fld.2.2 cs3 = .ok (w, cs4)) :
    afterContentExpr pv f var cs3 = .ok (.venum var.1 [w], cs4) := by
  unfold afterContentExpr
  rw [hkind]
  show (match var.2.2 with
    | [] =>
      match nextToken cs3 with
      | Except.error e => (Except.error (JsonErrorKind.token e) : PRes Val)
      | Except.ok (Token.tNull, cs5) => Except.ok (Val.venum var.1 [], cs5)
      | Except.ok _ => Except.ok (Val.venum var.1 [], cs3)
    | [fld2] =>
      match pv fld2.2.2 cs3 with
      | Except.error e => (Except.error e : PRes Val)
      | Except.ok (v2, cs5) => Except.ok (Val.venum var.1 [v2], cs5)
    | flds =>
      match nextToken cs3 with
      | Except.error e => (Except.error (JsonErrorKind.token e) : PRes Val)
      | Except.ok (Token.lbracket, cs5) =>
        match enumTupleFields pv f flds [] cs5 with
        | Except.error e => (Except.error e : PRes Val)
        | Except.ok (vs, cs6) =>
          match nextToken cs6 with
          | Except.error e => (Except.error (JsonErrorKind.token e) : PRes Val)
          | Except.ok (Token.rbracket, cs7) => Except.ok (Val.venum var.1 vs, cs7)
          | Except.ok (t, _) => Except.error (JsonErrorKind.unexpectedToken t.display "']'")
      | Except.ok (t, _) =>
        Except.error (JsonErrorKind.unexpectedToken t.display "'[' for tuple variant")) = _
  rw [hflds]
  show (match pv fld.2.2 cs3 with
    | Except.error e => (Except.error e : PRes Val)
    | Except.ok (v2, cs5) => Except.ok (Val.venum var.1 [v2], cs5)) = _
  rw [hpv]

theorem afterContentExpr_tup_multi (pv : Sh → List Char → PRes Val) (f : Nat)
    (var : String × VariantKind × List (String × Bool × Sh)) (cs3 cs4 cs5 cs6 : List Char)
    (fld1 fld2 : String × Bool × Sh) (flds : List (String × Bool × Sh)) (vs : List Val)
    (hkind : var.2.1 = .tup) (hflds : var.2.2 = fld1 :: fld2 :: flds)
    (h5a : nextToken cs3 = .ok (.lbracket, cs4))
    (h5b : enumTupleFields pv f (fld1 :: fld2 :: flds) [] cs4 = .ok (vs, cs5))
    (h5c : nextToken cs5 = .ok (.rbracket, cs6)) :
    afterContentExpr pv f var cs3 = .ok (.venum var.1 vs, cs6) := by
  unfold afterContentExpr
  rw [hkind]
  show (match var.2.2 with
    | [] =>
      match nextToken cs3 with
      | Except.error e => (Except.error (JsonErrorKind.token e) : PRes Val)
      | Except.ok (Token.tNull, cs7) => Except.ok (Val.venum var.1 [], cs7)
      | Except.ok _ => Except.ok (Val.venum var.1 [], cs3)
    | [fld] =>
      match pv fld.2.2 cs3 with
      | Except.error e => (Except.error e : PRes Val)
      | Except.ok (v2, cs7) => Except.ok (Val.venum var.1 [v2], cs7)
    | flds2 =>
      match nextToken cs3 with
      | Except.error e => (Except.error (JsonErrorKind.token e) : PRes Val)
      | Except.ok (Token.lbracket, cs7) =>
        match enumTupleFields pv f flds2 [] cs7 with
        | Except.error e => (Except.error e : PRes Val)
        | Except.ok (vs2, cs8) =>
          match nextToken cs8 with
          | Except.error e => (Except.error (JsonErrorKind.token e) : PRes Val)
          | Except.ok (Token.rbracket, cs9) => Except.ok (Val.venum var.1 vs2, cs9)
          | Except.ok (t, _) => Except.error (JsonErrorKind.unexpectedToken t.display "']'")
      | Except.ok (t, _) =>
        Except.error (JsonErrorKind.unexpectedToken t.display "'[' for tuple variant")) = _
  rw [hflds, h5a]
  show (match enumTupleFields pv f (fld1 :: fld2 :: flds) [] cs4 with
    | Except.error e => (Except.error e : PRes Val)
    | Except.ok (vs2, cs8) =>
      match nextToken cs8 with
      | Except.error e => (Except.error (JsonErrorKind.token e) : PRes Val)
      | Except.ok (Token.rbracket, cs9) => Except.ok (Val.venum var.1 vs2, cs9)
      | Except.ok (t, _) => Except.error (JsonErrorKind.unexpectedToken t.display "']'")) = _
  rw [h5b]
  show (match nextToken cs5 with
    | Except.error e => (Except.error (JsonErrorKind.token e) : PRes Val)
    | Except.ok (Token.rbracket, cs9) => Except.ok (Val.venum var.1 vs, cs9)
    | Except.ok (t, _) => Except.error (JsonErrorKind.unexpectedToken t.display "']'")) = _
  rw [h5c]

theorem afterContentExpr_strukt (pv : Sh → List Char → PRes Val) (f : Nat)
    (var : String × VariantKind × List (String × Bool × Sh)) (cs3 : List Char)
    (r : Val × List Char)
    (hkind : var.2.1 = .strukt)
    (h : variantStructContentD pv f var.1 var.2.2 cs3 = .ok r) :
    afterContentExpr pv f var cs3 = .ok r := by
  unfold afterContentExpr
  rw [hkind]
  exact h

theorem variantStructContentD_cons (pv : Sh → List Char → PRes Val) (f : Nat)
    (name : String) (fld0 : String × Bool × Sh) (ftl : List (String × Bool × Sh))
    (cs : List Char) :
    variantStructContentD pv f name (fld0 :: ftl) cs
      = (if (match fld0.1.toList with
            | [] => true
            | c :: _ => !(isDigit c)) = true then
          variantStructFieldsD pv f name (fld0 :: ftl) cs
        else if (fld0 :: ftl).length = 1 then
          match pv fld0.2.2 cs with
          | .error e => .error e
          | .ok (v, cs1) => .ok (.venum name [v], cs1)
        else
          match nextToken cs with
          | .error e => .error (.token e)
          | .ok (.lbracket, cs') =>
            match variantTupleFieldsLoop pv f (fld0 :: ftl) 0
                (List.replicate (fld0 :: ftl).length none) cs' with
            | .error e => .error e
            | .ok (slots, cs2) =>
              match buildVariantFields (fld0 :: ftl) slots with
              | .error e => .error e
              | .ok vs => .ok (.venum name vs, cs2)
          | .ok (t, _) => .error (.unexpectedToken t.display "'[' for tuple variant")) := rfl

theorem variantStructContentD_struct_steps (pv : Sh → List Char → PRes Val) (f : Nat)
    (name : String) (fld0 : String × Bool × Sh) (ftl : List (String × Bool × Sh))
    (cs cs1 cs2 : List Char) (slots : List (Option Val)) (vs : List Val)
    (hsv : (match fld0.1.toList with
        | [] => true
        | c :: _ => !(isDigit c)) = true)
    (h1 : nextToken cs = .ok (.lbrace, cs1))
    (h2 : variantStructFieldsLoop pv f (fld0 :: ftl)
        (List.replicate (fld0 :: ftl).length none) cs1 = .ok (slots, cs2))
    (h3 : buildVariantFields (fld0 :: ftl) slots = .ok vs) :
    variantStructContentD pv f name (fld0 :: ftl) cs = .ok (.venum name vs, cs2) := by
  rw [variantStructContentD_cons, if_pos hsv]
  unfold variantStructFieldsD
  rw [h1]
  show (match variantStructFieldsLoop pv f (fld0 :: ftl)
      (List.replicate (fld0 :: ftl).length none) cs1 with
    | Except.error e => (Except.error e : PRes Val)
    | Except.ok (slots2, cs3) =>
      match buildVariantFields (fld0 :: ftl) slots2 with
      | Except.error e => (Except.error e : PRes Val)
      | Except.ok vs2 => Except.ok (Val.venum name vs2, cs3)) = _
  rw [h2]
  show (match buildVariantFields (fld0 :: ftl) slots with
    | Except.error e => (Except.error e : PRes Val)
    | Except.ok vs2 => Except.ok (Val.venum name vs2, cs2)) = _
  rw [h3]


/-- Uniform per-field parse bound for named-field lists. -/
theorem named_items_bound (sf : Nat) (ind : Option String) (hih : IHP sf ind)
    (cf : Nat) (dep : Nat) (L : List ((String × Bool × Sh) × Val))
    (hc : ∀ p ∈ L, canonShB cf p.1.2.2 = true ∧ canonVB cf p.1.2.2 p.2 = true) :
    ∃ F, ∀ p ∈ L, ∀ o, serializeValue sf p.1.2.2 p.2 ind (dep + 1) = Except.ok o →
      PG F p.1.2.2 p.2 o ∧ FT p.2 o := by
  refine exists_uniform_bound
    (fun F p => ∀ o, serializeValue sf p.1.2.2 p.2 ind (dep + 1) = Except.ok o →
      PG F p.1.2.2 p.2 o ∧ FT p.2 o) ?_ L ?_
  · intro F F' p hFF hq o ho
    exact ⟨PG_mono F F' _ _ _ hFF (hq o ho).1, (hq o ho).2⟩
  intro p hp
  cases hser : serializeValue sf p.1.2.2 p.2 ind (dep + 1) with
  | error e => exact ⟨0, fun o ho => absurd (ho ▸ hser) (fun hx => Except.noConfusion hx)⟩
  | ok o0 =>
    obtain ⟨⟨Fp, hPGp⟩, hFTp⟩ :=
      hih p.1.2.2 p.2 (dep + 1) o0 cf hser (hc p hp).1 (hc p hp).2
    refine ⟨Fp, fun o ho => ?_⟩
    have : o0 = o := Except.ok.inj (hser.symm.trans ho)
    subst this
    exact ⟨hPGp, hFTp⟩

/-- Uniform per-entry parse bound for map entries. -/
theorem map_items_bound (sf : Nat) (ind : Option String) (hih : IHP sf ind)
    (cf : Nat) (dep : Nat) (vsh : Sh) (hcs : canonShB cf vsh = true)
    (L : List (String × Val))
    (hc : ∀ p ∈ L, canonVB cf vsh p.2 = true) :
    ∃ F, ∀ p ∈ L, ∀ o, serializeValue sf vsh p.2 ind (dep + 1) = Except.ok o →
      PG F vsh p.2 o ∧ FT p.2 o := by
  refine exists_uniform_bound
    (fun F p => ∀ o, serializeValue sf vsh p.2 ind (dep + 1) = Except.ok o →
      PG F vsh p.2 o ∧ FT p.2 o) ?_ L ?_
  · intro F F' p hFF hq o ho
    exact ⟨PG_mono F F' _ _ _ hFF (hq o ho).1, (hq o ho).2⟩
  intro p hp
  cases hser : serializeValue sf vsh p.2 ind (dep + 1) with
  | error e => exact ⟨0, fun o ho => absurd (ho ▸ hser) (fun hx => Except.noConfusion hx)⟩
  | ok o0 =>
    obtain ⟨⟨Fp, hPGp⟩, hFTp⟩ :=
      hih vsh p.2 (dep + 1) o0 cf hser hcs (hc p hp)
    refine ⟨Fp, fun o ho => ?_⟩
    have : o0 = o := Except.ok.inj (hser.symm.trans ho)
    subst this
    exact ⟨hPGp, hFTp⟩

/-- Lists round-trip. -/
theorem rt_slist (sf : Nat) (ind : Option String) (hind : indentOk ind) (hih : IHP sf ind)
    (e : Sh) (vs : List Val) (dep : Nat) (out : List Char) (cf : Nat)
    (h : serializeValue (sf+1) (.slist e) (.vlist vs) ind dep = .ok out)
    (hsh : canonShB (cf+1) (.slist e) = true)
    (hv : canonVB (cf+1) (.slist e) (.vlist vs) = true) :
    PGFT (.slist e) (.vlist vs) out := by
  have h2 : serArray (fun sh' v' d => serializeValue sf sh' v' ind d) ind dep
      (vs.map (fun x => (e, x))) = .ok out := h
  have hsh2 : canonShB cf e = true := hsh
  have hvs : ∀ w ∈ vs, canonVB cf e w = true := by
    have hx : vs.all (canonVB cf e) = true := hv
    simpa [List.all_eq_true] using hx
  cases vs with
  | nil =>
    have hout : (['[', ']'] : List Char) = out := Except.ok.inj h2
    constructor
    · refine ⟨2, fun pf rest hpf hsep => ?_⟩
      match pf, hpf with
      | pf+2, _ =>
        refine deserializeInto_slist_steps (pf+1) e _ (']' :: rest) [] rest ?_ ?_
        · rw [← hout, show (['[', ']'] : List Char) ++ rest = '[' :: (']' :: rest) from rfl]
          exact nextToken_lbracket _
        · exact seqElems_rbracket (deserializeInto (pf+1)) pf e [] _ rest
            (nextToken_rbracket rest)
    · intro rest hsep
      refine ⟨.lbracket, ']' :: rest, ?_, fun hx => Token.noConfusion hx,
        fun _ hx => Token.noConfusion hx⟩
      rw [← hout, show (['[', ']'] : List Char) ++ rest = '[' :: (']' :: rest) from rfl]
      exact nextToken_lbracket _
  | cons w ws2 =>
    simp only [List.map_cons] at h2
    obtain ⟨body, hbody, hout⟩ :=
      serArray_cons _ ind dep (e, w) (ws2.map (fun x => (e, x))) out h2
    obtain ⟨F, hel⟩ := items_bound sf ind hih cf dep ((e, w) :: ws2.map (fun x => (e, x)))
      (by
        intro p hp
        rcases List.mem_cons.mp hp with hp | hp
        · subst hp; exact ⟨hsh2, hvs w (by simp)⟩
        · obtain ⟨x, hx, rfl⟩ := List.mem_map.mp hp
          exact ⟨hsh2, hvs x (by simp [hx])⟩)
    have hall : ∀ p ∈ (e, w) :: ws2.map (fun x => (e, x)), p.1 = e := by
      intro p hp
      rcases List.mem_cons.mp hp with hp | hp
      · subst hp; rfl
      · obtain ⟨x, _, rfl⟩ := List.mem_map.mp hp; rfl
    constructor
    · refine ⟨max (F+1) (ws2.length + 3), fun pf rest hpf hsep => ?_⟩
      have hF1 : F + 1 ≤ pf := le_trans (Nat.le_max_left _ _) hpf
      have hF2 : ws2.length + 3 ≤ pf := le_trans (Nat.le_max_right _ _) hpf
      match pf, hF1, hF2 with
      | pf+1, hF1, hF2 =>
        refine deserializeInto_slist_steps pf e _
          (body ++ (writeNewline ind ++ (writeIndent ind dep ++ (']' :: rest))))
          (w :: ws2) rest ?_ ?_
        · rw [show out ++ rest = '[' :: (body ++ (writeNewline ind ++ (writeIndent ind dep
              ++ (']' :: rest)))) from by rw [hout]; simp]
          exact nextToken_lbracket _
        · have hseq := seqElems_ser_parse sf ind hind F e dep
            ((e, w) :: ws2.map (fun x => (e, x))) body hall hbody hel pf pf [] [] rest
            (by simp only [List.length_cons, List.length_map]; omega)
            (by omega) allWs_nil hsep
          simp only [List.nil_append, List.reverse_nil, List.map_cons, List.map_map,
            Function.comp] at hseq
          simpa using hseq
    · intro rest hsep
      refine ⟨.lbracket, body ++ (writeNewline ind ++ (writeIndent ind dep
          ++ (']' :: rest))), ?_, fun hx => Token.noConfusion hx,
        fun _ hx => Token.noConfusion hx⟩
      rw [show out ++ rest = '[' :: (body ++ (writeNewline ind ++ (writeIndent ind dep
          ++ (']' :: rest)))) from by rw [hout]; simp]
      exact nextToken_lbracket _

/-- Sets round-trip (identical loop to lists). -/
theorem rt_sset (sf : Nat) (ind : Option String) (hind : indentOk ind) (hih : IHP sf ind)
    (e : Sh) (vs : List Val) (dep : Nat) (out : List Char) (cf : Nat)
    (h : serializeValue (sf+1) (.sset e) (.vlist vs) ind dep = .ok out)
    (hsh : canonShB (cf+1) (.sset e) = true)
    (hv : canonVB (cf+1) (.sset e) (.vlist vs) = true) :
    PGFT (.sset e) (.vlist vs) out := by
  have h2 : serArray (fun sh' v' d => serializeValue sf sh' v' ind d) ind dep
      (vs.map (fun x => (e, x))) = .ok out := h
  have hsh2 : canonShB cf e = true := hsh
  have hvs : ∀ w ∈ vs, canonVB cf e w = true := by
    have hx : vs.all (canonVB cf e) = true := hv
    simpa [List.all_eq_true] using hx
  cases vs with
  | nil =>
    have hout : (['[', ']'] : List Char) = out := Except.ok.inj h2
    constructor
    · refine ⟨2, fun pf rest hpf hsep => ?_⟩
      match pf, hpf with
      | pf+2, _ =>
        refine deserializeInto_sset_steps (pf+1) e _ (']' :: rest) [] rest ?_ ?_
        · rw [← hout, show (['[', ']'] : List Char) ++ rest = '[' :: (']' :: rest) from rfl]
          exact nextToken_lbracket _
        · exact seqElems_rbracket (deserializeInto (pf+1)) pf e [] _ rest
            (nextToken_rbracket rest)
    · intro rest hsep
      refine ⟨.lbracket, ']' :: rest, ?_, fun hx => Token.noConfusion hx,
        fun _ hx => Token.noConfusion hx⟩
      rw [← hout, show (['[', ']'] : List Char) ++ rest = '[' :: (']' :: rest) from rfl]
      exact nextToken_lbracket _
  | cons w ws2 =>
    simp only [List.map_cons] at h2
    obtain ⟨body, hbody, hout⟩ :=
      serArray_cons _ ind dep (e, w) (ws2.map (fun x => (e, x))) out h2
    obtain ⟨F, hel⟩ := items_bound sf ind hih cf dep ((e, w) :: ws2.map (fun x => (e, x)))
      (by
        intro p hp
        rcases List.mem_cons.mp hp with hp | hp
        · subst hp; exact ⟨hsh2, hvs w (by simp)⟩
        · obtain ⟨x, hx, rfl⟩ := List.mem_map.mp hp
          exact ⟨hsh2, hvs x (by simp [hx])⟩)
    have hall : ∀ p ∈ (e, w) :: ws2.map (fun x => (e, x)), p.1 = e := by
      intro p hp
      rcases List.mem_cons.mp hp with hp | hp
      · subst hp; rfl
      · obtain ⟨x, _, rfl⟩ := List.mem_map.mp hp; rfl
    constructor
    · refine ⟨max (F+1) (ws2.length + 3), fun pf rest hpf hsep => ?_⟩
      have hF1 : F + 1 ≤ pf := le_trans (Nat.le_max_left _ _) hpf
      have hF2 : ws2.length + 3 ≤ pf := le_trans (Nat.le_max_right _ _) hpf
      match pf, hF1, hF2 with
      | pf+1, hF1, hF2 =>
        refine deserializeInto_sset_steps pf e _
          (body ++ (writeNewline ind ++ (writeIndent ind dep ++ (']' :: rest))))
          (w :: ws2) rest ?_ ?_
        · rw [show out ++ rest = '[' :: (body ++ (writeNewline ind ++ (writeIndent ind dep
              ++ (']' :: rest)))) from by rw [hout]; simp]
          exact nextToken_lbracket _
        · have hseq := seqElems_ser_parse sf ind hind F e dep
            ((e, w) :: ws2.map (fun x => (e, x))) body hall hbody hel pf pf [] [] rest
            (by simp only [List.length_cons, List.length_map]; omega)
            (by omega) allWs_nil hsep
          simp only [List.nil_append, List.reverse_nil, List.map_cons, List.map_map,
            Function.comp] at hseq
          simpa using hseq
    · intro rest hsep
      refine ⟨.lbracket, body ++ (writeNewline ind ++ (writeIndent ind dep
          ++ (']' :: rest))), ?_, fun hx => Token.noConfusion hx,
        fun _ hx => Token.noConfusion hx⟩
      rw [show out ++ rest = '[' :: (body ++ (writeNewline ind ++ (writeIndent ind dep
          ++ (']' :: rest)))) from by rw [hout]; simp]
      exact nextToken_lbracket _

theorem zipMapFst {α β : Type} : ∀ (l1 : List α) (l2 : List β),
    l1.length = l2.length → (l1.zip l2).map (fun p => p.1) = l1 := by
  intro l1
  induction l1 with
  | nil => intro l2 _; rfl
  | cons x xs ih =>
    intro l2 hlen
    match l2, hlen with
    | y :: ys, hlen =>
      show x :: (xs.zip ys).map (fun p => p.1) = x :: xs
      rw [ih ys (by simpa using hlen)]

theorem zipMapSnd {α β : Type} : ∀ (l1 : List α) (l2 : List β),
    l1.length = l2.length → (l1.zip l2).map (fun p => p.2) = l2 := by
  intro l1
  induction l1 with
  | nil =>
    intro l2 hlen
    rw [show l2 = [] from List.length_eq_zero.mp hlen.symm]
    rfl
  | cons x xs ih =>
    intro l2 hlen
    match l2, hlen with
    | y :: ys, hlen =>
      show y :: (xs.zip ys).map (fun p => p.2) = y :: ys
      rw [ih ys (by simpa using hlen)]

theorem zipLen {α β : Type} : ∀ (l1 : List α) (l2 : List β),
    l1.length = l2.length → (l1.zip l2).length = l1.length := by
  intro l1 l2 h
  rw [List.length_zip, h, Nat.min_self]

theorem mapPairFst {α β : Type} (e : α) : ∀ (vs : List β),
    (vs.map (fun x => (e, x))).map (fun p => p.1) = List.replicate vs.length e := by
  intro vs
  induction vs with
  | nil => rfl
  | cons x xs ih =>
    show e :: (xs.map (fun x => (e, x))).map (fun p => p.1) = _
    rw [ih]
    rfl

theorem mapPairSnd {α β : Type} (e : α) : ∀ (vs : List β),
    (vs.map (fun x => (e, x))).map (fun p => p.2) = vs := by
  intro vs
  induction vs with
  | nil => rfl
  | cons x xs ih =>
    show x :: (xs.map (fun x => (e, x))).map (fun p => p.2) = _
    rw [ih]

/-- Tuples round-trip. -/
theorem rt_stuple (sf : Nat) (ind : Option String) (hind : indentOk ind) (hih : IHP sf ind)
    (es : List Sh) (vs : List Val) (dep : Nat) (out : List Char) (cf : Nat)
    (h : serializeValue (sf+1) (.stuple es) (.vtuple vs) ind dep = .ok out)
    (hsh : canonShB (cf+1) (.stuple es) = true)
    (hv : canonVB (cf+1) (.stuple es) (.vtuple vs) = true) :
    PGFT (.stuple es) (.vtuple vs) out := by
  have h2 : serArray (fun sh' v' d => serializeValue sf sh' v' ind d) ind dep
      (es.zip vs) = .ok out := h
  have hshAll : ∀ s ∈ es, canonShB cf s = true := by
    have hx : es.all (canonShB cf) = true := hsh
    simpa [List.all_eq_true] using hx
  have hvz : (decide (es.length = vs.length)
      && (es.zip vs).all fun p => canonVB cf p.1 p.2) = true := hv
  simp only [Bool.and_eq_true, decide_eq_true_eq, List.all_eq_true] at hvz
  obtain ⟨hlen, hallz⟩ := hvz
  cases es with
  | nil =>
    have hvs0 : vs = [] := List.length_eq_zero.mp hlen.symm
    subst hvs0
    have hout : (['[', ']'] : List Char) = out := Except.ok.inj h2
    constructor
    · refine ⟨2, fun pf rest hpf hsep => ?_⟩
      match pf, hpf with
      | pf+2, _ =>
        refine deserializeInto_stuple_steps (pf+1) [] _ (']' :: rest) (']' :: rest) [] rest
          ?_ ?_ ?_
        · rw [← hout, show (['[', ']'] : List Char) ++ rest = '[' :: (']' :: rest) from rfl]
          exact nextToken_lbracket _
        · exact fixedElems_nil (deserializeInto (pf+1)) pf true [] _
        · exact nextToken_rbracket rest
    · intro rest hsep
      refine ⟨.lbracket, ']' :: rest, ?_, fun hx => Token.noConfusion hx,
        fun _ hx => Token.noConfusion hx⟩
      rw [← hout, show (['[', ']'] : List Char) ++ rest = '[' :: (']' :: rest) from rfl]
      exact nextToken_lbracket _
  | cons e0 etl =>
    cases vs with
    | nil => simp at hlen
    | cons v0 vtl =>
      have hlen2 : etl.length = vtl.length := by simpa using hlen
      rw [List.zip_cons_cons] at h2
      obtain ⟨body, hbody, hout⟩ :=
        serArray_cons _ ind dep (e0, v0) (etl.zip vtl) out h2
      obtain ⟨F, hel⟩ := items_bound sf ind hih cf dep ((e0, v0) :: etl.zip vtl)
        (by
          intro p hp
          rcases List.mem_cons.mp hp with hp | hp
          · subst hp
            exact ⟨hshAll e0 (by simp), hallz (e0, v0) (by rw [List.zip_cons_cons]; simp)⟩
          · obtain ⟨a, b⟩ := p
            have hmem := List.of_mem_zip hp
            exact ⟨hshAll a (by simp [hmem.1]),
              hallz (a, b) (by rw [List.zip_cons_cons]; simp [hp])⟩)
      constructor
      · refine ⟨max (F+1) (vtl.length + 3), fun pf rest hpf hsep => ?_⟩
        have hF1 : F + 1 ≤ pf := le_trans (Nat.le_max_left _ _) hpf
        have hF2 : vtl.length + 3 ≤ pf := le_trans (Nat.le_max_right _ _) hpf
        match pf, hF1, hF2 with
        | pf+1, hF1, hF2 =>
          refine deserializeInto_stuple_steps pf (e0 :: etl) _
            (body ++ (writeNewline ind ++ (writeIndent ind dep ++ (']' :: rest))))
            (writeNewline ind ++ (writeIndent ind dep ++ (']' :: rest)))
            (v0 :: vtl) rest ?_ ?_ ?_
          · rw [show out ++ rest = '[' :: (body ++ (writeNewline ind ++ (writeIndent ind dep
                ++ (']' :: rest)))) from by rw [hout]; simp]
            exact nextToken_lbracket _
          · have hfix := fixedElems_ser_parse sf ind hind F dep (etl.zip vtl) (e0, v0)
              true body hbody (fun p hp o ho => (hel p hp o ho).1) pf pf [] []
              (writeNewline ind ++ (writeIndent ind dep ++ (']' :: rest)))
              (by rw [zipLen etl vtl hlen2]; omega) (by omega) allWs_nil
              (sep_close ind hind dep _ (sep_rbracket rest))
            simp only [List.nil_append, List.reverse_nil, List.map_cons] at hfix
            rw [zipMapFst etl vtl hlen2, zipMapSnd etl vtl hlen2] at hfix
            simpa using hfix
          · rw [nextToken_ws _ (writeNewline_ws ind hind),
              nextToken_ws _ (writeIndent_ws ind hind dep)]
            exact nextToken_rbracket rest
      · intro rest hsep
        refine ⟨.lbracket, body ++ (writeNewline ind ++ (writeIndent ind dep
            ++ (']' :: rest))), ?_, fun hx => Token.noConfusion hx,
          fun _ hx => Token.noConfusion hx⟩
        rw [show out ++ rest = '[' :: (body ++ (writeNewline ind ++ (writeIndent ind dep
            ++ (']' :: rest)))) from by rw [hout]; simp]
        exact nextToken_lbracket _

/-- Fixed arrays round-trip. -/
theorem rt_sarray (sf : Nat) (ind : Option String) (hind : indentOk ind) (hih : IHP sf ind)
    (e : Sh) (n : Nat) (vs : List Val) (dep : Nat) (out : List Char) (cf : Nat)
    (h : serializeValue (sf+1) (.sarray e n) (.vlist vs) ind dep = .ok out)
    (hsh : canonShB (cf+1) (.sarray e n) = true)
    (hv : canonVB (cf+1) (.sarray e n) (.vlist vs) = true) :
    PGFT (.sarray e n) (.vlist vs) out := by
  have h2 : serArray (fun sh' v' d => serializeValue sf sh' v' ind d) ind dep
      (vs.map (fun x => (e, x))) = .ok out := h
  have hsh2 : canonShB cf e = true := hsh
  have hvz : (decide (vs.length = n) && vs.all (canonVB cf e)) = true := hv
  simp only [Bool.and_eq_true, decide_eq_true_eq, List.all_eq_true] at hvz
  obtain ⟨hlen, hvs⟩ := hvz
  cases vs with
  | nil =>
    have hn0 : n = 0 := by simpa using hlen.symm
    subst hn0
    have hout : (['[', ']'] : List Char) = out := Except.ok.inj h2
    constructor
    · refine ⟨2, fun pf rest hpf hsep => ?_⟩
      match pf, hpf with
      | pf+2, _ =>
        refine deserializeInto_sarray_steps (pf+1) e 0 _ (']' :: rest) (']' :: rest) [] rest
          ?_ ?_ ?_
        · rw [← hout, show (['[', ']'] : List Char) ++ rest = '[' :: (']' :: rest) from rfl]
          exact nextToken_lbracket _
        · exact fixedElems_nil (deserializeInto (pf+1)) pf true [] _
        · exact nextToken_rbracket rest
    · intro rest hsep
      refine ⟨.lbracket, ']' :: rest, ?_, fun hx => Token.noConfusion hx,
        fun _ hx => Token.noConfusion hx⟩
      rw [← hout, show (['[', ']'] : List Char) ++ rest = '[' :: (']' :: rest) from rfl]
      exact nextToken_lbracket _
  | cons w ws2 =>
    simp only [List.map_cons] at h2
    obtain ⟨body, hbody, hout⟩ :=
      serArray_cons _ ind dep (e, w) (ws2.map (fun x => (e, x))) out h2
    obtain ⟨F, hel⟩ := items_bound sf ind hih cf dep ((e, w) :: ws2.map (fun x => (e, x)))
      (by
        intro p hp
        rcases List.mem_cons.mp hp with hp | hp
        · subst hp; exact ⟨hsh2, hvs w (by simp)⟩
        · obtain ⟨x, hx, rfl⟩ := List.mem_map.mp hp
          exact ⟨hsh2, hvs x (by simp [hx])⟩)
    constructor
    · refine ⟨max (F+1) (ws2.length + 3), fun pf rest hpf hsep => ?_⟩
      have hF1 : F + 1 ≤ pf := le_trans (Nat.le_max_left _ _) hpf
      have hF2 : ws2.length + 3 ≤ pf := le_trans (Nat.le_max_right _ _) hpf
      match pf, hF1, hF2 with
      | pf+1, hF1, hF2 =>
        refine deserializeInto_sarray_steps pf e n _
          (body ++ (writeNewline ind ++ (writeIndent ind dep ++ (']' :: rest))))
          (writeNewline ind ++ (writeIndent ind dep ++ (']' :: rest)))
          (w :: ws2) rest ?_ ?_ ?_
        · rw [show out ++ rest = '[' :: (body ++ (writeNewline ind ++ (writeIndent ind dep
              ++ (']' :: rest)))) from by rw [hout]; simp]
          exact nextToken_lbracket _
        · have hfix := fixedElems_ser_parse sf ind hind F dep (ws2.map (fun x => (e, x)))
            (e, w) true body hbody (fun p hp o ho => (hel p hp o ho).1) pf pf [] []
            (writeNewline ind ++ (writeIndent ind dep ++ (']' :: rest)))
            (by simp only [List.length_map]; omega) (by omega) allWs_nil
            (sep_close ind hind dep _ (sep_rbracket rest))
          simp only [List.nil_append, List.reverse_nil, List.map_cons] at hfix
          rw [mapPairFst e ws2, mapPairSnd e ws2] at hfix
          rw [show List.replicate n e = e :: List.replicate ws2.length e from by
            rw [show n = ws2.length + 1 from by simpa using hlen.symm]
            rfl]
          simpa using hfix
        · rw [nextToken_ws _ (writeNewline_ws ind hind),
            nextToken_ws _ (writeIndent_ws ind hind dep)]
          exact nextToken_rbracket rest
    · intro rest hsep
      refine ⟨.lbracket, body ++ (writeNewline ind ++ (writeIndent ind dep
          ++ (']' :: rest))), ?_, fun hx => Token.noConfusion hx,
        fun _ hx => Token.noConfusion hx⟩
      rw [show out ++ rest = '[' :: (body ++ (writeNewline ind ++ (writeIndent ind dep
          ++ (']' :: rest)))) from by rw [hout]; simp]
      exact nextToken_lbracket _

theorem zipMapFstComp {α β γ : Type} (g : α → γ) : ∀ (l1 : List α) (l2 : List β),
    l1.length = l2.length → (l1.zip l2).map (fun p => g p.1) = l1.map g := by
  intro l1
  induction l1 with
  | nil => intro l2 _; rfl
  | cons x xs ih =>
    intro l2 hlen
    match l2, hlen with
    | y :: ys, hlen =>
      show g x :: (xs.zip ys).map (fun p => g p.1) = g x :: xs.map g
      rw [ih ys (by simpa using hlen)]

theorem zipMapSndComp {α β γ : Type} (g : β → γ) : ∀ (l1 : List α) (l2 : List β),
    l1.length = l2.length → (l1.zip l2).map (fun p => g p.2) = l2.map g := by
  intro l1
  induction l1 with
  | nil =>
    intro l2 hlen
    rw [show l2 = [] from List.length_eq_zero.mp hlen.symm]
    rfl
  | cons x xs ih =>
    intro l2 hlen
    match l2, hlen with
    | y :: ys, hlen =>
      show g y :: (xs.zip ys).map (fun p => g p.2) = g y :: ys.map g
      rw [ih ys (by simpa using hlen)]

/-- Structs round-trip: in-order fields, no missing slots. -/
theorem rt_sstruct (sf : Nat) (ind : Option String) (hind : indentOk ind) (hih : IHP sf ind)
    (attrs : StructAttrs) (fields : List (String × Bool × Sh)) (vs : List Val)
    (dep : Nat) (out : List Char) (cf : Nat)
    (h : serializeValue (sf+1) (.sstruct attrs fields) (.vstruct vs) ind dep = .ok out)
    (hsh : canonShB (cf+1) (.sstruct attrs fields) = true)
    (hv : canonVB (cf+1) (.sstruct attrs fields) (.vstruct vs) = true) :
    PGFT (.sstruct attrs fields) (.vstruct vs) out := by
  have h2 : serObject (fun sh' v' d => serializeValue sf sh' v' ind d) ind dep
      ((fields.zip vs).map (fun p => (p.1.1, p.1.2.2, p.2))) = .ok out := h
  have hshx : (!(isSpannedShape (.sstruct attrs fields))
      && strNodup (fields.map (fun fld => fld.1))
      && fields.all (fun fld => plainName fld.1 && canonShB cf fld.2.2)) = true := hsh
  simp only [Bool.and_eq_true, Bool.not_eq_true', List.all_eq_true] at hshx
  obtain ⟨⟨hspan, hnodup⟩, hfall⟩ := hshx
  have hvz : (decide (fields.length = vs.length)
      && (fields.zip vs).all (fun p => canonVB cf p.1.2.2 p.2)) = true := hv
  simp only [Bool.and_eq_true, decide_eq_true_eq, List.all_eq_true] at hvz
  obtain ⟨hlen, hallz⟩ := hvz
  cases fields with
  | nil =>
    have hvs0 : vs = [] := List.length_eq_zero.mp hlen.symm
    subst hvs0
    have hout : ([Char.ofNat 123, Char.ofNat 125] : List Char) = out := Except.ok.inj h2
    constructor
    · refine ⟨2, fun pf rest hpf hsep => ?_⟩
      match pf, hpf with
      | pf+2, _ =>
        refine deserializeInto_sstruct_steps (pf+1) attrs [] _ (Char.ofNat 125 :: rest) rest
          (List.replicate 0 none) [] hspan ?_ ?_ ?_
        · rw [← hout, show ([Char.ofNat 123, Char.ofNat 125] : List Char) ++ rest
              = Char.ofNat 123 :: (Char.ofNat 125 :: rest) from rfl]
          exact nextToken_lbrace _
        · exact structFieldsLoop_rbrace (deserializeInto (pf+1)) pf attrs [] _ _ rest
            (nextToken_rbrace rest)
        · rfl
    · intro rest hsep
      refine ⟨.lbrace, Char.ofNat 125 :: rest, ?_, fun hx => Token.noConfusion hx,
        fun _ hx => Token.noConfusion hx⟩
      rw [← hout, show ([Char.ofNat 123, Char.ofNat 125] : List Char) ++ rest
          = Char.ofNat 123 :: (Char.ofNat 125 :: rest) from rfl]
      exact nextToken_lbrace _
  | cons f0 ftl =>
    cases vs with
    | nil => simp at hlen
    | cons v0 vtl =>
      have hlen2 : ftl.length = vtl.length := by simpa using hlen
      rw [List.zip_cons_cons, List.map_cons] at h2
      obtain ⟨body, hbody, hout⟩ :=
        serObject_cons _ ind dep (f0.1, f0.2.2, v0) ((ftl.zip vtl).map
          (fun p => (p.1.1, p.1.2.2, p.2))) out h2
      obtain ⟨F, hel⟩ := named_items_bound sf ind hih cf dep ((f0, v0) :: ftl.zip vtl)
        (by
          intro p hp
          rcases List.mem_cons.mp hp with hp | hp
          · subst hp
            have hx := hfall f0 (by simp)
            simp only [Bool.and_eq_true] at hx
            exact ⟨hx.2, hallz (f0, v0) (by rw [List.zip_cons_cons]; simp)⟩
          · obtain ⟨a, b⟩ := p
            have hmem := List.of_mem_zip hp
            have hx := hfall a (by simp [hmem.1])
            simp only [Bool.and_eq_true] at hx
            exact ⟨hx.2, hallz (a, b) (by rw [List.zip_cons_cons]; simp [hp])⟩)
      have hpl : ∀ p ∈ (f0, v0) :: ftl.zip vtl, plainName p.1.1 = true := by
        intro p hp
        rcases List.mem_cons.mp hp with hp | hp
        · subst hp
          have hx := hfall f0 (by simp)
          simp only [Bool.and_eq_true] at hx
          exact hx.1
        · obtain ⟨a, b⟩ := p
          have hmem := List.of_mem_zip hp
          have hx := hfall a (by simp [hmem.1])
          simp only [Bool.and_eq_true] at hx
          exact hx.1
      have hnd : strNodup ((([] : List ((String × Bool × Sh) × Val))
          ++ ((f0, v0) :: ftl.zip vtl)).map (fun p => p.1.1)) = true := by
        simp only [List.nil_append, List.map_cons]
        rw [zipMapFstComp (fun fl => fl.1) ftl vtl hlen2]
        exact hnodup
      constructor
      · refine ⟨max (F+1) (vtl.length + 3), fun pf rest hpf hsep => ?_⟩
        have hF1 : F + 1 ≤ pf := le_trans (Nat.le_max_left _ _) hpf
        have hF2 : vtl.length + 3 ≤ pf := le_trans (Nat.le_max_right _ _) hpf
        match pf, hF1, hF2 with
        | pf+1, hF1, hF2 =>
          refine deserializeInto_sstruct_steps pf attrs (f0 :: ftl) _
            (body ++ (writeNewline ind ++ (writeIndent ind dep
              ++ (Char.ofNat 125 :: rest)))) rest
            ((v0 :: vtl).map some) (v0 :: vtl) hspan ?_ ?_ ?_
          · rw [show out ++ rest = Char.ofNat 123 :: (body ++ (writeNewline ind
                ++ (writeIndent ind dep ++ (Char.ofNat 125 :: rest))))
              from by rw [hout]; simp]
            exact nextToken_lbrace _
          · have hloop := structFieldsLoop_ser_parse sf ind hind F attrs dep
              ((f0, v0) :: ftl.zip vtl) [] body hnd
              (by
                simpa only [List.map_cons] using hbody)
              (fun p hp o ho => (hel p hp o ho).1) hpl pf pf [] rest
              (by
                simp only [List.length_cons]
                rw [zipLen ftl vtl hlen2]
                omega)
              (by omega) allWs_nil
            simp only [List.nil_append, List.map_cons, List.map_nil] at hloop
            rw [zipMapFstComp (fun q => q) ftl vtl hlen2,
              zipMapSndComp some ftl vtl hlen2] at hloop
            rw [show List.replicate (f0 :: ftl).length (none : Option Val)
                = List.replicate (((f0, v0) :: ftl.zip vtl).length) none from by
              simp only [List.length_cons]
              rw [zipLen ftl vtl hlen2]]
            rw [show (ftl.map fun q => q : List (String × Bool × Sh)) = ftl from by
              simp] at hloop
            simpa only [List.map_cons] using hloop
          · exact resolveMissing_allSome pf attrs.hasDefaultAttr (f0 :: ftl) (v0 :: vtl)
              (by simp [hlen2])
      · intro rest hsep
        refine ⟨.lbrace, body ++ (writeNewline ind ++ (writeIndent ind dep
            ++ (Char.ofNat 125 :: rest))), ?_, fun hx => Token.noConfusion hx,
          fun _ hx => Token.noConfusion hx⟩
        rw [show out ++ rest = Char.ofNat 123 :: (body ++ (writeNewline ind
            ++ (writeIndent ind dep ++ (Char.ofNat 125 :: rest))))
          from by rw [hout]; simp]
        exact nextToken_lbrace _

/-- String-keyed maps round-trip (all entries preserved, in order). -/
theorem rt_smap (sf : Nat) (ind : Option String) (hind : indentOk ind) (hih : IHP sf ind)
    (vsh : Sh) (entries : List (String × Val)) (dep : Nat) (out : List Char) (cf : Nat)
    (h : serializeValue (sf+1) (.smap .sstring vsh) (.vmap entries) ind dep = .ok out)
    (hsh : canonShB (cf+1) (.smap .sstring vsh) = true)
    (hv : canonVB (cf+1) (.smap .sstring vsh) (.vmap entries) = true) :
    PGFT (.smap .sstring vsh) (.vmap entries) out := by
  have h2 : serObject (fun sh' v' d => serializeValue sf sh' v' ind d) ind dep
      (entries.map (fun p => (p.1, vsh, p.2))) = .ok out := h
  have hsh2 : canonShB cf vsh = true := by
    have hx : ((true : Bool) && canonShB cf vsh) = true := hsh
    simpa using hx
  have hents : ∀ p ∈ entries, plainName p.1 = true ∧ canonVB cf vsh p.2 = true := by
    have hx : entries.all (fun p => plainName p.1 && canonVB cf vsh p.2) = true := hv
    simp only [List.all_eq_true, Bool.and_eq_true] at hx
    exact hx
  cases entries with
  | nil =>
    have hout : ([Char.ofNat 123, Char.ofNat 125] : List Char) = out := Except.ok.inj h2
    constructor
    · refine ⟨2, fun pf rest hpf hsep => ?_⟩
      match pf, hpf with
      | pf+2, _ =>
        refine deserializeInto_smap_steps (pf+1) .sstring vsh _ (Char.ofNat 125 :: rest)
          [] rest ?_ ?_
        · rw [← hout, show ([Char.ofNat 123, Char.ofNat 125] : List Char) ++ rest
              = Char.ofNat 123 :: (Char.ofNat 125 :: rest) from rfl]
          exact nextToken_lbrace _
        · exact mapEntries_rbrace (deserializeInto (pf+1)) pf .sstring vsh [] _ rest
            (nextToken_rbrace rest)
    · intro rest hsep
      refine ⟨.lbrace, Char.ofNat 125 :: rest, ?_, fun hx => Token.noConfusion hx,
        fun _ hx => Token.noConfusion hx⟩
      rw [← hout, show ([Char.ofNat 123, Char.ofNat 125] : List Char) ++ rest
          = Char.ofNat 123 :: (Char.ofNat 125 :: rest) from rfl]
      exact nextToken_lbrace _
  | cons p0 ptl =>
    simp only [List.map_cons] at h2
    obtain ⟨body, hbody, hout⟩ :=
      serObject_cons _ ind dep (p0.1, vsh, p0.2) (ptl.map (fun p => (p.1, vsh, p.2))) out h2
    obtain ⟨F, hel⟩ := map_items_bound sf ind hih cf dep vsh hsh2 (p0 :: ptl)
      (fun p hp => (hents p hp).2)
    constructor
    · refine ⟨max (F+1) (ptl.length + 3), fun pf rest hpf hsep => ?_⟩
      have hF1 : F + 1 ≤ pf := le_trans (Nat.le_max_left _ _) hpf
      have hF2 : ptl.length + 3 ≤ pf := le_trans (Nat.le_max_right _ _) hpf
      match pf, hF1, hF2 with
      | pf+1, hF1, hF2 =>
        refine deserializeInto_smap_steps pf .sstring vsh _
          (body ++ (writeNewline ind ++ (writeIndent ind dep
            ++ (Char.ofNat 125 :: rest)))) (p0 :: ptl) rest ?_ ?_
        · rw [show out ++ rest = Char.ofNat 123 :: (body ++ (writeNewline ind
              ++ (writeIndent ind dep ++ (Char.ofNat 125 :: rest))))
            from by rw [hout]; simp]
          exact nextToken_lbrace _
        · have hloop := mapEntries_ser_parse sf ind hind F vsh dep (p0 :: ptl) body
            (by simpa only [List.map_cons] using hbody)
            (fun p hp o ho => (hel p hp o ho).1)
            (fun p hp => (hents p hp).1) pf pf [] [] rest
            (by simp only [List.length_cons]; omega) (by omega) allWs_nil
          simpa using hloop
    · intro rest hsep
      refine ⟨.lbrace, body ++ (writeNewline ind ++ (writeIndent ind dep
          ++ (Char.ofNat 125 :: rest))), ?_, fun hx => Token.noConfusion hx,
        fun _ hx => Token.noConfusion hx⟩
      rw [show out ++ rest = Char.ofNat 123 :: (body ++ (writeNewline ind
          ++ (writeIndent ind dep ++ (Char.ofNat 125 :: rest))))
        from by rw [hout]; simp]
      exact nextToken_lbrace _


/-- Externally-tagged enums round-trip: a fieldless variant as its bare name
string, a data-carrying variant as the single-key object. -/
theorem rt_senum (sf : Nat) (ind : Option String) (hind : indentOk ind) (hih : IHP sf ind)
    (attrs : EnumAttrs)
    (variants : List (String × VariantKind × List (String × Bool × Sh)))
    (name : String) (vs : List Val) (dep : Nat) (out : List Char) (cf : Nat)
    (h : serializeValue (sf+1) (.senum attrs variants) (.venum name vs) ind dep = .ok out)
    (hsh : canonShB (cf+1) (.senum attrs variants) = true)
    (hv : canonVB (cf+1) (.senum attrs variants) (.venum name vs) = true) :
    PGFT (.senum attrs variants) (.venum name vs) out := by
  obtain ⟨unt, tg, ct, tt⟩ := attrs
  have hshx : (!unt && tg.isNone && ct.isNone
      && variants.all (fun var =>
          plainName var.1
          && (match var.2.1 with
              | .unit => var.2.2.isEmpty
              | .tup => true
              | .strukt =>
                (match var.2.2 with
                 | [] => true
                 | fld :: _ =>
                   match fld.1.toList with
                   | [] => true
                   | c :: _ => !(isDigit c))
                  && strNodup (var.2.2.map (fun fld => fld.1)))
          && var.2.2.all (fun fld => plainName fld.1 && canonShB cf fld.2.2))) = true := hsh
  simp only [Bool.and_eq_true, Bool.not_eq_true', Option.isNone_iff_eq_none,
    List.all_eq_true] at hshx
  obtain ⟨⟨⟨hunt, htg⟩, hct⟩, hvars⟩ := hshx
  subst hunt htg hct
  have hv2 : (match findVariant variants name with
      | none => false
      | some var =>
        decide (var.2.2.length = vs.length)
          && (var.2.2.zip vs).all (fun p => canonVB cf p.1.2.2 p.2)) = true := hv
  cases hfv : findVariant variants name with
  | none =>
    rw [hfv] at hv2
    exact absurd hv2 (fun hx => Bool.noConfusion hx)
  | some var =>
    rw [hfv] at hv2
    have hv3 : (decide (var.2.2.length = vs.length)
        && (var.2.2.zip vs).all (fun p => canonVB cf p.1.2.2 p.2)) = true := hv2
    simp only [Bool.and_eq_true, decide_eq_true_eq, List.all_eq_true] at hv3
    obtain ⟨hlen, hallz⟩ := hv3
    have hname : var.1 = name := findVariant_eq_name variants name var hfv
    have hvmem : var ∈ variants := findVariant_mem variants name var hfv
    have hvarP := hvars var hvmem
    simp only [Bool.and_eq_true] at hvarP
    obtain ⟨⟨hplV, hkindP⟩, hfldall⟩ := hvarP
    have hplname : plainName name = true := by rw [← hname]; exact hplV
    have h2 : (match findVariant variants name with
        | none => Except.error (SerErr.panic "Failed to get active variant")
        | some var2 =>
          if vs.isEmpty = true then Except.ok (writeJsonString name)
          else
            match serEnumContent (fun sh' v' d => serializeValue sf sh' v' ind d)
                ind (dep + 1) var2.2.1 var2.2.2 vs with
            | Except.error e => Except.error e
            | Except.ok c =>
              Except.ok ('\x7b' :: writeNewline ind ++ writeIndent ind (dep + 1)
                ++ writeJsonString name ++ writeColon ind ++ c
                ++ writeNewline ind ++ writeIndent ind dep ++ ['\x7d'])) = Except.ok out := h
    rw [hfv] at h2
    have h3 : (if vs.isEmpty = true then Except.ok (writeJsonString name)
        else
          match serEnumContent (fun sh' v' d => serializeValue sf sh' v' ind d)
              ind (dep + 1) var.2.1 var.2.2 vs with
          | Except.error e => Except.error e
          | Except.ok c =>
            Except.ok ('\x7b' :: writeNewline ind ++ writeIndent ind (dep + 1)
              ++ writeJsonString name ++ writeColon ind ++ c
              ++ writeNewline ind ++ writeIndent ind dep ++ ['\x7d'])) = Except.ok out := h2
    cases vs with
    | nil =>
      have hout : writeJsonString name = out := Except.ok.inj h3
      have hflds0 : var.2.2 = [] := List.length_eq_zero.mp hlen
      constructor
      · refine ⟨1, fun pf rest hpf hsep => ?_⟩
        match pf, hpf with
        | pf+1, _ =>
          rw [deserializeInto_senum]
          have hsteps := deserializeEnumD_string_steps (deserializeInto pf) pf variants
            (out ++ rest) rest name false var
            (by
              rw [← hout]
              have hx := nextToken_render_string [] allWs_nil name hplname rest
              simpa using hx)
            hfv hflds0
          rw [hname] at hsteps
          exact hsteps
      · intro rest hsep
        refine ⟨.str name false, rest, ?_, fun hx => Token.noConfusion hx,
          fun _ hx => Token.noConfusion hx⟩
        rw [← hout]
        have hx := nextToken_render_string [] allWs_nil name hplname rest
        simpa using hx
    | cons w wtl =>
      have h4 : (match serEnumContent (fun sh' v' d => serializeValue sf sh' v' ind d)
            ind (dep + 1) var.2.1 var.2.2 (w :: wtl) with
          | Except.error e => Except.error e
          | Except.ok c =>
            Except.ok ('\x7b' :: writeNewline ind ++ writeIndent ind (dep + 1)
              ++ writeJsonString name ++ writeColon ind ++ c
              ++ writeNewline ind ++ writeIndent ind dep ++ ['\x7d'])) = Except.ok out := h3
      cases hc : serEnumContent (fun sh' v' d => serializeValue sf sh' v' ind d)
          ind (dep + 1) var.2.1 var.2.2 (w :: wtl) with
      | error e =>
        rw [hc] at h4
        exact absurd h4 (fun hx => Except.noConfusion hx)
      | ok c =>
        rw [hc] at h4
        have hout : '\x7b' :: writeNewline ind ++ writeIndent ind (dep + 1)
            ++ writeJsonString name ++ writeColon ind ++ c
            ++ writeNewline ind ++ writeIndent ind dep ++ ['\x7d'] = out := Except.ok.inj h4
        rcases hflds : var.2.2 with _ | ⟨fl0, fltl⟩
        · rw [hflds] at hlen
          simp at hlen
        · rcases hkind : var.2.1 with _ | _ | _
          · -- unit variant with fields: excluded by the canonical shape
            rw [hkind] at hkindP
            have hx : var.2.2.isEmpty = true := hkindP
            rw [hflds] at hx
            simp at hx
          · -- tuple variant
            cases fltl with
            | nil =>
              -- single-field tuple variant: content is the bare field value
              have hwtl : wtl = [] := by
                rw [hflds] at hlen
                simpa using hlen.symm
              subst hwtl
              rw [hflds, hkind] at hc
              have hc2 : serializeValue sf fl0.2.2 w ind (dep + 1) = .ok c := hc
              have hcanSh : canonShB cf fl0.2.2 = true := by
                have hx := hfldall fl0 (by rw [hflds]; simp)
                simp only [Bool.and_eq_true] at hx
                exact hx.2
              have hcanV : canonVB cf fl0.2.2 w = true := by
                have hx := hallz (fl0, w) (by rw [hflds]; simp)
                exact hx
              obtain ⟨⟨F, hPGc⟩, hFTc⟩ := hih fl0.2.2 w (dep + 1) c cf hc2 hcanSh hcanV
              constructor
              · refine ⟨F+1, fun pf rest hpf hsep => ?_⟩
                match pf, hpf with
                | pf+1, hpf =>
                  rw [deserializeInto_senum]
                  have hsepR2 : sep (writeNewline ind ++ (writeIndent ind dep
                      ++ (Char.ofNat 125 :: rest))) :=
                    sep_close ind hind dep _ (sep_rbrace rest)
                  have h5 := afterContentExpr_tup_single (deserializeInto pf) pf var
                    (colonTail ind ++ (c ++ (writeNewline ind ++ (writeIndent ind dep
                      ++ (Char.ofNat 125 :: rest)))))
                    (writeNewline ind ++ (writeIndent ind dep ++ (Char.ofNat 125 :: rest)))
                    fl0 w hkind hflds
                    (by
                      rw [deserializeInto_ws pf _ _ _ (allWs_colonTail ind)]
                      exact hPGc pf _ (Nat.le_of_succ_le_succ hpf) hsepR2)
                  rw [hname] at h5
                  have hsteps := deserializeEnumD_obj_steps (deserializeInto pf) pf variants
                    (out ++ rest) _ _ _ _ rest name false var (.venum name [w])
                    (by
                      rw [show out ++ rest = '\x7b' :: ((writeNewline ind
                          ++ writeIndent ind (dep + 1)) ++ (writeJsonString name
                          ++ (':' :: (colonTail ind ++ (c ++ (writeNewline ind
                          ++ (writeIndent ind dep ++ (Char.ofNat 125 :: rest))))))))
                        from by rw [← hout, writeColon_eq]; simp]
                      exact nextToken_lbrace _)
                    (nextToken_render_string _ (allWs_append _ _ (writeNewline_ws ind hind)
                      (writeIndent_ws ind hind (dep + 1))) name hplname _)
                    (nextToken_colon _) hfv h5
                    (by
                      rw [nextToken_ws _ (writeNewline_ws ind hind),
                        nextToken_ws _ (writeIndent_ws ind hind dep)]
                      exact nextToken_rbrace rest)
                  exact hsteps
              · intro rest hsep
                refine ⟨.lbrace, (writeNewline ind ++ writeIndent ind (dep + 1))
                    ++ (writeJsonString name ++ (':' :: (colonTail ind ++ (c
                    ++ (writeNewline ind ++ (writeIndent ind dep
                    ++ (Char.ofNat 125 :: rest))))))), ?_,
                  fun hx => Token.noConfusion hx, fun _ hx => Token.noConfusion hx⟩
                rw [show out ++ rest = '\x7b' :: ((writeNewline ind
                    ++ writeIndent ind (dep + 1)) ++ (writeJsonString name
                    ++ (':' :: (colonTail ind ++ (c ++ (writeNewline ind
                    ++ (writeIndent ind dep ++ (Char.ofNat 125 :: rest))))))))
                  from by rw [← hout, writeColon_eq]; simp]
                exact nextToken_lbrace _
            | cons fl1 flrest =>
              -- multi-field tuple variant: bracketed array content
              cases wtl with
              | nil =>
                rw [hflds] at hlen
                simp at hlen
              | cons w1 wrest =>
                have hlenz : flrest.length = wrest.length := by
                  rw [hflds] at hlen
                  simpa using hlen
                rw [hflds, hkind] at hc
                have hc2 : serArray (fun sh' v' d => serializeValue sf sh' v' ind d)
                    ind (dep + 1)
                    (((fl0 :: fl1 :: flrest).zip (w :: w1 :: wrest)).map
                      (fun p => (p.1.2.2, p.2))) = .ok c := hc
                simp only [List.zip_cons_cons, List.map_cons] at hc2
                obtain ⟨bodyA, hbodyA, hcout⟩ := serArray_cons _ ind (dep + 1)
                  (fl0.2.2, w) ((fl1.2.2, w1) :: ((flrest.zip wrest).map
                    (fun p => (p.1.2.2, p.2)))) c hc2
                obtain ⟨F, hel⟩ := named_items_bound sf ind hih cf (dep + 1)
                  ((fl0, w) :: (fl1, w1) :: flrest.zip wrest)
                  (by
                    intro p hp
                    have hfmem : p.1 ∈ var.2.2 := by
                      rw [hflds]
                      rcases List.mem_cons.mp hp with hp | hp
                      · subst hp; simp
                      rcases List.mem_cons.mp hp with hp | hp
                      · subst hp; simp
                      · obtain ⟨a, b⟩ := p
                        have := (List.of_mem_zip hp).1
                        simp [this]
                    have hzmem : p ∈ var.2.2.zip (w :: w1 :: wrest) := by
                      rw [hflds, List.zip_cons_cons, List.zip_cons_cons]
                      rcases List.mem_cons.mp hp with hp | hp
                      · subst hp; simp
                      rcases List.mem_cons.mp hp with hp | hp
                      · subst hp; simp
                      · simp [hp]
                    have hx := hfldall p.1 hfmem
                    simp only [Bool.and_eq_true] at hx
                    refine ⟨hx.2, ?_⟩
                    have hz := hallz p ?_
                    · obtain ⟨a, b⟩ := p
                      exact hz
                    · exact hzmem)
                constructor
                · refine ⟨max (F+1) (wrest.length + 4), fun pf rest hpf hsep => ?_⟩
                  have hF1 : F + 1 ≤ pf := le_trans (Nat.le_max_left _ _) hpf
                  have hF2 : wrest.length + 4 ≤ pf := le_trans (Nat.le_max_right _ _) hpf
                  match pf, hF1, hF2 with
                  | pf+1, hF1, hF2 =>
                    rw [deserializeInto_senum]
                    have hsepR2 : sep (writeNewline ind ++ (writeIndent ind dep
                        ++ (Char.ofNat 125 :: rest))) :=
                      sep_close ind hind dep _ (sep_rbrace rest)
                    have hloop := enumTupleFields_ser_parse sf ind hind F (dep + 1)
                      ((fl1, w1) :: flrest.zip wrest) (fl0, w) bodyA
                      (by
                        simp only [List.map_cons]
                        exact hbodyA)
                      (fun p hp o ho => (hel p hp o ho).1) pf pf [] []
                      (writeNewline ind ++ (writeIndent ind dep ++ (Char.ofNat 125 :: rest)))
                      (by
                        simp only [List.length_cons]
                        rw [zipLen flrest wrest hlenz]
                        omega)
                      (by omega) allWs_nil
                    simp only [List.nil_append, List.reverse_nil, List.map_cons] at hloop
                    rw [zipMapFstComp (fun q => q) flrest wrest hlenz,
                      zipMapSndComp (fun q => q) flrest wrest hlenz] at hloop
                    rw [show (flrest.map fun q => q : List (String × Bool × Sh)) = flrest
                      from by simp] at hloop
                    rw [show (wrest.map fun q => q : List Val) = wrest from by simp] at hloop
                    have h5 := afterContentExpr_tup_multi (deserializeInto pf) pf var
                      (colonTail ind ++ ('[' :: (bodyA ++ (writeNewline ind
                        ++ (writeIndent ind (dep + 1) ++ (']' :: (writeNewline ind
                        ++ (writeIndent ind dep ++ (Char.ofNat 125 :: rest)))))))))
                      (bodyA ++ (writeNewline ind ++ (writeIndent ind (dep + 1)
                        ++ (']' :: (writeNewline ind ++ (writeIndent ind dep
                        ++ (Char.ofNat 125 :: rest)))))))
                      (writeNewline ind ++ (writeIndent ind (dep + 1)
                        ++ (']' :: (writeNewline ind ++ (writeIndent ind dep
                        ++ (Char.ofNat 125 :: rest))))))
                      (writeNewline ind ++ (writeIndent ind dep ++ (Char.ofNat 125 :: rest)))
                      fl0 fl1 flrest (w :: w1 :: wrest) hkind hflds
                      (by
                        rw [nextToken_ws _ (allWs_colonTail ind)]
                        exact nextToken_lbracket _)
                      hloop
                      (by
                        rw [nextToken_ws _ (writeNewline_ws ind hind),
                          nextToken_ws _ (writeIndent_ws ind hind (dep + 1))]
                        exact nextToken_rbracket _)
                    rw [hname] at h5
                    have hsteps := deserializeEnumD_obj_steps (deserializeInto pf) pf
                      variants (out ++ rest) _ _ _ _ rest name false var
                      (.venum name (w :: w1 :: wrest))
                      (by
                        rw [show out ++ rest = '\x7b' :: ((writeNewline ind
                            ++ writeIndent ind (dep + 1)) ++ (writeJsonString name
                            ++ (':' :: (colonTail ind ++ ('[' :: (bodyA
                            ++ (writeNewline ind ++ (writeIndent ind (dep + 1)
                            ++ (']' :: (writeNewline ind ++ (writeIndent ind dep
                            ++ (Char.ofNat 125 :: rest))))))))))))
                          from by rw [← hout, hcout, writeColon_eq]; simp]
                        exact nextToken_lbrace _)
                      (nextToken_render_string _ (allWs_append _ _
                        (writeNewline_ws ind hind) (writeIndent_ws ind hind (dep + 1)))
                        name hplname _)
                      (nextToken_colon _) hfv h5
                      (by
                        rw [nextToken_ws _ (writeNewline_ws ind hind),
                          nextToken_ws _ (writeIndent_ws ind hind dep)]
                        exact nextToken_rbrace rest)
                    exact hsteps
                · intro rest hsep
                  refine ⟨.lbrace, (writeNewline ind ++ writeIndent ind (dep + 1))
                      ++ (writeJsonString name ++ (':' :: (colonTail ind ++ ('[' :: (bodyA
                      ++ (writeNewline ind ++ (writeIndent ind (dep + 1)
                      ++ (']' :: (writeNewline ind ++ (writeIndent ind dep
                      ++ (Char.ofNat 125 :: rest))))))))))), ?_,
                    fun hx => Token.noConfusion hx, fun _ hx => Token.noConfusion hx⟩
                  rw [show out ++ rest = '\x7b' :: ((writeNewline ind
                      ++ writeIndent ind (dep + 1)) ++ (writeJsonString name
                      ++ (':' :: (colonTail ind ++ ('[' :: (bodyA
                      ++ (writeNewline ind ++ (writeIndent ind (dep + 1)
                      ++ (']' :: (writeNewline ind ++ (writeIndent ind dep
                      ++ (Char.ofNat 125 :: rest))))))))))))
                    from by rw [← hout, hcout, writeColon_eq]; simp]
                  exact nextToken_lbrace _
          · -- struct variant
            rw [hkind] at hkindP
            have hkx : ((match var.2.2 with
                | [] => true
                | fld :: _ =>
                  match fld.1.toList with
                  | [] => true
                  | c :: _ => !(isDigit c))
                && strNodup (var.2.2.map (fun fld => fld.1))) = true := hkindP
            rw [hflds] at hkx
            simp only [Bool.and_eq_true] at hkx
            obtain ⟨hhead, hndV⟩ := hkx
            have hlenz : fltl.length = wtl.length := by
              rw [hflds] at hlen
              simpa using hlen
            rw [hflds, hkind] at hc
            have hc2 : serObject (fun sh' v' d => serializeValue sf sh' v' ind d)
                ind (dep + 1)
                (((fl0 :: fltl).zip (w :: wtl)).map
                  (fun p => (p.1.1, p.1.2.2, p.2))) = .ok c := hc
            simp only [List.zip_cons_cons, List.map_cons] at hc2
            obtain ⟨bodyO, hbodyO, hcout⟩ := serObject_cons _ ind (dep + 1)
              (fl0.1, fl0.2.2, w) ((fltl.zip wtl).map
                (fun p => (p.1.1, p.1.2.2, p.2))) c hc2
            obtain ⟨F, hel⟩ := named_items_bound sf ind hih cf (dep + 1)
              ((fl0, w) :: fltl.zip wtl)
              (by
                intro p hp
                have hfmem : p.1 ∈ var.2.2 := by
                  rw [hflds]
                  rcases List.mem_cons.mp hp with hp | hp
                  · subst hp; simp
                  · obtain ⟨a, b⟩ := p
                    have := (List.of_mem_zip hp).1
                    simp [this]
                have hzmem : p ∈ var.2.2.zip (w :: wtl) := by
                  rw [hflds, List.zip_cons_cons]
                  rcases List.mem_cons.mp hp with hp | hp
                  · subst hp; simp
                  · simp [hp]
                have hx := hfldall p.1 hfmem
                simp only [Bool.and_eq_true] at hx
                refine ⟨hx.2, ?_⟩
                have hz := hallz p hzmem
                exact hz)
            have hpl : ∀ p ∈ (fl0, w) :: fltl.zip wtl, plainName p.1.1 = true := by
              intro p hp
              have hfmem : p.1 ∈ var.2.2 := by
                rw [hflds]
                rcases List.mem_cons.mp hp with hp | hp
                · subst hp; simp
                · obtain ⟨a, b⟩ := p
                  have := (List.of_mem_zip hp).1
                  simp [this]
              have hx := hfldall p.1 hfmem
              simp only [Bool.and_eq_true] at hx
              exact hx.1
            have hnd : strNodup ((([] : List ((String × Bool × Sh) × Val))
                ++ ((fl0, w) :: fltl.zip wtl)).map (fun p => p.1.1)) = true := by
              simp only [List.nil_append, List.map_cons]
              rw [zipMapFstComp (fun fl => fl.1) fltl wtl hlenz]
              simpa only [List.map_cons] using hndV
            constructor
            · refine ⟨max (F+1) (wtl.length + 3), fun pf rest hpf hsep => ?_⟩
              have hF1 : F + 1 ≤ pf := le_trans (Nat.le_max_left _ _) hpf
              have hF2 : wtl.length + 3 ≤ pf := le_trans (Nat.le_max_right _ _) hpf
              match pf, hF1, hF2 with
              | pf+1, hF1, hF2 =>
                rw [deserializeInto_senum]
                have hloop := variantStructFieldsLoop_ser_parse sf ind hind F (dep + 1)
                  ((fl0, w) :: fltl.zip wtl) [] bodyO hnd
                  (by simpa only [List.map_cons] using hbodyO)
                  (fun p hp o ho => (hel p hp o ho).1) hpl pf pf []
                  (writeNewline ind ++ (writeIndent ind dep ++ (Char.ofNat 125 :: rest)))
                  (by
                    simp only [List.length_cons]
                    rw [zipLen fltl wtl hlenz]
                    omega)
                  (by omega) allWs_nil
                simp only [List.nil_append, List.map_cons, List.map_nil] at hloop
                rw [zipMapFstComp (fun q => q) fltl wtl hlenz,
                  zipMapSndComp some fltl wtl hlenz] at hloop
                rw [show (fltl.map fun q => q : List (String × Bool × Sh)) = fltl
                  from by simp] at hloop
                have h5' := variantStructContentD_struct_steps (deserializeInto pf) pf
                  var.1 fl0 fltl
                  (colonTail ind ++ (Char.ofNat 123 :: (bodyO ++ (writeNewline ind
                    ++ (writeIndent ind (dep + 1) ++ (Char.ofNat 125 :: (writeNewline ind
                    ++ (writeIndent ind dep ++ (Char.ofNat 125 :: rest)))))))))
                  (bodyO ++ (writeNewline ind ++ (writeIndent ind (dep + 1)
                    ++ (Char.ofNat 125 :: (writeNewline ind ++ (writeIndent ind dep
                    ++ (Char.ofNat 125 :: rest)))))))
                  (writeNewline ind ++ (writeIndent ind dep ++ (Char.ofNat 125 :: rest)))
                  ((w :: wtl).map some) (w :: wtl) hhead
                  (by
                    rw [nextToken_ws _ (allWs_colonTail ind)]
                    exact nextToken_lbrace _)
                  (by
                    rw [show List.replicate (fl0 :: fltl).length (none : Option Val)
                        = List.replicate (((fl0, w) :: fltl.zip wtl).length) none from by
                      simp only [List.length_cons]
                      rw [zipLen fltl wtl hlenz]]
                    simpa only [List.map_cons] using hloop)
                  (buildVariantFields_allSome (fl0 :: fltl) (w :: wtl) (by simp [hlenz]))
                have h5 := afterContentExpr_strukt (deserializeInto pf) pf var
                  (colonTail ind ++ (Char.ofNat 123 :: (bodyO ++ (writeNewline ind
                    ++ (writeIndent ind (dep + 1) ++ (Char.ofNat 125 :: (writeNewline ind
                    ++ (writeIndent ind dep ++ (Char.ofNat 125 :: rest)))))))))
                  (.venum var.1 (w :: wtl),
                    writeNewline ind ++ (writeIndent ind dep ++ (Char.ofNat 125 :: rest)))
                  hkind (by rw [hflds]; exact h5')
                rw [hname] at h5
                have hsteps := deserializeEnumD_obj_steps (deserializeInto pf) pf
                  variants (out ++ rest) _ _ _ _ rest name false var
                  (.venum name (w :: wtl))
                  (by
                    rw [show out ++ rest = '\x7b' :: ((writeNewline ind
                        ++ writeIndent ind (dep + 1)) ++ (writeJsonString name
                        ++ (':' :: (colonTail ind ++ (Char.ofNat 123 :: (bodyO
                        ++ (writeNewline ind ++ (writeIndent ind (dep + 1)
                        ++ (Char.ofNat 125 :: (writeNewline ind ++ (writeIndent ind dep
                        ++ (Char.ofNat 125 :: rest))))))))))))
                      from by rw [← hout, hcout, writeColon_eq]; simp]
                    exact nextToken_lbrace _)
                  (nextToken_render_string _ (allWs_append _ _
                    (writeNewline_ws ind hind) (writeIndent_ws ind hind (dep + 1)))
                    name hplname _)
                  (nextToken_colon _) hfv h5
                  (by
                    rw [nextToken_ws _ (writeNewline_ws ind hind),
                      nextToken_ws _ (writeIndent_ws ind hind dep)]
                    exact nextToken_rbrace rest)
                exact hsteps
            · intro rest hsep
              refine ⟨.lbrace, (writeNewline ind ++ writeIndent ind (dep + 1))
                  ++ (writeJsonString name ++ (':' :: (colonTail ind
                  ++ (Char.ofNat 123 :: (bodyO ++ (writeNewline ind
                  ++ (writeIndent ind (dep + 1) ++ (Char.ofNat 125 :: (writeNewline ind
                  ++ (writeIndent ind dep ++ (Char.ofNat 125 :: rest))))))))))), ?_,
                fun hx => Token.noConfusion hx, fun _ hx => Token.noConfusion hx⟩
              rw [show out ++ rest = '\x7b' :: ((writeNewline ind
                  ++ writeIndent ind (dep + 1)) ++ (writeJsonString name
                  ++ (':' :: (colonTail ind ++ (Char.ofNat 123 :: (bodyO
                  ++ (writeNewline ind ++ (writeIndent ind (dep + 1)
                  ++ (Char.ofNat 125 :: (writeNewline ind ++ (writeIndent ind dep
                  ++ (Char.ofNat 125 :: rest))))))))))))
                from by rw [← hout, hcout, writeColon_eq]; simp]
              exact nextToken_lbrace _

/-- The round trip, by induction on the serializer's fuel: everything a
canonical value serializes to parses back to the same value. -/
theorem rt_parse (ind : Option String) (hind : indentOk ind) : ∀ (sf : Nat), IHP sf ind := by
  intro sf
  induction sf with
  | zero =>
    intro sh v dep out cf h _ _
    exact absurd h (fun hx => Except.noConfusion hx)
  | succ sf ih =>
    intro sh v dep out cf h hsh hv
    rcases cf with _ | cf
    · rw [show canonShB 0 sh = false from rfl] at hsh
      exact absurd hsh (fun hx => Bool.noConfusion hx)
    cases sh with
    | sbool =>
      cases v <;> first
        | exact rt_sbool sf ind _ dep out h
        | exact absurd h (fun hx => Except.noConfusion hx)
    | sint size signed =>
      cases v <;> first
        | exact rt_sint sf ind size signed _ dep out cf h hsh hv
        | exact absurd h (fun hx => Except.noConfusion hx)
    | sfloat size =>
      rw [show canonShB (cf+1) (.sfloat size) = false from rfl] at hsh
      exact absurd hsh (fun hx => Bool.noConfusion hx)
    | sstring =>
      cases v <;> first
        | exact rt_sstring sf ind _ dep out cf h hv
        | exact absurd h (fun hx => Except.noConfusion hx)
    | strRef =>
      cases v <;> first
        | exact rt_strRef sf ind _ dep out cf h hv
        | exact absurd h (fun hx => Except.noConfusion hx)
    | soption inner =>
      cases v <;> first
        | exact rt_vnone sf ind inner dep out h
        | exact rt_vsome sf ind ih inner _ dep out cf h hsh hv
        | exact absurd h (fun hx => Except.noConfusion hx)
    | sptr hb inner =>
      have hb1 : hb = true := by
        have hx : (hb && canonShB cf inner) = true := hsh
        exact (Bool.and_eq_true .. |>.mp hx).1
      subst hb1
      cases v <;> first
        | exact rt_sptr sf ind ih inner _ dep out cf h hsh hv
        | exact absurd h (fun hx => Except.noConfusion hx)
    | stransparent inner =>
      exact rt_stransparent sf ind ih inner v dep out cf h hsh hv
    | slist e =>
      cases v <;> first
        | exact rt_slist sf ind hind ih e _ dep out cf h hsh hv
        | exact absurd h (fun hx => Except.noConfusion hx)
    | sset e =>
      cases v <;> first
        | exact rt_sset sf ind hind ih e _ dep out cf h hsh hv
        | exact absurd h (fun hx => Except.noConfusion hx)
    | sarray e n =>
      cases v <;> first
        | exact rt_sarray sf ind hind ih e n _ dep out cf h hsh hv
        | exact absurd h (fun hx => Except.noConfusion hx)
    | stuple es =>
      cases v <;> first
        | exact rt_stuple sf ind hind ih es _ dep out cf h hsh hv
        | exact absurd h (fun hx => Except.noConfusion hx)
    | sstruct attrs fields =>
      cases v <;> first
        | exact rt_sstruct sf ind hind ih attrs fields _ dep out cf h hsh hv
        | exact absurd h (fun hx => Except.noConfusion hx)
    | smap ksh vsh =>
      cases ksh
      case sstring =>
        cases v <;> first
          | exact rt_smap sf ind hind ih vsh _ dep out cf h hsh hv
          | exact absurd h (fun hx => Except.noConfusion hx)
      all_goals
        exact absurd (show ((false : Bool) && canonShB cf vsh) = true from hsh) (by simp)
    | senum attrs variants =>
      cases v <;> first
        | exact rt_senum sf ind hind ih attrs variants _ _ dep out cf h hsh hv
        | exact absurd h (fun hx => Except.noConfusion hx)

/-- The Unicode BOM is not a valid token start. -/
theorem nextToken_bom (cs : List Char) :
    nextToken (Char.ofNat 0xFEFF :: cs)
      = .error (.unexpectedCharacter (Char.ofNat 0xFEFF)) := rfl

/-- On a BOM-free rendering, `from_str` is `from_slice_inner`. -/
theorem fromStr_mk (f : Nat) (sh : Sh) (out : List Char)
    (hb : ∀ c out2, out = c :: out2 → ¬(c = Char.ofNat 0xFEFF)) :
    fromStr f sh (String.mk out) = fromSliceInner f sh out := by
  unfold fromStr
  show (match out with
    | c :: rest =>
      if c = Char.ofNat 0xFEFF then fromSliceInner f sh rest
      else fromSliceInner f sh (c :: rest)
    | [] => fromSliceInner f sh []) = _
  cases out with
  | nil => rfl
  | cons c out2 =>
    show (if c = Char.ofNat 0xFEFF then fromSliceInner f sh out2
      else fromSliceInner f sh (c :: out2)) = _
    rw [if_neg (hb c out2 rfl)]

/-- From a serializer run to a full `from_str` run: the rendering parses back
(with the BOM check falling through, the parser consuming the whole input,
and the trailing-`EOF` check succeeding). -/
theorem serialize_fromStr (ind : Option String) (hind : indentOk ind)
    (sf : Nat) (sh : Sh) (v : Val) (cf : Nat) (out : List Char)
    (hser : serializeValue sf sh v ind 0 = .ok out)
    (hsh : canonShB cf sh = true) (hv : canonVB cf sh v = true) :
    ∃ f, fromStr f sh (String.mk out) = .ok v := by
  obtain ⟨⟨F, hPG⟩, hFT⟩ := rt_parse ind hind sf sh v 0 out cf hser hsh hv
  have hPG0 : deserializeInto F sh out = .ok (v, []) := by
    have hx := hPG F [] (Nat.le_refl F) sep_nil
    simpa using hx
  have hinner : fromSliceInner F sh out = .ok v := by
    unfold fromSliceInner
    rw [hPG0]
    rfl
  refine ⟨F, ?_⟩
  rw [fromStr_mk F sh out ?_]
  · exact hinner
  · intro c out2 hco hceq
    obtain ⟨tok, r, hnt, _, _⟩ := hFT [] sep_nil
    rw [hco, hceq] at hnt
    rw [show (Char.ofNat 0xFEFF :: out2) ++ ([] : List Char)
        = Char.ofNat 0xFEFF :: (out2 ++ []) from rfl, nextToken_bom] at hnt
    exact Except.noConfusion hnt

/-- C1: amended round-trip property.  Over the canonical fragment delimited by
`canonShB`/`canonVB` (sized integers outside the two 128-bit builder-mismatch
windows, no floats, borrow-capable pointers, non-null-rendering `Some`
payloads, plain escape-free strings and key names, distinct field names,
string-keyed maps, externally-tagged enums with plainly-named variants whose
struct-variant field names do not start with a digit), deserializing the
output of `to_string` or `to_string_pretty` returns the original value.  This
amends the claim's unqualified round trip: outside this fragment the round
trip fails (see the adjacently-tagged counterexample). -/
theorem c1_round_trip_canonical :
    (∀ (sf cf : Nat) (sh : Sh) (v : Val) (s : String),
      canonShB cf sh = true → canonVB cf sh v = true →
      to_string sf sh v = .ok s → ∃ f, fromStr f sh s = .ok v)
    ∧ (∀ (sf cf : Nat) (sh : Sh) (v : Val) (s : String),
      canonShB cf sh = true → canonVB cf sh v = true →
      to_string_pretty sf sh v = .ok s → ∃ f, fromStr f sh s = .ok v) := by
  constructor
  · intro sf cf sh v s hsh hv hts
    unfold to_string at hts
    cases hser : serializeValue sf sh v none 0 with
    | error e =>
      rw [hser] at hts
      exact absurd hts (fun hx => Except.noConfusion hx)
    | ok out =>
      rw [hser] at hts
      have hs : String.mk out = s := Except.ok.inj hts
      rw [← hs]
      exact serialize_fromStr none (Or.inl rfl) sf sh v cf out hser hsh hv
  · intro sf cf sh v s hsh hv hts
    unfold to_string_pretty at hts
    cases hser : serializeValue sf sh v (some "  ") 0 with
    | error e =>
      rw [hser] at hts
      exact absurd hts (fun hx => Except.noConfusion hx)
    | ok out =>
      rw [hser] at hts
      have hs : String.mk out = s := Except.ok.inj hts
      rw [← hs]
      exact serialize_fromStr (some "  ") (Or.inr rfl) sf sh v cf out hser hsh hv

/-- The adjacently tagged enum of the C1 counterexample: `tag = "t"`,
`content = "c"`, one unit variant `U`. -/
def shAdj : Sh :=
  .senum { tag := some "t", content := some "c" } [("U", .unit, [])]

/-- C1 counterexample to the unqualified claim: the serializer renders the
adjacently tagged unit variant as `{"t":"U"}` (src/serialize.rs:327-347), but
`deserialize_enum` implements only the externally tagged form and treats `t`
as a variant name, failing with `NoVariantNamed("t")` at any parser fuel. -/
theorem c1_adjacent_tag_not_round_trip :
    to_string 3 shAdj (.venum "U" []) = .ok "\x7b\"t\":\"U\"\x7d"
    ∧ ∀ f : Nat, fromStr (f+1) shAdj "\x7b\"t\":\"U\"\x7d"
        = .error (.reflect (.noVariantNamed "t")) := by
  constructor
  · rfl
  · intro f
    rfl

/-- Witness shape for the C1 round trip: a two-field struct. -/
def shW : Sh :=
  .sstruct {} [("a", false, .sint 8 true), ("b", false, .soption .sstring)]

/-- Witness value for the C1 round trip. -/
def vW : Val := .vstruct [.vint 5, .vsome (.vstr "hi")]

/-- Witness for C1's amended round trip at a concrete input: the struct value
serializes compactly and parses back. -/
theorem c1_witness :
    canonShB 3 shW = true ∧ canonVB 3 shW vW = true
    ∧ to_string 9 shW vW = .ok "\x7b\"a\":5,\"b\":\"hi\"\x7d"
    ∧ (∃ f, fromStr f shW "\x7b\"a\":5,\"b\":\"hi\"\x7d" = .ok vW) :=
  ⟨by decide, by decide, by rfl,
    c1_round_trip_canonical.1 9 3 shW vW "\x7b\"a\":5,\"b\":\"hi\"\x7d"
      (by decide) (by decide) (by rfl)⟩

end FacetJson
